import Mathlib

/-! The master lock of `otherlibs/systhreads/st_pthreads.h`

A shallow embedding of `st_masterlock_init`, `st_masterlock_waiters`,
`st_bt_lock_acquire`, `st_bt_lock_release`, `st_masterlock_acquire`,
`st_masterlock_release` and `st_thread_yield`.

Two views of the same code are given.

* The *sequential* view runs one call of a function and records, in source
  order, every effect it performs (an effect trace).  What the other threads
  did while the caller was blocked in `custom_condvar_wait` is an input: the
  list of lock contents found at each return of the wait.
* The *step* view interleaves several threads.  Every stretch of code that
  runs with `m->lock` held is one atomic step; the stretches are the very
  functions the sequential view is made of.
-/

namespace StPthreads

/-! ## Data model -/

/-- Number of values of a `uintnat` (64-bit targets). -/
def uintnat_modulus : Nat := 18446744073709551616

/-- The fields of `st_masterlock` that hold data (lines 70-77).  The mutex
`lock` and the condition variable `is_free` are not data: they appear as
effects.  `busy` is a `uintnat`, `waiters` an `atomic_uintnat`. -/
structure st_masterlock where
  init : Nat
  busy : Nat
  waiters : Nat
deriving DecidableEq, Repr

/-- Process-wide lock mode: the global `domain_lockmode` and the enumerator
`LOCKMODE_DOMAINS` it is compared with.  Both are declared outside this file,
so they are parameters. -/
structure Config where
  LOCKMODE_DOMAINS : Nat
  domain_lockmode : Nat
deriving DecidableEq, Repr

/-- The observable actions of the lock code, one constructor per primitive
call or field access. -/
inductive Effect where
  | mutex_init (rc : Int)
  | mutex_destroy
  | condvar_init (rc : Int)
  | mutex_lock
  | mutex_unlock
  | read_busy (v : Nat)
  | set_busy (v : Nat)
  | read_waiters (v : Nat)
  | store_waiters (v : Nat)
  | incr_waiters
  | decr_waiters
  | condvar_wait
  | condvar_wake
  | condvar_signal
  | condvar_broadcast
  | bt_is_in_blocking_section (r : Nat)
  | bt_enter_ocaml
  | bt_exit_ocaml
  | acquire_domain_lock
  | release_domain_lock
deriving DecidableEq, Repr

/-- How a stretch of code run under `m->lock` ends: the thread either went to
sleep in `custom_condvar_wait` (which gives the mutex up) or unlocked the mutex
and went on to the end of the function. -/
inductive Outcome where
  | parked
  | returned
deriving DecidableEq, Repr

/-- The C operation `atomic_fetch_add(&m->waiters, d)` on an `atomic_uintnat`
for a positive `d`: addition modulo the word size. -/
def atomic_fetch_add (w d : Nat) : Nat := (w + d) % uintnat_modulus

/-- The call `atomic_fetch_add(&m->waiters, -1)`: one less modulo the word
size, so that 0 wraps to the largest `uintnat`. -/
def atomic_fetch_add_minus_one (w : Nat) : Nat :=
  if w = 0 then uintnat_modulus - 1 else (w - 1) % uintnat_modulus

/-! ## Sequential view -/

/-- Lines 80-98.  `rc_mutex` and `rc_cond` are the return codes
`pthread_mutex_init` and `custom_condvar_init` give when called. -/
def st_masterlock_init (rc_mutex rc_cond : Int) (m : st_masterlock) :
    Int × st_masterlock × List Effect :=
  if m.init = 0 then
    if rc_mutex ≠ 0 then (rc_mutex, m, [Effect.mutex_init rc_mutex])
    else if rc_cond ≠ 0 then
      (rc_cond, m, [Effect.mutex_init rc_mutex, Effect.condvar_init rc_cond, Effect.mutex_destroy])
    else
      (0, { init := 1, busy := 1, waiters := 0 },
        [Effect.mutex_init rc_mutex, Effect.condvar_init rc_cond, Effect.set_busy 1,
         Effect.store_waiters 0])
  else
    (0, { m with busy := 1, waiters := 0 }, [Effect.set_busy 1, Effect.store_waiters 0])

/-- Lines 100-103. -/
def st_masterlock_waiters (m : st_masterlock) : Nat := m.waiters

/-- Lines 105-117.  `bt` is what `caml_bt_is_in_blocking_section()` returns. -/
def st_bt_lock_acquire (bt : Nat) : List Effect :=
  [Effect.bt_is_in_blocking_section bt]
    ++ (if bt ≠ 0 then [Effect.bt_enter_ocaml] else [])
    ++ [Effect.acquire_domain_lock]

/-- Lines 119-132.  The `&&` is short-circuit: the blocking-section query is
made only when the waiter count read first is zero. -/
def st_bt_lock_release (bt : Nat) (m : st_masterlock) : List Effect :=
  [Effect.read_waiters (st_masterlock_waiters m)]
    ++ (if st_masterlock_waiters m = 0 then
          [Effect.bt_is_in_blocking_section bt]
            ++ (if bt = 0 then [Effect.bt_exit_ocaml] else [])
        else [])
    ++ [Effect.release_domain_lock]

/-- Lines 137-145 of `st_masterlock_acquire`, from the loop test with the
mutex held: either the lock is busy and the thread registers and waits
(lines 138-139), or it takes the lock, runs the hook and unlocks
(lines 142-145). -/
def acquire_test (c : Config) (bt : Nat) (m : st_masterlock) :
    st_masterlock × List Effect × Outcome :=
  if m.busy ≠ 0 then
    ({ m with waiters := atomic_fetch_add m.waiters 1 },
      [Effect.read_busy m.busy, Effect.incr_waiters, Effect.condvar_wait], Outcome.parked)
  else
    ({ m with busy := 1 },
      [Effect.read_busy m.busy, Effect.set_busy 1]
        ++ (if c.domain_lockmode = c.LOCKMODE_DOMAINS then st_bt_lock_acquire bt else [])
        ++ [Effect.mutex_unlock],
      Outcome.returned)

/-- Line 136, then the loop test. -/
def acquire_enter (c : Config) (bt : Nat) (m : st_masterlock) :
    st_masterlock × List Effect × Outcome :=
  let r := acquire_test c bt m
  (r.1, Effect.mutex_lock :: r.2.1, r.2.2)

/-- The return of `custom_condvar_wait` in `st_masterlock_acquire` (mutex held
again), line 140, then the loop test.  `m` is the lock as the thread finds
it. -/
def acquire_resume (c : Config) (bt : Nat) (m : st_masterlock) :
    st_masterlock × List Effect × Outcome :=
  let r := acquire_test c bt { m with waiters := atomic_fetch_add_minus_one m.waiters }
  (r.1, Effect.condvar_wake :: Effect.decr_waiters :: r.2.1, r.2.2)

/-- The wait loop of `st_masterlock_acquire`: `cur` is the result of the code
run so far, `wakeups` the lock contents found at each later return of
`custom_condvar_wait`.  `none`: the thread is still blocked when the wakeups
are used up. -/
def acquire_loop (c : Config) (bt : Nat) :
    st_masterlock × List Effect × Outcome → List st_masterlock →
      Option (st_masterlock × List Effect)
  | (m, t, Outcome.returned), _ => some (m, t)
  | (_, _, Outcome.parked), [] => none
  | (_, t, Outcome.parked), w :: ws =>
      acquire_loop c bt
        ((acquire_resume c bt w).1, t ++ (acquire_resume c bt w).2.1, (acquire_resume c bt w).2.2) ws

/-- Lines 134-148. -/
def st_masterlock_acquire (c : Config) (bt : Nat) (m : st_masterlock)
    (wakeups : List st_masterlock) : Option (st_masterlock × List Effect) :=
  acquire_loop c bt (acquire_enter c bt m) wakeups

/-- Lines 152-156 of `st_masterlock_release`: the critical section. -/
def release_section (c : Config) (bt : Nat) (m : st_masterlock) :
    st_masterlock × List Effect :=
  ({ m with busy := 0 },
    [Effect.mutex_lock, Effect.set_busy 0]
      ++ (if c.domain_lockmode = c.LOCKMODE_DOMAINS then
            st_bt_lock_release bt { m with busy := 0 } else [])
      ++ [Effect.mutex_unlock])

/-- Lines 150-160. -/
def st_masterlock_release (c : Config) (bt : Nat) (m : st_masterlock) :
    st_masterlock × List Effect :=
  ((release_section c bt m).1, (release_section c bt m).2 ++ [Effect.condvar_signal])

/-- Lines 173-201 of `st_thread_yield`: from the entry to the early return
(lines 181-184) or to the first `custom_condvar_wait`. -/
def yield_enter (c : Config) (m : st_masterlock) : st_masterlock × List Effect × Outcome :=
  if st_masterlock_waiters m = 0 then
    (m, [Effect.mutex_lock, Effect.read_waiters (st_masterlock_waiters m), Effect.mutex_unlock],
      Outcome.returned)
  else
    ({ m with busy := 0, waiters := atomic_fetch_add m.waiters 1 },
      [Effect.mutex_lock, Effect.read_waiters (st_masterlock_waiters m), Effect.set_busy 0,
       Effect.incr_waiters, Effect.condvar_signal]
        ++ (if c.domain_lockmode = c.LOCKMODE_DOMAINS then [Effect.release_domain_lock] else [])
        ++ [Effect.condvar_wait],
      Outcome.parked)

/-- The return of `custom_condvar_wait` in `st_thread_yield` (mutex held
again): the `while (m->busy)` test of line 202, then either another wait
(line 201) or lines 204-210. -/
def yield_resume (c : Config) (m : st_masterlock) : st_masterlock × List Effect × Outcome :=
  if m.busy ≠ 0 then
    (m, [Effect.condvar_wake, Effect.read_busy m.busy, Effect.condvar_wait], Outcome.parked)
  else
    ({ m with busy := 1, waiters := atomic_fetch_add_minus_one m.waiters },
      [Effect.condvar_wake, Effect.read_busy m.busy, Effect.set_busy 1, Effect.decr_waiters]
        ++ (if c.domain_lockmode = c.LOCKMODE_DOMAINS then [Effect.acquire_domain_lock] else [])
        ++ [Effect.mutex_unlock],
      Outcome.returned)

/-- The `do ... while (m->busy)` loop of `st_thread_yield`, in the manner of
`acquire_loop`. -/
def yield_loop (c : Config) :
    st_masterlock × List Effect × Outcome → List st_masterlock →
      Option (st_masterlock × List Effect)
  | (m, t, Outcome.returned), _ => some (m, t)
  | (_, _, Outcome.parked), [] => none
  | (_, t, Outcome.parked), w :: ws =>
      yield_loop c ((yield_resume c w).1, t ++ (yield_resume c w).2.1, (yield_resume c w).2.2) ws

/-- Lines 171-213. -/
def st_thread_yield (c : Config) (m : st_masterlock) (wakeups : List st_masterlock) :
    Option (st_masterlock × List Effect) :=
  yield_loop c (yield_enter c m) wakeups

/-! ### Reading a trace -/

/-- Number of occurrences of the effect `e` in a trace. -/
def occurrences (e : Effect) (t : List Effect) : Nat := t.count e

/-- The waiter count after the `atomic_fetch_add`s of a trace, in order, have
been applied to `w`. -/
def apply_waiter_ops : List Effect → Nat → Nat
  | [], w => w
  | Effect.incr_waiters :: t, w => apply_waiter_ops t (atomic_fetch_add w 1)
  | Effect.decr_waiters :: t, w => apply_waiter_ops t (atomic_fetch_add_minus_one w)
  | _ :: t, w => apply_waiter_ops t w

/-- Whether the caller holds `m->lock` after the trace `t`, given whether it
held it before.  `custom_condvar_wait` gives the mutex up; its return takes it
again. -/
def mutex_held : List Effect → Bool → Bool
  | [], h => h
  | Effect.mutex_lock :: t, _ => mutex_held t true
  | Effect.mutex_unlock :: t, _ => mutex_held t false
  | Effect.condvar_wait :: t, _ => mutex_held t false
  | Effect.condvar_wake :: t, _ => mutex_held t true
  | _ :: t, h => mutex_held t h

/-- The effects that give `m->lock` up. -/
def gives_up_mutex : Effect → Bool
  | Effect.mutex_unlock => true
  | Effect.condvar_wait => true
  | _ => false

/-! ## Step view -/

/-- Where a thread is with respect to the master lock. -/
inductive PC where
  | idle
  | holder
  | acq_wait
  | acq_woken
  | yield_wait
  | yield_woken
  | rel_signal
deriving DecidableEq, Repr

/-- The lock, the program point of every thread (thread `i` is position `i`)
and the effects performed so far, oldest first, each with its thread. -/
structure Sys where
  m : st_masterlock
  pcs : List PC
  log : List (Nat × Effect)
deriving DecidableEq, Repr

/-- What can happen next. -/
inductive Event where
  | acquire (i : Nat) (bt : Nat)
  | release (i : Nat) (bt : Nat)
  | signal (i : Nat) (j : Option Nat)
  | yield (i : Nat) (j : Option Nat)
  | resume (i : Nat) (bt : Nat)
  | spurious (i : Nat)
deriving DecidableEq, Repr

/-- A thread that returned from acquire or yield and has not called release
or parked inside yield. -/
def is_holder : PC → Bool
  | PC.holder => true
  | _ => false

/-- A thread inside `custom_condvar_wait` on `is_free`: asleep, or woken and
not yet back in possession of the mutex. -/
def in_condvar_wait : PC → Bool
  | PC.acq_wait => true
  | PC.acq_woken => true
  | PC.yield_wait => true
  | PC.yield_woken => true
  | _ => false

/-- A thread asleep in `custom_condvar_wait`: a member of the wait set. -/
def is_parked : PC → Bool
  | PC.acq_wait => true
  | PC.yield_wait => true
  | _ => false

/-- Modelled from the spec: `custom_condvar_signal`, whose definition is not
in the sources at hand.  The spec has it signal "exactly one waiter": the
thread `j` of the wait set is woken; the signal is lost (`j = none`) only when
the wait set is empty. -/
def condvar_signal (pcs : List PC) (j : Option Nat) : Option (List PC) :=
  match j with
  | none => if pcs.any is_parked then none else some pcs
  | some k =>
    match pcs[k]? with
    | some PC.acq_wait => some (pcs.set k PC.acq_woken)
    | some PC.yield_wait => some (pcs.set k PC.yield_woken)
    | _ => none

/-- The program point of a thread when a stretch of `st_masterlock_acquire`
ends. -/
def acquire_pc : Outcome → PC
  | Outcome.parked => PC.acq_wait
  | Outcome.returned => PC.holder

/-- The program point of a thread when a stretch of `st_thread_yield` ends. -/
def yield_pc : Outcome → PC
  | Outcome.parked => PC.yield_wait
  | Outcome.returned => PC.holder

/-- The trace `t` as performed by thread `i`. -/
def tag (i : Nat) (t : List Effect) : List (Nat × Effect) := t.map (fun e => (i, e))

/-- One atomic step; `none` when the event cannot happen in `s`.
Acquire is called by a thread outside the lock, release and yield by the
holder. -/
def step (c : Config) (s : Sys) : Event → Option Sys
  | Event.acquire i bt =>
    if s.pcs[i]? = some PC.idle then
      some { m := (acquire_enter c bt s.m).1,
             pcs := s.pcs.set i (acquire_pc (acquire_enter c bt s.m).2.2),
             log := s.log ++ tag i (acquire_enter c bt s.m).2.1 }
    else none
  | Event.release i bt =>
    if s.pcs[i]? = some PC.holder then
      some { m := (release_section c bt s.m).1,
             pcs := s.pcs.set i PC.rel_signal,
             log := s.log ++ tag i (release_section c bt s.m).2 }
    else none
  | Event.signal i j =>
    if s.pcs[i]? = some PC.rel_signal then
      match condvar_signal s.pcs j with
      | some pcs1 =>
        some { m := s.m, pcs := pcs1.set i PC.idle, log := s.log ++ [(i, Effect.condvar_signal)] }
      | none => none
    else none
  | Event.yield i j =>
    if s.pcs[i]? = some PC.holder then
      match (yield_enter c s.m).2.2 with
      | Outcome.returned =>
        if j = none then
          some { m := (yield_enter c s.m).1, pcs := s.pcs,
                 log := s.log ++ tag i (yield_enter c s.m).2.1 }
        else none
      | Outcome.parked =>
        match condvar_signal s.pcs j with
        | some pcs1 =>
          some { m := (yield_enter c s.m).1, pcs := pcs1.set i PC.yield_wait,
                 log := s.log ++ tag i (yield_enter c s.m).2.1 }
        | none => none
    else none
  | Event.resume i bt =>
    match s.pcs[i]? with
    | some PC.acq_woken =>
      some { m := (acquire_resume c bt s.m).1,
             pcs := s.pcs.set i (acquire_pc (acquire_resume c bt s.m).2.2),
             log := s.log ++ tag i (acquire_resume c bt s.m).2.1 }
    | some PC.yield_woken =>
      some { m := (yield_resume c s.m).1,
             pcs := s.pcs.set i (yield_pc (yield_resume c s.m).2.2),
             log := s.log ++ tag i (yield_resume c s.m).2.1 }
    | _ => none
  | Event.spurious i =>
    match s.pcs[i]? with
    | some PC.acq_wait => some { s with pcs := s.pcs.set i PC.acq_woken }
    | some PC.yield_wait => some { s with pcs := s.pcs.set i PC.yield_woken }
    | _ => none

/-- A run: the events of a list, one after the other. -/
def run (c : Config) (s : Sys) : List Event → Option Sys
  | [] => some s
  | e :: es =>
    match step c s e with
    | some s1 => run c s1 es
    | none => none

/-- The system right after a successful `st_masterlock_init` by thread 0:
thread 0 holds the lock, the `n` other threads are outside. -/
def init_sys (rc_mutex rc_cond : Int) (m0 : st_masterlock) (n : Nat) : Sys :=
  { m := (st_masterlock_init rc_mutex rc_cond m0).2.1,
    pcs := PC.holder :: List.replicate n PC.idle,
    log := tag 0 (st_masterlock_init rc_mutex rc_cond m0).2.2 }

/-- Whether an event is a spurious wakeup. -/
def is_spurious : Event → Bool
  | Event.spurious _ => true
  | _ => false

/-- The events that continue a call already made: the signal of a release in
progress and the return of a wait after a wakeup.  The others are new calls
(acquire, release, yield) and spurious wakeups. -/
def is_continuation : Event → Bool
  | Event.signal _ _ => true
  | Event.resume _ _ => true
  | _ => false

/-- Whether an event is a new call of `st_masterlock_release` or of
`st_thread_yield`. -/
def is_release_or_yield : Event → Bool
  | Event.release _ _ => true
  | Event.yield _ _ => true
  | _ => false

/-- The actions of the monitor hooks `st_bt_lock_acquire` and
`st_bt_lock_release`: the read of `waiters`, the blocking-section query, the
two messages to the backup thread and the two domain-lock calls. -/
def is_hook_action : Effect → Bool
  | Effect.read_waiters _ => true
  | Effect.bt_is_in_blocking_section _ => true
  | Effect.bt_enter_ocaml => true
  | Effect.bt_exit_ocaml => true
  | Effect.acquire_domain_lock => true
  | Effect.release_domain_lock => true
  | _ => false

/-- An assignment to `m->busy`. -/
def is_set_busy : Effect → Bool
  | Effect.set_busy _ => true
  | _ => false

/-! ## Triggered events -/

/-- The data of `struct st_event_struct` (lines 217-221): `status` is an
`int`, 0 = not triggered, 1 = triggered. -/
structure st_event where
  status : Int
deriving DecidableEq, Repr

/-- The observable actions of the event code; `rc` is the return code of the
primitive called. -/
inductive EventEffect where
  | mutex_lock (rc : Int)
  | mutex_unlock (rc : Int)
  | read_status (v : Int)
  | set_status (v : Int)
  | condvar_wait (rc : Int)
  | condvar_signal (rc : Int)
  | condvar_broadcast (rc : Int)
deriving DecidableEq, Repr

/-- Lines 248-258.  `rc_lock`, `rc_unlock` and `rc_broadcast` are the return
codes `pthread_mutex_lock`, `pthread_mutex_unlock` and
`custom_condvar_broadcast` give when called. -/
def st_event_trigger (rc_lock rc_unlock rc_broadcast : Int) (e : st_event) :
    Int × st_event × List EventEffect :=
  if rc_lock ≠ 0 then (rc_lock, e, [EventEffect.mutex_lock rc_lock])
  else if rc_unlock ≠ 0 then
    (rc_unlock, { e with status := 1 },
      [EventEffect.mutex_lock rc_lock, EventEffect.set_status 1,
       EventEffect.mutex_unlock rc_unlock])
  else
    (rc_broadcast, { e with status := 1 },
      [EventEffect.mutex_lock rc_lock, EventEffect.set_status 1,
       EventEffect.mutex_unlock rc_unlock, EventEffect.condvar_broadcast rc_broadcast])

/-- Lines 265-270 of `st_event_wait`, from the loop test with the mutex held.
`status` is the status the thread reads now, `t` the trace so far; a wakeup
`(rc, s)` is the return code of `custom_condvar_wait` and the status found
when it returns.  `none`: the thread is still blocked when the wakeups are
used up. -/
def event_wait_loop (rc_unlock : Int) :
    Int → List EventEffect → List (Int × Int) → Option (Int × st_event × List EventEffect)
  | status, t, [] =>
    if status = 0 then none
    else some (rc_unlock, { status := status },
      t ++ [EventEffect.read_status status, EventEffect.mutex_unlock rc_unlock])
  | status, t, w :: ws =>
    if status = 0 then
      if w.1 ≠ 0 then
        some (w.1, { status := w.2 },
          t ++ [EventEffect.read_status status, EventEffect.condvar_wait w.1])
      else
        event_wait_loop rc_unlock w.2
          (t ++ [EventEffect.read_status status, EventEffect.condvar_wait w.1]) ws
    else some (rc_unlock, { status := status },
      t ++ [EventEffect.read_status status, EventEffect.mutex_unlock rc_unlock])

/-- Lines 260-271. -/
def st_event_wait (rc_lock rc_unlock : Int) (e : st_event) (wakeups : List (Int × Int)) :
    Option (Int × st_event × List EventEffect) :=
  if rc_lock ≠ 0 then some (rc_lock, e, [EventEffect.mutex_lock rc_lock])
  else event_wait_loop rc_unlock e.status [EventEffect.mutex_lock rc_lock] wakeups

/-- Whether the caller holds the event mutex after the trace `t` (all
primitives succeeding), given whether it held it before. -/
def event_mutex_held : List EventEffect → Bool → Bool
  | [], h => h
  | EventEffect.mutex_lock _ :: t, _ => event_mutex_held t true
  | EventEffect.mutex_unlock _ :: t, _ => event_mutex_held t false
  | _ :: t, h => event_mutex_held t h

/-- A wait on the event condition variable. -/
def is_event_wait : EventEffect → Bool
  | EventEffect.condvar_wait _ => true
  | _ => false

/-- An assignment to `e->status`. -/
def is_set_status : EventEffect → Bool
  | EventEffect.set_status _ => true
  | _ => false

/-- A broadcast on the event condition variable. -/
def is_event_broadcast : EventEffect → Bool
  | EventEffect.condvar_broadcast _ => true
  | _ => false

/-- A signal on the event condition variable. -/
def is_event_signal : EventEffect → Bool
  | EventEffect.condvar_signal _ => true
  | _ => false

/-- A read of `e->status` (the loop test of `st_event_wait`). -/
def is_read_status : EventEffect → Bool
  | EventEffect.read_status _ => true
  | _ => false

/-- A call of `pthread_mutex_unlock` on the event mutex. -/
def is_event_unlock : EventEffect → Bool
  | EventEffect.mutex_unlock _ => true
  | _ => false

/-! ### Step view of one event, all primitives succeeding -/

/-- Where a thread is with respect to the event. -/
inductive EventPC where
  | outside
  | wait_parked
  | wait_woken
  | wait_returned
  | trig_unlocked
  | trig_returned
deriving DecidableEq, Repr

/-- The event and the program point of every thread. -/
structure EventSys where
  e : st_event
  pcs : List EventPC
deriving DecidableEq, Repr

/-- What can happen next on the event. -/
inductive EventStep where
  | wait (i : Nat)
  | trigger (i : Nat)
  | broadcast (i : Nat)
  | resume (i : Nat)
  | spurious (i : Nat)
deriving DecidableEq, Repr

/-- Modelled from the spec: `custom_condvar_broadcast`, whose definition is not
in the sources at hand.  The spec has it wake "all current waiters": every
thread asleep in the wait is woken. -/
def condvar_broadcast (pcs : List EventPC) : List EventPC :=
  pcs.map (fun p => if p = EventPC.wait_parked then EventPC.wait_woken else p)

/-- The program point of a waiter after the loop test of `st_event_wait`
(line 265) read `status`: asleep in the wait, or past the unlock. -/
def event_wait_pc (status : Int) : EventPC :=
  if status = 0 then EventPC.wait_parked else EventPC.wait_returned

/-- One atomic step on the event; `none` when it cannot happen.  The
stretches are those of `st_event_wait` and `st_event_trigger` with every
return code 0: `wait` is the entry up to the first wait or the return,
`trigger` lines 251-254, `broadcast` line 256, `resume` the return of the
wait followed by the loop test. -/
def event_step (s : EventSys) : EventStep → Option EventSys
  | EventStep.wait i =>
    if s.pcs[i]? = some EventPC.outside then
      some { s with pcs := s.pcs.set i (event_wait_pc s.e.status) }
    else none
  | EventStep.trigger i =>
    if s.pcs[i]? = some EventPC.outside then
      some { e := (st_event_trigger 0 0 0 s.e).2.1, pcs := s.pcs.set i EventPC.trig_unlocked }
    else none
  | EventStep.broadcast i =>
    if s.pcs[i]? = some EventPC.trig_unlocked then
      some { s with pcs := (condvar_broadcast s.pcs).set i EventPC.trig_returned }
    else none
  | EventStep.resume i =>
    if s.pcs[i]? = some EventPC.wait_woken then
      some { s with pcs := s.pcs.set i (event_wait_pc s.e.status) }
    else none
  | EventStep.spurious i =>
    if s.pcs[i]? = some EventPC.wait_parked then
      some { s with pcs := s.pcs.set i EventPC.wait_woken }
    else none

/-- A run on the event: the steps of a list, one after the other. -/
def event_run (s : EventSys) : List EventStep → Option EventSys
  | [] => some s
  | x :: xs =>
    match event_step s x with
    | some s1 => event_run s1 xs
    | none => none

/-! ## The tick thread -/

/-- The observable actions of `caml_thread_tick`. -/
inductive TickEffect where
  | stat_free
  | init_domain_self (domain_id : Int)
  | load_stop (v : Nat)
  | msleep (ms : Nat)
  | store_requested_external_interrupt (v : Nat)
  | interrupt_self
deriving DecidableEq, Repr

/-- Lines 290-296: the loop of `caml_thread_tick`.  `reads` are the values of
`*stop` at the successive `atomic_load_acquire`s; `none`: the loop is still
running when the reads are used up.  `Thread_timeout` is defined outside this
file, so it is a parameter. -/
def tick_loop (Thread_timeout : Nat) : List Nat → Option (List TickEffect)
  | [] => none
  | v :: reads =>
    if v ≠ 0 then some [TickEffect.load_stop v]
    else
      match tick_loop Thread_timeout reads with
      | some t =>
        some (TickEffect.load_stop v :: TickEffect.msleep Thread_timeout
          :: TickEffect.store_requested_external_interrupt 1 :: TickEffect.interrupt_self :: t)
      | none => none

/-- Lines 279-297. -/
def caml_thread_tick (Thread_timeout : Nat) (domain_id : Int) (reads : List Nat) :
    Option (List TickEffect) :=
  match tick_loop Thread_timeout reads with
  | some t => some (TickEffect.stat_free :: TickEffect.init_domain_self domain_id :: t)
  | none => none

/-- A read of the stop flag that yields true. -/
def is_stop_seen : TickEffect → Bool
  | TickEffect.load_stop v => v != 0
  | _ => false

/-- A read of the stop flag. -/
def is_load_stop : TickEffect → Bool
  | TickEffect.load_stop _ => true
  | _ => false

/-- A sleep. -/
def is_msleep : TickEffect → Bool
  | TickEffect.msleep _ => true
  | _ => false

/-- An interrupt request: the call of `caml_interrupt_self`. -/
def is_interrupt : TickEffect → Bool
  | TickEffect.interrupt_self => true
  | _ => false

end StPthreads

/-! # Global statistics of `runtime/gc_stats.c` -/

namespace GcStats

/-- Least value of an `intnat` (64-bit targets). -/
def intnat_min : Int := -9223372036854775808

/-- Greatest value of an `intnat` (64-bit targets). -/
def intnat_max_value : Int := 9223372036854775807

/-- The `intnat` that a mathematical integer is reduced to: two's complement
wrap-around on 64 bits. -/
def intnat_wrap (x : Int) : Int :=
  (x + 9223372036854775808) % 18446744073709551616 - 9223372036854775808

/-- The operation `a + b` on `intnat`. -/
def intnat_add (a b : Int) : Int := intnat_wrap (a + b)

/-- The operation `a - b` on `intnat`. -/
def intnat_sub (a b : Int) : Int := intnat_wrap (a - b)

/-- The operation `a + b` on `uint64_t`. -/
def uint64_add (a b : Nat) : Nat := (a + b) % 18446744073709551616

/-- Lines 25-27. -/
def intnat_max (a b : Int) : Int := if a > b then a else b

/-- The fields of `struct heap_stats` used by `gc_stats.c`, all `intnat`.  The
structure is declared in `caml/gc_stats.h`. -/
structure heap_stats where
  pool_words : Int
  pool_max_words : Int
  pool_live_words : Int
  pool_live_blocks : Int
  pool_frag_words : Int
  large_words : Int
  large_max_words : Int
  large_blocks : Int
  dependent_bytes : Int
deriving DecidableEq, Repr

/-- The fields of `struct alloc_stats` used by `gc_stats.c`, unsigned 64-bit
counters.  The structure is declared in `caml/gc_stats.h`. -/
structure alloc_stats where
  minor_words : Nat
  promoted_words : Nat
  major_words : Nat
  minor_dependent_bytes : Nat
  promoted_dependent_bytes : Nat
  major_dependent_bytes : Nat
  forced_major_collections : Nat
  major_work_done : Nat
deriving DecidableEq, Repr

/-- The structure `struct gc_stats`: allocation, heap and global statistics.
The type `G` of the global part, filled by `caml_get_global_heap_stats`, is
declared outside this file. -/
structure gc_stats (G : Type) where
  alloc_stats : alloc_stats
  heap_stats : heap_stats
  global_stats : G

/-- A `struct heap_stats` after `memset(.., 0, ..)`. -/
def heap_stats_zero : heap_stats :=
  { pool_words := 0, pool_max_words := 0, pool_live_words := 0, pool_live_blocks := 0,
    pool_frag_words := 0, large_words := 0, large_max_words := 0, large_blocks := 0,
    dependent_bytes := 0 }

/-- A `struct alloc_stats` after `memset(.., 0, ..)`. -/
def alloc_stats_zero : alloc_stats :=
  { minor_words := 0, promoted_words := 0, major_words := 0, minor_dependent_bytes := 0,
    promoted_dependent_bytes := 0, major_dependent_bytes := 0, forced_major_collections := 0,
    major_work_done := 0 }

/-- Lines 29-42.  The statements run in source order: each `intnat_max` sees
the fields as updated by the statements before it. -/
def caml_accum_heap_stats (acc h : heap_stats) : heap_stats :=
  let pool_words := intnat_add acc.pool_words h.pool_words
  let pool_max_words := intnat_max (intnat_max acc.pool_max_words pool_words) h.pool_max_words
  let large_words := intnat_add acc.large_words h.large_words
  let large_max_words := intnat_max (intnat_max acc.large_max_words large_words) h.large_max_words
  { pool_words := pool_words,
    pool_max_words := pool_max_words,
    pool_live_words := intnat_add acc.pool_live_words h.pool_live_words,
    pool_live_blocks := intnat_add acc.pool_live_blocks h.pool_live_blocks,
    pool_frag_words := intnat_add acc.pool_frag_words h.pool_frag_words,
    large_words := large_words,
    large_max_words := large_max_words,
    large_blocks := intnat_add acc.large_blocks h.large_blocks,
    dependent_bytes := intnat_add acc.dependent_bytes h.dependent_bytes }

/-- Lines 55-67. -/
def caml_accum_alloc_stats (acc s : alloc_stats) : alloc_stats :=
  { minor_words := uint64_add acc.minor_words s.minor_words,
    promoted_words := uint64_add acc.promoted_words s.promoted_words,
    major_words := uint64_add acc.major_words s.major_words,
    minor_dependent_bytes := uint64_add acc.minor_dependent_bytes s.minor_dependent_bytes,
    promoted_dependent_bytes :=
      uint64_add acc.promoted_dependent_bytes s.promoted_dependent_bytes,
    major_dependent_bytes := uint64_add acc.major_dependent_bytes s.major_dependent_bytes,
    forced_major_collections :=
      uint64_add acc.forced_major_collections s.forced_major_collections,
    major_work_done := uint64_add acc.major_work_done s.major_work_done }

/-- Lines 100-106: the orphaned allocation statistics are added to `acc`. -/
def caml_accum_orphan_alloc_stats (orphaned_alloc_stats acc : alloc_stats) : alloc_stats :=
  caml_accum_alloc_stats acc orphaned_alloc_stats

/-- The variables of the loop of `caml_compute_gc_stats`: the buffer and the
two local sums. -/
structure compute_state where
  buf_alloc : alloc_stats
  buf_heap : heap_stats
  pool_max : Int
  large_max : Int

/-- Lines 187-200: one iteration of the loop, for the domain `i` whose sampled
statistics are `s`.  `live_alloc` is the sample that
`caml_collect_alloc_stats_sample` takes of the current domain. -/
def compute_iteration {G : Type} (my_id : Int) (live_alloc : alloc_stats) (i : Int)
    (s : gc_stats G) (st : compute_state) : compute_state :=
  { buf_alloc :=
      if i ≠ my_id then caml_accum_alloc_stats st.buf_alloc s.alloc_stats
      else caml_accum_alloc_stats st.buf_alloc live_alloc,
    buf_heap := caml_accum_heap_stats st.buf_heap s.heap_stats,
    pool_max := intnat_add st.pool_max s.heap_stats.pool_max_words,
    large_max := intnat_add st.large_max s.heap_stats.large_max_words }

/-- Lines 182-201: the loop over the domains `i`, `i + 1`, ...; the list holds
`sampled_gc_stats[i]`, `sampled_gc_stats[i + 1]`, ... up to
`caml_params->max_domains`. -/
def compute_loop {G : Type} (my_id : Int) (live_alloc : alloc_stats) :
    Int → List (gc_stats G) → compute_state → compute_state
  | _, [], st => st
  | i, s :: rest, st =>
    compute_loop my_id live_alloc (i + 1) rest (compute_iteration my_id live_alloc i s st)

/-- Lines 160-205.  `orphan_heap` is what `caml_accum_orphan_heap_stats`
(defined in `shared_heap.c`) leaves in the zeroed `buf->heap_stats`,
`global` what `caml_get_global_heap_stats` writes, `sampled_gc_stats` the
array of `caml_params->max_domains` samples. -/
def caml_compute_gc_stats {G : Type} (orphan_heap : heap_stats)
    (orphaned_alloc_stats : alloc_stats) (my_id : Int) (live_alloc : alloc_stats) (global : G)
    (sampled_gc_stats : List (gc_stats G)) : gc_stats G :=
  let st0 : compute_state :=
    { buf_alloc := caml_accum_orphan_alloc_stats orphaned_alloc_stats alloc_stats_zero,
      buf_heap := orphan_heap,
      pool_max := orphan_heap.pool_max_words,
      large_max := orphan_heap.large_max_words }
  let st := compute_loop my_id live_alloc 0 sampled_gc_stats st0
  { alloc_stats := st.buf_alloc,
    heap_stats := { st.buf_heap with pool_max_words := st.pool_max,
                                     large_max_words := st.large_max },
    global_stats := global }

/-- The sum of the `pool_max_words` of the samples, as an integer. -/
def sum_pool_max_words {G : Type} (l : List (gc_stats G)) : Int :=
  (l.map (fun s => s.heap_stats.pool_max_words)).sum

/-- The sum of the `large_max_words` of the samples, as an integer. -/
def sum_large_max_words {G : Type} (l : List (gc_stats G)) : Int :=
  (l.map (fun s => s.heap_stats.large_max_words)).sum

/-- Whether an integer is a value of `intnat`. -/
def is_intnat (x : Int) : Prop := intnat_min ≤ x ∧ x ≤ intnat_max_value

/-! ## The global heap maxima -/

theorem intnat_wrap_is_intnat (x : Int) : is_intnat (intnat_wrap x) := by
  unfold is_intnat intnat_wrap intnat_min intnat_max_value
  omega

theorem intnat_wrap_of_is_intnat (x : Int) (h : is_intnat x) : intnat_wrap x = x := by
  unfold is_intnat intnat_min intnat_max_value at h
  unfold intnat_wrap
  omega

theorem intnat_wrap_add_left (a b : Int) :
    intnat_wrap (intnat_wrap a + b) = intnat_wrap (a + b) := by
  unfold intnat_wrap
  omega

theorem foldl_intnat_add (xs : List Int) :
    ∀ a : Int, is_intnat a → List.foldl intnat_add a xs = intnat_wrap (a + xs.sum) := by
  induction xs with
  | nil =>
    intro a ha
    simp only [List.foldl_nil, List.sum_nil, Int.add_zero]
    exact (intnat_wrap_of_is_intnat a ha).symm
  | cons x xs ih =>
    intro a _
    simp only [List.foldl_cons, List.sum_cons]
    rw [ih (intnat_add a x) (intnat_wrap_is_intnat _)]
    unfold intnat_add
    rw [intnat_wrap_add_left, Int.add_assoc]

theorem compute_loop_maxima {G : Type} (my_id : Int) (live_alloc : alloc_stats)
    (l : List (gc_stats G)) :
    ∀ (i : Int) (st : compute_state),
      (compute_loop my_id live_alloc i l st).pool_max
          = List.foldl intnat_add st.pool_max (l.map (fun s => s.heap_stats.pool_max_words))
      ∧ (compute_loop my_id live_alloc i l st).large_max
          = List.foldl intnat_add st.large_max
              (l.map (fun s => s.heap_stats.large_max_words)) := by
  induction l with
  | nil => intro i st; exact ⟨rfl, rfl⟩
  | cons s l ih =>
    intro i st
    simp only [compute_loop, List.map_cons, List.foldl_cons]
    exact ih (i + 1) (compute_iteration my_id live_alloc i s st)

/-- C20.  Global heap maxima are a plain sum.  With `orphan_heap` the
statistics left in the zeroed buffer by `caml_accum_orphan_heap_stats` (its
two maxima being `intnat` values), `caml_compute_gc_stats` returns
`heap_stats.pool_max_words` equal to the `intnat` sum of
`orphan_heap.pool_max_words` and the `pool_max_words` of every sample, the
current domain included: the integer sum reduced modulo the word size, hence
the integer sum itself when that is an `intnat`.  Likewise for
`large_max_words`.  The two results are the same for any other inputs with
the same maxima in the orphan statistics and in the samples: the running
maxima that `caml_accum_heap_stats` computes do not enter them. -/
theorem caml_compute_gc_stats_maxima {G : Type} (orphan_heap : heap_stats)
    (orphaned_alloc_stats : alloc_stats) (my_id : Int) (live_alloc : alloc_stats) (global : G)
    (sampled_gc_stats : List (gc_stats G))
    (hp : is_intnat orphan_heap.pool_max_words) (hl : is_intnat orphan_heap.large_max_words) :
    (caml_compute_gc_stats orphan_heap orphaned_alloc_stats my_id live_alloc global
        sampled_gc_stats).heap_stats.pool_max_words
      = intnat_wrap (orphan_heap.pool_max_words + sum_pool_max_words sampled_gc_stats)
    ∧ (caml_compute_gc_stats orphan_heap orphaned_alloc_stats my_id live_alloc global
        sampled_gc_stats).heap_stats.large_max_words
      = intnat_wrap (orphan_heap.large_max_words + sum_large_max_words sampled_gc_stats)
    ∧ (is_intnat (orphan_heap.pool_max_words + sum_pool_max_words sampled_gc_stats) →
        (caml_compute_gc_stats orphan_heap orphaned_alloc_stats my_id live_alloc global
          sampled_gc_stats).heap_stats.pool_max_words
        = orphan_heap.pool_max_words + sum_pool_max_words sampled_gc_stats)
    ∧ (is_intnat (orphan_heap.large_max_words + sum_large_max_words sampled_gc_stats) →
        (caml_compute_gc_stats orphan_heap orphaned_alloc_stats my_id live_alloc global
          sampled_gc_stats).heap_stats.large_max_words
        = orphan_heap.large_max_words + sum_large_max_words sampled_gc_stats)
    ∧ (∀ (orphan_heap2 : heap_stats) (orphaned_alloc_stats2 : alloc_stats) (my_id2 : Int)
        (live_alloc2 : alloc_stats) (global2 : G) (sampled2 : List (gc_stats G)),
        orphan_heap2.pool_max_words = orphan_heap.pool_max_words →
        orphan_heap2.large_max_words = orphan_heap.large_max_words →
        sampled2.map (fun s => s.heap_stats.pool_max_words)
          = sampled_gc_stats.map (fun s => s.heap_stats.pool_max_words) →
        sampled2.map (fun s => s.heap_stats.large_max_words)
          = sampled_gc_stats.map (fun s => s.heap_stats.large_max_words) →
        (caml_compute_gc_stats orphan_heap2 orphaned_alloc_stats2 my_id2 live_alloc2 global2
            sampled2).heap_stats.pool_max_words
          = (caml_compute_gc_stats orphan_heap orphaned_alloc_stats my_id live_alloc global
              sampled_gc_stats).heap_stats.pool_max_words
        ∧ (caml_compute_gc_stats orphan_heap2 orphaned_alloc_stats2 my_id2 live_alloc2 global2
            sampled2).heap_stats.large_max_words
          = (caml_compute_gc_stats orphan_heap orphaned_alloc_stats my_id live_alloc global
              sampled_gc_stats).heap_stats.large_max_words) := by
  have key : ∀ (oh : heap_stats) (oa : alloc_stats) (id : Int) (la : alloc_stats) (g : G)
      (l : List (gc_stats G)),
      (caml_compute_gc_stats oh oa id la g l).heap_stats.pool_max_words
        = List.foldl intnat_add oh.pool_max_words (l.map (fun s => s.heap_stats.pool_max_words))
      ∧ (caml_compute_gc_stats oh oa id la g l).heap_stats.large_max_words
        = List.foldl intnat_add oh.large_max_words
            (l.map (fun s => s.heap_stats.large_max_words)) := by
    intro oh oa id la g l
    simp only [caml_compute_gc_stats]
    exact compute_loop_maxima id la l 0 _
  obtain ⟨k1, k2⟩ := key orphan_heap orphaned_alloc_stats my_id live_alloc global
    sampled_gc_stats
  have e1 := foldl_intnat_add
    (sampled_gc_stats.map (fun s => s.heap_stats.pool_max_words)) _ hp
  have e2 := foldl_intnat_add
    (sampled_gc_stats.map (fun s => s.heap_stats.large_max_words)) _ hl
  refine ⟨?_, ?_, ?_, ?_, ?_⟩
  · rw [k1, e1]; rfl
  · rw [k2, e2]; rfl
  · intro h
    rw [k1, e1]
    exact intnat_wrap_of_is_intnat _ h
  · intro h
    rw [k2, e2]
    exact intnat_wrap_of_is_intnat _ h
  · intro oh2 oa2 id2 la2 g2 l2 h1 h2 h3 h4
    obtain ⟨j1, j2⟩ := key oh2 oa2 id2 la2 g2 l2
    rw [j1, j2, k1, k2, h1, h2, h3, h4]
    exact ⟨rfl, rfl⟩

/-- Witness for C20: orphan maxima 5 and 1, two domains with pool maxima 10
and 20 and large maxima 2 and 3, the second being the current domain; the
pool words in use (100, 40, 60) would give a running maximum of 200, and the
result is 35. -/
theorem caml_compute_gc_stats_maxima_witness :
    (caml_compute_gc_stats
        { pool_words := 100, pool_max_words := 5, pool_live_words := 0, pool_live_blocks := 0,
          pool_frag_words := 0, large_words := 0, large_max_words := 1, large_blocks := 0,
          dependent_bytes := 0 }
        alloc_stats_zero 1 alloc_stats_zero ()
        [{ alloc_stats := alloc_stats_zero,
           heap_stats := { heap_stats_zero with pool_words := 40, pool_max_words := 10,
                                                large_max_words := 2 },
           global_stats := () },
         { alloc_stats := alloc_stats_zero,
           heap_stats := { heap_stats_zero with pool_words := 60, pool_max_words := 20,
                                                large_max_words := 3 },
           global_stats := () }]).heap_stats.pool_max_words = 5 + (10 + (20 + 0)) :=
  (caml_compute_gc_stats_maxima
      { pool_words := 100, pool_max_words := 5, pool_live_words := 0, pool_live_blocks := 0,
        pool_frag_words := 0, large_words := 0, large_max_words := 1, large_blocks := 0,
        dependent_bytes := 0 }
      alloc_stats_zero 1 alloc_stats_zero ()
      [{ alloc_stats := alloc_stats_zero,
         heap_stats := { heap_stats_zero with pool_words := 40, pool_max_words := 10,
                                              large_max_words := 2 },
         global_stats := () },
       { alloc_stats := alloc_stats_zero,
         heap_stats := { heap_stats_zero with pool_words := 60, pool_max_words := 20,
                                              large_max_words := 3 },
         global_stats := () }]
      (by unfold is_intnat intnat_min intnat_max_value; decide)
      (by unfold is_intnat intnat_min intnat_max_value; decide)).2.2.1
    (by unfold is_intnat intnat_min intnat_max_value; decide)

end GcStats

namespace StPthreads

/-! ## Lemmas on traces and on the two wait loops -/

theorem apply_waiter_ops_append (t1 t2 : List Effect) (w : Nat) :
    apply_waiter_ops (t1 ++ t2) w = apply_waiter_ops t2 (apply_waiter_ops t1 w) := by
  induction t1 generalizing w with
  | nil => rfl
  | cons e t ih => cases e <;> simp [apply_waiter_ops, ih]

theorem mutex_held_append (t1 t2 : List Effect) (h : Bool) :
    mutex_held (t1 ++ t2) h = mutex_held t2 (mutex_held t1 h) := by
  induction t1 generalizing h with
  | nil => rfl
  | cons e t ih => cases e <;> simp [mutex_held, ih]

theorem fetch_add_incr_decr (w : Nat) (hw : w < uintnat_modulus) :
    atomic_fetch_add_minus_one (atomic_fetch_add w 1) = w := by
  unfold atomic_fetch_add_minus_one atomic_fetch_add uintnat_modulus at *
  split_ifs <;> omega

theorem fetch_add_incr_decr_incr (w : Nat) :
    atomic_fetch_add (atomic_fetch_add_minus_one (atomic_fetch_add w 1)) 1
      = atomic_fetch_add w 1 := by
  unfold atomic_fetch_add_minus_one atomic_fetch_add uintnat_modulus at *
  split_ifs <;> omega

theorem acquire_test_busy (c : Config) (bt : Nat) (m : st_masterlock) (h : m.busy ≠ 0) :
    acquire_test c bt m =
      ({ m with waiters := atomic_fetch_add m.waiters 1 },
        [Effect.read_busy m.busy, Effect.incr_waiters, Effect.condvar_wait], Outcome.parked) := by
  simp [acquire_test, h]

theorem acquire_test_free (c : Config) (bt : Nat) (m : st_masterlock) (h : m.busy = 0) :
    acquire_test c bt m =
      ({ m with busy := 1 },
        [Effect.read_busy 0, Effect.set_busy 1]
          ++ (if c.domain_lockmode = c.LOCKMODE_DOMAINS then st_bt_lock_acquire bt else [])
          ++ [Effect.mutex_unlock],
        Outcome.returned) := by
  simp [acquire_test, h]

theorem occurrences_append (e : Effect) (t1 t2 : List Effect) :
    occurrences e (t1 ++ t2) = occurrences e t1 + occurrences e t2 := by
  simp [occurrences]

theorem acquire_resume_busy (c : Config) (bt : Nat) (w : st_masterlock) (h : w.busy ≠ 0) :
    acquire_resume c bt w =
      ({ w with waiters :=
            atomic_fetch_add (atomic_fetch_add_minus_one w.waiters) 1 },
        [Effect.condvar_wake, Effect.decr_waiters, Effect.read_busy w.busy,
         Effect.incr_waiters, Effect.condvar_wait], Outcome.parked) := by
  simp [acquire_resume, acquire_test, h]

theorem acquire_resume_free (c : Config) (bt : Nat) (w : st_masterlock) (h : w.busy = 0) :
    acquire_resume c bt w =
      ({ w with busy := 1, waiters := atomic_fetch_add_minus_one w.waiters },
        [Effect.condvar_wake, Effect.decr_waiters, Effect.read_busy 0, Effect.set_busy 1]
          ++ (if c.domain_lockmode = c.LOCKMODE_DOMAINS then st_bt_lock_acquire bt else [])
          ++ [Effect.mutex_unlock],
        Outcome.returned) := by
  simp [acquire_resume, acquire_test, h]

theorem acquire_hook_counts (c : Config) (bt : Nat) :
    occurrences Effect.incr_waiters
        (if c.domain_lockmode = c.LOCKMODE_DOMAINS then st_bt_lock_acquire bt else []) = 0
    ∧ occurrences Effect.decr_waiters
        (if c.domain_lockmode = c.LOCKMODE_DOMAINS then st_bt_lock_acquire bt else []) = 0
    ∧ occurrences Effect.condvar_wait
        (if c.domain_lockmode = c.LOCKMODE_DOMAINS then st_bt_lock_acquire bt else []) = 0
    ∧ ∀ w, apply_waiter_ops
        (if c.domain_lockmode = c.LOCKMODE_DOMAINS then st_bt_lock_acquire bt else []) w = w := by
  unfold st_bt_lock_acquire occurrences
  refine ⟨?_, ?_, ?_, ?_⟩ <;> split_ifs <;> simp [apply_waiter_ops]

theorem acquire_loop_returned (c : Config) (bt : Nat) (m : st_masterlock) (t : List Effect)
    (ws : List st_masterlock) :
    acquire_loop c bt (m, t, Outcome.returned) ws = some (m, t) := by
  cases ws <;> rfl

theorem acquire_loop_parked_cons (c : Config) (bt : Nat) (m : st_masterlock) (t : List Effect)
    (w : st_masterlock) (ws : List st_masterlock) :
    acquire_loop c bt (m, t, Outcome.parked) (w :: ws) =
      acquire_loop c bt
        ((acquire_resume c bt w).1, t ++ (acquire_resume c bt w).2.1,
          (acquire_resume c bt w).2.2) ws := rfl

theorem acquire_loop_inv (c : Config) (bt : Nat) (ws : List st_masterlock) :
    ∀ (m : st_masterlock) (t : List Effect),
      (∀ v, Effect.set_busy v ∉ t) →
      occurrences Effect.incr_waiters t = occurrences Effect.decr_waiters t + 1 →
      occurrences Effect.condvar_wait t = occurrences Effect.incr_waiters t →
      (∀ w, apply_waiter_ops t w = atomic_fetch_add w 1) →
      ∀ (m' : st_masterlock) (t' : List Effect),
        acquire_loop c bt (m, t, Outcome.parked) ws = some (m', t') →
        m'.busy = 1
        ∧ (∃ pre, t' = pre ++ [Effect.read_busy 0, Effect.set_busy 1]
              ++ (if c.domain_lockmode = c.LOCKMODE_DOMAINS then st_bt_lock_acquire bt else [])
              ++ [Effect.mutex_unlock]
            ∧ mutex_held pre false = true ∧ ∀ v, Effect.set_busy v ∉ pre)
        ∧ occurrences Effect.incr_waiters t' = occurrences Effect.decr_waiters t'
        ∧ occurrences Effect.condvar_wait t' = occurrences Effect.incr_waiters t'
        ∧ 1 ≤ occurrences Effect.condvar_wait t'
        ∧ ∀ w, w < uintnat_modulus → apply_waiter_ops t' w = w := by
  induction ws with
  | nil => intro m t _ _ _ _ m' t' h; simp [acquire_loop] at h
  | cons w ws ih =>
    intro m t hsb hinc hwait happ m' t' h
    rw [acquire_loop_parked_cons] at h
    by_cases hb : w.busy = 0
    · rw [acquire_resume_free c bt w hb, acquire_loop_returned] at h
      simp only [Option.some.injEq, Prod.mk.injEq] at h
      obtain ⟨rfl, rfl⟩ := h
      obtain ⟨h1, h2, h3, h4⟩ := acquire_hook_counts c bt
      refine ⟨rfl, ⟨t ++ [Effect.condvar_wake, Effect.decr_waiters], by simp, ?_, ?_⟩, ?_, ?_, ?_, ?_⟩
      · simp [mutex_held_append, mutex_held]
      · intro v hv
        simp at hv
        exact hsb v hv
      · simp only [occurrences_append, h1, h2, hinc]
        simp [occurrences]
      · simp only [occurrences_append, h1, h3, hwait, hinc]
        simp [occurrences]
      · simp only [occurrences_append, h3, hwait, hinc]
        omega
      · intro x hx
        simp only [apply_waiter_ops_append, happ, h4]
        simp [apply_waiter_ops, fetch_add_incr_decr x hx]
    · rw [acquire_resume_busy c bt w hb] at h
      refine ih _ _ ?_ ?_ ?_ ?_ m' t' h
      · intro v hv
        simp at hv
        exact hsb v hv
      · simp only [occurrences_append, hinc]
        simp [occurrences]
      · simp only [occurrences_append, hwait, hinc]
        simp [occurrences]
      · intro x
        simp only [apply_waiter_ops_append, happ]
        simp [apply_waiter_ops, fetch_add_incr_decr_incr]

theorem yield_resume_busy (c : Config) (w : st_masterlock) (h : w.busy ≠ 0) :
    yield_resume c w =
      (w, [Effect.condvar_wake, Effect.read_busy w.busy, Effect.condvar_wait], Outcome.parked) := by
  simp [yield_resume, h]

theorem yield_resume_free (c : Config) (w : st_masterlock) (h : w.busy = 0) :
    yield_resume c w =
      ({ w with busy := 1, waiters := atomic_fetch_add_minus_one w.waiters },
        [Effect.condvar_wake, Effect.read_busy 0, Effect.set_busy 1, Effect.decr_waiters]
          ++ (if c.domain_lockmode = c.LOCKMODE_DOMAINS then [Effect.acquire_domain_lock] else [])
          ++ [Effect.mutex_unlock],
        Outcome.returned) := by
  simp [yield_resume, h]

theorem yield_loop_returned (c : Config) (m : st_masterlock) (t : List Effect)
    (ws : List st_masterlock) :
    yield_loop c (m, t, Outcome.returned) ws = some (m, t) := by
  cases ws <;> rfl

theorem yield_loop_parked_cons (c : Config) (m : st_masterlock) (t : List Effect)
    (w : st_masterlock) (ws : List st_masterlock) :
    yield_loop c (m, t, Outcome.parked) (w :: ws) =
      yield_loop c ((yield_resume c w).1, t ++ (yield_resume c w).2.1, (yield_resume c w).2.2) ws :=
  rfl

theorem yield_loop_all_busy (c : Config) (ws : List st_masterlock) :
    ∀ (m : st_masterlock) (t : List Effect), (∀ x ∈ ws, x.busy ≠ 0) →
      yield_loop c (m, t, Outcome.parked) ws = none := by
  induction ws with
  | nil => intro m t _; rfl
  | cons w ws ih =>
    intro m t h
    rw [yield_loop_parked_cons, yield_resume_busy c w (h w (by simp))]
    exact ih _ _ (fun x hx => h x (by simp [hx]))

theorem yield_loop_split (c : Config) (pre : List st_masterlock) :
    ∀ (m : st_masterlock) (t : List Effect) (w : st_masterlock) (post : List st_masterlock),
      (∀ x ∈ pre, x.busy ≠ 0) → w.busy = 0 →
      yield_loop c (m, t, Outcome.parked) (pre ++ w :: post) =
        some ({ w with busy := 1, waiters := atomic_fetch_add_minus_one w.waiters },
          t ++ pre.flatMap (fun x =>
              [Effect.condvar_wake, Effect.read_busy x.busy, Effect.condvar_wait])
            ++ [Effect.condvar_wake, Effect.read_busy 0, Effect.set_busy 1, Effect.decr_waiters]
            ++ (if c.domain_lockmode = c.LOCKMODE_DOMAINS then [Effect.acquire_domain_lock]
                else [])
            ++ [Effect.mutex_unlock]) := by
  induction pre with
  | nil =>
    intro m t w post _ hw
    rw [List.nil_append, yield_loop_parked_cons, yield_resume_free c w hw, yield_loop_returned]
    simp
  | cons x pre ih =>
    intro m t w post h hw
    rw [List.cons_append, yield_loop_parked_cons, yield_resume_busy c x (h x (by simp)),
      ih _ _ w post (fun y hy => h y (by simp [hy])) hw]
    simp

theorem first_free_split (ws : List st_masterlock) :
    (∀ x ∈ ws, x.busy ≠ 0)
    ∨ ∃ pre w post, ws = pre ++ w :: post ∧ (∀ x ∈ pre, x.busy ≠ 0) ∧ w.busy = 0 := by
  induction ws with
  | nil => left; simp
  | cons a ws ih =>
    by_cases ha : a.busy = 0
    · right; exact ⟨[], a, ws, rfl, by simp, ha⟩
    · rcases ih with h | ⟨pre, w, post, rfl, hpre, hw⟩
      · left
        intro x hx
        rcases List.mem_cons.mp hx with rfl | hx
        · exact ha
        · exact h x hx
      · right
        refine ⟨a :: pre, w, post, rfl, ?_, hw⟩
        intro x hx
        rcases List.mem_cons.mp hx with rfl | hx
        · exact ha
        · exact hpre x hx

theorem acquire_loop_all_busy (c : Config) (bt : Nat) (ws : List st_masterlock) :
    ∀ (m : st_masterlock) (t : List Effect), (∀ x ∈ ws, x.busy ≠ 0) →
      acquire_loop c bt (m, t, Outcome.parked) ws = none := by
  induction ws with
  | nil => intro m t _; rfl
  | cons w ws ih =>
    intro m t h
    rw [acquire_loop_parked_cons, acquire_resume_busy c bt w (h w (by simp))]
    exact ih _ _ (fun x hx => h x (by simp [hx]))

theorem acquire_loop_split (c : Config) (bt : Nat) (pre : List st_masterlock) :
    ∀ (m : st_masterlock) (t : List Effect) (w : st_masterlock) (post : List st_masterlock),
      (∀ x ∈ pre, x.busy ≠ 0) → w.busy = 0 →
      acquire_loop c bt (m, t, Outcome.parked) (pre ++ w :: post) =
        some ({ w with busy := 1, waiters := atomic_fetch_add_minus_one w.waiters },
          t ++ pre.flatMap (fun x =>
              [Effect.condvar_wake, Effect.decr_waiters, Effect.read_busy x.busy,
               Effect.incr_waiters, Effect.condvar_wait])
            ++ [Effect.condvar_wake, Effect.decr_waiters, Effect.read_busy 0, Effect.set_busy 1]
            ++ (if c.domain_lockmode = c.LOCKMODE_DOMAINS then st_bt_lock_acquire bt else [])
            ++ [Effect.mutex_unlock]) := by
  induction pre with
  | nil =>
    intro m t w post _ hw
    rw [List.nil_append, acquire_loop_parked_cons, acquire_resume_free c bt w hw,
      acquire_loop_returned]
    simp
  | cons x pre ih =>
    intro m t w post h hw
    rw [List.cons_append, acquire_loop_parked_cons, acquire_resume_busy c bt x (h x (by simp)),
      ih _ _ w post (fun y hy => h y (by simp [hy])) hw]
    simp

theorem acquire_loop_isSome (c : Config) (bt : Nat) (m : st_masterlock) (t : List Effect)
    (ws : List st_masterlock) :
    (acquire_loop c bt (m, t, Outcome.parked) ws).isSome ↔ ∃ w ∈ ws, w.busy = 0 := by
  rcases first_free_split ws with h | ⟨pre, w, post, rfl, hpre, hw⟩
  · rw [acquire_loop_all_busy c bt ws m t h]
    simp only [Option.isSome_none, Bool.false_eq_true, false_iff, not_exists, not_and]
    exact fun x hx => h x hx
  · rw [acquire_loop_split c bt pre m t w post hpre hw]
    simp only [Option.isSome_some, true_iff]
    exact ⟨w, by simp, hw⟩

theorem yield_loop_isSome (c : Config) (m : st_masterlock) (t : List Effect)
    (ws : List st_masterlock) :
    (yield_loop c (m, t, Outcome.parked) ws).isSome ↔ ∃ w ∈ ws, w.busy = 0 := by
  rcases first_free_split ws with h | ⟨pre, w, post, rfl, hpre, hw⟩
  · rw [yield_loop_all_busy c ws m t h]
    simp only [Option.isSome_none, Bool.false_eq_true, false_iff, not_exists, not_and]
    exact fun x hx => h x hx
  · rw [yield_loop_split c pre m t w post hpre hw]
    simp only [Option.isSome_some, true_iff]
    exact ⟨w, by simp, hw⟩

theorem acquire_enter_busy (c : Config) (bt : Nat) (m : st_masterlock) (h : m.busy ≠ 0) :
    acquire_enter c bt m =
      ({ m with waiters := atomic_fetch_add m.waiters 1 },
        [Effect.mutex_lock, Effect.read_busy m.busy, Effect.incr_waiters, Effect.condvar_wait],
        Outcome.parked) := by
  simp [acquire_enter, acquire_test, h]

theorem acquire_enter_free (c : Config) (bt : Nat) (m : st_masterlock) (h : m.busy = 0) :
    acquire_enter c bt m =
      ({ m with busy := 1 },
        [Effect.mutex_lock, Effect.read_busy 0, Effect.set_busy 1]
          ++ (if c.domain_lockmode = c.LOCKMODE_DOMAINS then st_bt_lock_acquire bt else [])
          ++ [Effect.mutex_unlock],
        Outcome.returned) := by
  simp [acquire_enter, acquire_test, h]

/-! ## The sequential claims -/

/-- C3.  Postcondition of `st_masterlock_acquire`, for every lock state `m`
and every sequence `ws` of lock contents found at the wakeups.
(1) Acquire returns exactly when the lock is free at entry or some wakeup
finds it free.  (2) When it returns: `busy = 1`; the trace ends with a read of
`busy` that yields 0, made with the mutex held, directly followed by
`busy = 1`, the hook and the unlock, and `busy` is not assigned before; there
are as many decrements of `waiters` as increments, one pair per wait, and the
`atomic_fetch_add`s of the trace, applied in order to any counter value, give
that value back.  (3) On a free lock it returns at once with `waiters`
untouched: no wait, no increment, no decrement. -/
theorem st_masterlock_acquire_post (c : Config) (bt : Nat) (m : st_masterlock)
    (ws : List st_masterlock) :
    ((st_masterlock_acquire c bt m ws).isSome ↔ (m.busy = 0 ∨ ∃ w ∈ ws, w.busy = 0))
    ∧ (∀ (m' : st_masterlock) (t : List Effect),
        st_masterlock_acquire c bt m ws = some (m', t) →
          m'.busy = 1
          ∧ (∃ pre, t = pre ++ [Effect.read_busy 0, Effect.set_busy 1]
                ++ (if c.domain_lockmode = c.LOCKMODE_DOMAINS then st_bt_lock_acquire bt
                    else [])
                ++ [Effect.mutex_unlock]
              ∧ mutex_held pre false = true ∧ ∀ v, Effect.set_busy v ∉ pre)
          ∧ occurrences Effect.decr_waiters t = occurrences Effect.incr_waiters t
          ∧ occurrences Effect.condvar_wait t = occurrences Effect.incr_waiters t
          ∧ ∀ w, w < uintnat_modulus → apply_waiter_ops t w = w)
    ∧ (m.busy = 0 →
        ∃ t, st_masterlock_acquire c bt m ws = some ({ m with busy := 1 }, t)
          ∧ occurrences Effect.condvar_wait t = 0
          ∧ occurrences Effect.incr_waiters t = 0
          ∧ occurrences Effect.decr_waiters t = 0) := by
  obtain ⟨h1, h2, h3, h4⟩ := acquire_hook_counts c bt
  refine ⟨?_, ?_, ?_⟩
  · by_cases hb : m.busy = 0
    · simp [st_masterlock_acquire, acquire_enter_free c bt m hb, acquire_loop_returned, hb]
    · simp [st_masterlock_acquire, acquire_enter_busy c bt m hb, acquire_loop_isSome, hb]
  · intro m' t h
    by_cases hb : m.busy = 0
    · rw [st_masterlock_acquire, acquire_enter_free c bt m hb, acquire_loop_returned] at h
      simp only [Option.some.injEq, Prod.mk.injEq] at h
      obtain ⟨rfl, rfl⟩ := h
      refine ⟨rfl, ⟨[Effect.mutex_lock], by simp, rfl, by simp⟩, ?_, ?_, ?_⟩
      · simp only [occurrences_append, h1, h2]
        simp [occurrences]
      · simp only [occurrences_append, h1, h3]
        simp [occurrences]
      · intro w _
        simp only [apply_waiter_ops_append, h4]
        simp [apply_waiter_ops]
    · rw [st_masterlock_acquire, acquire_enter_busy c bt m hb] at h
      obtain ⟨g1, g2, g3, g4, _, g6⟩ :=
        acquire_loop_inv c bt ws _ _ (by simp) (by simp [occurrences]) (by simp [occurrences])
          (by intro w; simp [apply_waiter_ops]) m' t h
      exact ⟨g1, g2, g3.symm, g4, g6⟩
  · intro hb
    refine ⟨_, by rw [st_masterlock_acquire, acquire_enter_free c bt m hb, acquire_loop_returned],
      ?_, ?_, ?_⟩
    · simp only [occurrences_append, h3]
      simp [occurrences]
    · simp only [occurrences_append, h1]
      simp [occurrences]
    · simp only [occurrences_append, h2]
      simp [occurrences]

/-- Witness for C3: a lock found busy at entry and at the first wakeup, free
at the second. -/
theorem st_masterlock_acquire_post_witness :
    st_masterlock_acquire ⟨0, 0⟩ 1 ⟨1, 1, 0⟩ [⟨1, 1, 1⟩, ⟨1, 0, 1⟩]
      = some (⟨1, 1, 0⟩,
          [Effect.mutex_lock, Effect.read_busy 1, Effect.incr_waiters, Effect.condvar_wait,
           Effect.condvar_wake, Effect.decr_waiters, Effect.read_busy 1, Effect.incr_waiters,
           Effect.condvar_wait,
           Effect.condvar_wake, Effect.decr_waiters, Effect.read_busy 0, Effect.set_busy 1,
           Effect.bt_is_in_blocking_section 1, Effect.bt_enter_ocaml,
           Effect.acquire_domain_lock, Effect.mutex_unlock])
    ∧ (⟨1, 1, 0⟩ : st_masterlock).busy = 1
    ∧ (∃ t, st_masterlock_acquire ⟨0, 0⟩ 1 ⟨1, 0, 5⟩ [] = some (⟨1, 1, 5⟩, t)
        ∧ occurrences Effect.condvar_wait t = 0
        ∧ occurrences Effect.incr_waiters t = 0
        ∧ occurrences Effect.decr_waiters t = 0) :=
  ⟨by decide,
   ((st_masterlock_acquire_post ⟨0, 0⟩ 1 ⟨1, 1, 0⟩ [⟨1, 1, 1⟩, ⟨1, 0, 1⟩]).2.1
      ⟨1, 1, 0⟩
      [Effect.mutex_lock, Effect.read_busy 1, Effect.incr_waiters, Effect.condvar_wait,
       Effect.condvar_wake, Effect.decr_waiters, Effect.read_busy 1, Effect.incr_waiters,
       Effect.condvar_wait,
       Effect.condvar_wake, Effect.decr_waiters, Effect.read_busy 0, Effect.set_busy 1,
       Effect.bt_is_in_blocking_section 1, Effect.bt_enter_ocaml,
       Effect.acquire_domain_lock, Effect.mutex_unlock] (by decide)).1,
   (st_masterlock_acquire_post ⟨0, 0⟩ 1 ⟨1, 0, 5⟩ []).2.2 (by decide)⟩

theorem release_trace (c : Config) (bt : Nat) (m : st_masterlock) :
    (st_masterlock_release c bt m).2 =
      Effect.mutex_lock :: Effect.set_busy 0 ::
        ((if c.domain_lockmode = c.LOCKMODE_DOMAINS then
            st_bt_lock_release bt { m with busy := 0 } else [])
          ++ [Effect.mutex_unlock, Effect.condvar_signal]) := by
  simp [st_masterlock_release, release_section]

/-- C4.  Effect of `st_masterlock_release`, for every lock state: `busy`
becomes 0, `waiters` and `init` keep their values; the trace holds exactly one
`custom_condvar_signal` and no broadcast; `busy = 0` is written right after
the mutex is locked and nothing before the final unlock gives the mutex up;
the signal is the last effect and the mutex is not held when it is issued. -/
theorem st_masterlock_release_effect (c : Config) (bt : Nat) (m : st_masterlock) :
    (st_masterlock_release c bt m).1.busy = 0
    ∧ (st_masterlock_release c bt m).1.waiters = m.waiters
    ∧ (st_masterlock_release c bt m).1.init = m.init
    ∧ occurrences Effect.condvar_signal (st_masterlock_release c bt m).2 = 1
    ∧ occurrences Effect.condvar_broadcast (st_masterlock_release c bt m).2 = 0
    ∧ (∃ hook, (st_masterlock_release c bt m).2
          = [Effect.mutex_lock, Effect.set_busy 0] ++ hook
              ++ [Effect.mutex_unlock, Effect.condvar_signal]
        ∧ ∀ e ∈ hook, gives_up_mutex e = false)
    ∧ (∃ pre, (st_masterlock_release c bt m).2 = pre ++ [Effect.condvar_signal]
        ∧ mutex_held pre false = false) := by
  refine ⟨rfl, rfl, rfl, ?_, ?_, ?_, ?_⟩
  · simp only [release_trace, occurrences, st_bt_lock_release]
    split_ifs <;> simp
  · simp only [release_trace, occurrences, st_bt_lock_release]
    split_ifs <;> simp
  · refine ⟨_, by simp [release_trace]; rfl, ?_⟩
    simp only [st_bt_lock_release]
    split_ifs <;> simp [gives_up_mutex]
  · refine ⟨_, by simp [st_masterlock_release]; rfl, ?_⟩
    simp only [release_section, st_bt_lock_release]
    split_ifs <;> simp [mutex_held]

/-- C5.  `st_thread_yield` with no waiter is a no-op: when the count read
under the mutex is 0, yield returns, whatever wakeups might be on offer, with
the lock unchanged after lock, read of `waiters`, unlock and nothing else: no
signal, no wait, no assignment to `busy`, no `atomic_fetch_add`, and in either
lock mode no call to `caml_release_domain_lock` or
`caml_acquire_domain_lock`. -/
theorem st_thread_yield_no_waiter (c : Config) (m : st_masterlock) (ws : List st_masterlock)
    (h : st_masterlock_waiters m = 0) :
    st_thread_yield c m ws
        = some (m, [Effect.mutex_lock, Effect.read_waiters 0, Effect.mutex_unlock])
    ∧ ∀ t, st_thread_yield c m ws = some (m, t) →
        occurrences Effect.condvar_signal t = 0
        ∧ occurrences Effect.condvar_wait t = 0
        ∧ occurrences Effect.incr_waiters t = 0
        ∧ occurrences Effect.decr_waiters t = 0
        ∧ occurrences Effect.release_domain_lock t = 0
        ∧ occurrences Effect.acquire_domain_lock t = 0
        ∧ ∀ v, Effect.set_busy v ∉ t := by
  have key : st_thread_yield c m ws
      = some (m, [Effect.mutex_lock, Effect.read_waiters 0, Effect.mutex_unlock]) := by
    simp [st_thread_yield, yield_enter, h, yield_loop_returned]
  refine ⟨key, ?_⟩
  intro t ht
  rw [key] at ht
  simp only [Option.some.injEq, Prod.mk.injEq, true_and] at ht
  subst ht
  simp [occurrences]

/-- Witness for C5: a held lock nobody waits for, in the mode of
`LOCKMODE_DOMAINS`. -/
theorem st_thread_yield_no_waiter_witness :
    st_masterlock_waiters ⟨1, 1, 0⟩ = 0
    ∧ st_thread_yield ⟨0, 0⟩ ⟨1, 1, 0⟩ [⟨1, 0, 0⟩]
        = some (⟨1, 1, 0⟩, [Effect.mutex_lock, Effect.read_waiters 0, Effect.mutex_unlock]) :=
  ⟨rfl, (st_thread_yield_no_waiter ⟨0, 0⟩ ⟨1, 1, 0⟩ [⟨1, 0, 0⟩] rfl).1⟩

theorem yield_enter_waiters (c : Config) (m : st_masterlock) (h : st_masterlock_waiters m ≠ 0) :
    yield_enter c m =
      ({ m with busy := 0, waiters := atomic_fetch_add m.waiters 1 },
        [Effect.mutex_lock, Effect.read_waiters (st_masterlock_waiters m), Effect.set_busy 0,
         Effect.incr_waiters, Effect.condvar_signal]
          ++ (if c.domain_lockmode = c.LOCKMODE_DOMAINS then [Effect.release_domain_lock] else [])
          ++ [Effect.condvar_wait],
        Outcome.parked) := by
  simp [yield_enter, h]

/-- The trace of a call of `st_thread_yield` that found a waiter and
returned, and the lock it leaves: `pre` are the wakeups that found the lock
busy, `w` is the first that found it free. -/
theorem st_thread_yield_returns (c : Config) (m : st_masterlock) (ws : List st_masterlock)
    (h : st_masterlock_waiters m ≠ 0) (m' : st_masterlock) (t : List Effect)
    (hr : st_thread_yield c m ws = some (m', t)) :
    ∃ pre w post, ws = pre ++ w :: post ∧ (∀ x ∈ pre, x.busy ≠ 0) ∧ w.busy = 0
      ∧ m' = { w with busy := 1, waiters := atomic_fetch_add_minus_one w.waiters }
      ∧ t = [Effect.mutex_lock, Effect.read_waiters (st_masterlock_waiters m), Effect.set_busy 0,
             Effect.incr_waiters, Effect.condvar_signal]
            ++ (if c.domain_lockmode = c.LOCKMODE_DOMAINS then [Effect.release_domain_lock]
                else [])
            ++ [Effect.condvar_wait]
            ++ pre.flatMap (fun x =>
                [Effect.condvar_wake, Effect.read_busy x.busy, Effect.condvar_wait])
            ++ [Effect.condvar_wake, Effect.read_busy 0, Effect.set_busy 1, Effect.decr_waiters]
            ++ (if c.domain_lockmode = c.LOCKMODE_DOMAINS then [Effect.acquire_domain_lock]
                else [])
            ++ [Effect.mutex_unlock] := by
  rw [st_thread_yield, yield_enter_waiters c m h] at hr
  rcases first_free_split ws with hall | ⟨pre, w, post, rfl, hpre, hw⟩
  · rw [yield_loop_all_busy c ws _ _ hall] at hr
    exact absurd hr (by simp)
  · rw [yield_loop_split c pre _ _ w post hpre hw] at hr
    simp only [Option.some.injEq, Prod.mk.injEq] at hr
    obtain ⟨rfl, rfl⟩ := hr
    exact ⟨pre, w, post, rfl, hpre, hw, rfl, rfl⟩

theorem retries_counts (pre : List st_masterlock) :
    occurrences Effect.condvar_signal
        (pre.flatMap (fun x =>
          [Effect.condvar_wake, Effect.read_busy x.busy, Effect.condvar_wait])) = 0
    ∧ occurrences Effect.incr_waiters
        (pre.flatMap (fun x =>
          [Effect.condvar_wake, Effect.read_busy x.busy, Effect.condvar_wait])) = 0
    ∧ occurrences Effect.decr_waiters
        (pre.flatMap (fun x =>
          [Effect.condvar_wake, Effect.read_busy x.busy, Effect.condvar_wait])) = 0
    ∧ occurrences Effect.condvar_wait
        (pre.flatMap (fun x =>
          [Effect.condvar_wake, Effect.read_busy x.busy, Effect.condvar_wait])) = pre.length
    ∧ (∀ v, Effect.set_busy v ∉
        pre.flatMap (fun x =>
          [Effect.condvar_wake, Effect.read_busy x.busy, Effect.condvar_wait]))
    ∧ ∀ w, apply_waiter_ops
        (pre.flatMap (fun x =>
          [Effect.condvar_wake, Effect.read_busy x.busy, Effect.condvar_wait])) w = w := by
  induction pre with
  | nil => simp [occurrences, apply_waiter_ops]
  | cons x pre ih =>
    obtain ⟨h1, h2, h3, h4, h5, h6⟩ := ih
    simp only [occurrences] at h1 h2 h3 h4
    refine ⟨?_, ?_, ?_, ?_, ?_, ?_⟩
    · simp [occurrences, h1]
    · simp [occurrences, h2]
    · simp [occurrences, h3]
    · simp [occurrences, h4]
    · intro v hv
      simp only [List.flatMap_cons, List.mem_append, List.mem_cons, reduceCtorEq,
        List.mem_singleton, or_self, false_or, List.not_mem_nil, or_false] at hv
      exact h5 v hv
    · intro w
      simp only [List.flatMap_cons, apply_waiter_ops_append, h6]
      simp [apply_waiter_ops]

/-- C6.  `st_thread_yield` on a lock with `waiters = w > 0`, the counter not
at the top of its range.  (1) The stretch from the entry to the first wait
sets `busy` to 0 and `waiters` to `w + 1`, and its trace is: lock, read of
`waiters`, `busy = 0`, increment, one signal, the domain-lock release in
`LOCKMODE_DOMAINS`, then the wait; nothing before that wait gives the mutex
up.  (2) Yield returns exactly when some wakeup finds the lock free, so never
without a wait.  (3) When it returns, `busy = 1`, the trace starts with the
stretch of (1), holds exactly one signal, at least one wait, one increment and
one decrement, and its `atomic_fetch_add`s applied in order to any counter
value give that value back. -/
theorem st_thread_yield_waiter (c : Config) (m : st_masterlock) (ws : List st_masterlock)
    (h0 : 0 < st_masterlock_waiters m) (hw : st_masterlock_waiters m + 1 < uintnat_modulus) :
    yield_enter c m
        = ({ m with busy := 0, waiters := st_masterlock_waiters m + 1 },
            [Effect.mutex_lock, Effect.read_waiters (st_masterlock_waiters m), Effect.set_busy 0,
             Effect.incr_waiters, Effect.condvar_signal]
              ++ (if c.domain_lockmode = c.LOCKMODE_DOMAINS then [Effect.release_domain_lock]
                  else [])
              ++ [Effect.condvar_wait],
            Outcome.parked)
    ∧ (∀ e ∈ [Effect.mutex_lock, Effect.read_waiters (st_masterlock_waiters m),
              Effect.set_busy 0, Effect.incr_waiters, Effect.condvar_signal]
              ++ (if c.domain_lockmode = c.LOCKMODE_DOMAINS then [Effect.release_domain_lock]
                  else []),
          gives_up_mutex e = false)
    ∧ ((st_thread_yield c m ws).isSome ↔ ∃ w ∈ ws, w.busy = 0)
    ∧ (∀ (m' : st_masterlock) (t : List Effect), st_thread_yield c m ws = some (m', t) →
        m'.busy = 1
        ∧ (∃ rest, t = (yield_enter c m).2.1 ++ rest)
        ∧ occurrences Effect.condvar_signal t = 1
        ∧ 1 ≤ occurrences Effect.condvar_wait t
        ∧ occurrences Effect.incr_waiters t = 1
        ∧ occurrences Effect.decr_waiters t = 1
        ∧ ∀ w, w < uintnat_modulus → apply_waiter_ops t w = w) := by
  have hne : st_masterlock_waiters m ≠ 0 := by omega
  have hadd : atomic_fetch_add m.waiters 1 = st_masterlock_waiters m + 1 := by
    unfold st_masterlock_waiters atomic_fetch_add uintnat_modulus at *
    omega
  refine ⟨?_, ?_, ?_, ?_⟩
  · rw [yield_enter_waiters c m hne, hadd]
  · split_ifs <;> simp [gives_up_mutex]
  · rw [st_thread_yield, yield_enter_waiters c m hne, yield_loop_isSome]
  · intro m' t hr
    obtain ⟨pre, w, post, -, -, -, rfl, rfl⟩ := st_thread_yield_returns c m ws hne m' t hr
    obtain ⟨r1, r2, r3, r4, -, r6⟩ := retries_counts pre
    refine ⟨rfl,
      ⟨pre.flatMap (fun x =>
            [Effect.condvar_wake, Effect.read_busy x.busy, Effect.condvar_wait])
          ++ [Effect.condvar_wake, Effect.read_busy 0, Effect.set_busy 1, Effect.decr_waiters]
          ++ (if c.domain_lockmode = c.LOCKMODE_DOMAINS then [Effect.acquire_domain_lock]
              else [])
          ++ [Effect.mutex_unlock],
        by rw [yield_enter_waiters c m hne]; simp only [List.append_assoc]⟩,
      ?_, ?_, ?_, ?_, ?_⟩
    · simp only [occurrences_append, r1]
      split_ifs <;> simp [occurrences]
    · simp only [occurrences_append, r4]
      split_ifs <;> simp [occurrences]
    · simp only [occurrences_append, r2]
      split_ifs <;> simp [occurrences]
    · simp only [occurrences_append, r3]
      split_ifs <;> simp [occurrences]
    · intro x hx
      simp only [apply_waiter_ops_append, r6]
      split_ifs <;> simp [apply_waiter_ops, fetch_add_incr_decr x hx]

/-- Witness for C6: one waiter, a first wakeup that finds the lock taken
again, a second that finds it free. -/
theorem st_thread_yield_waiter_witness :
    (0 < st_masterlock_waiters ⟨1, 1, 1⟩ ∧ st_masterlock_waiters ⟨1, 1, 1⟩ + 1 < uintnat_modulus)
    ∧ st_thread_yield ⟨0, 0⟩ ⟨1, 1, 1⟩ [⟨1, 1, 2⟩, ⟨1, 0, 2⟩]
        = some (⟨1, 1, 1⟩,
            [Effect.mutex_lock, Effect.read_waiters 1, Effect.set_busy 0, Effect.incr_waiters,
             Effect.condvar_signal, Effect.release_domain_lock, Effect.condvar_wait,
             Effect.condvar_wake, Effect.read_busy 1, Effect.condvar_wait,
             Effect.condvar_wake, Effect.read_busy 0, Effect.set_busy 1, Effect.decr_waiters,
             Effect.acquire_domain_lock, Effect.mutex_unlock])
    ∧ (st_thread_yield ⟨0, 0⟩ ⟨1, 1, 1⟩ [⟨1, 1, 2⟩, ⟨1, 0, 2⟩]).isSome = true
    ∧ yield_enter ⟨0, 0⟩ ⟨1, 1, 1⟩
        = (⟨1, 0, 2⟩,
            [Effect.mutex_lock, Effect.read_waiters 1, Effect.set_busy 0, Effect.incr_waiters,
             Effect.condvar_signal, Effect.release_domain_lock, Effect.condvar_wait],
            Outcome.parked) :=
  ⟨by decide, by decide,
   (st_thread_yield_waiter ⟨0, 0⟩ ⟨1, 1, 1⟩ [⟨1, 1, 2⟩, ⟨1, 0, 2⟩] (by decide) (by decide)).2.2.1.mpr
     ⟨⟨1, 0, 2⟩, by decide⟩,
   (st_thread_yield_waiter ⟨0, 0⟩ ⟨1, 1, 1⟩ [⟨1, 1, 2⟩, ⟨1, 0, 2⟩] (by decide) (by decide)).1⟩

/-- C7, as stated, fails.  With one waiter registered, a wakeup that finds
`busy = 0` (false) does not make the yielder wait again: it ends the loop, and
yield returns after that single wait.  A wakeup that finds `busy = 1` (true)
does not let it return: the yielder is still blocked when that is the only
wakeup. -/
theorem st_thread_yield_exit_counterexample :
    st_thread_yield ⟨0, 1⟩ ⟨1, 1, 1⟩ [⟨1, 0, 2⟩]
        = some (⟨1, 1, 1⟩,
            [Effect.mutex_lock, Effect.read_waiters 1, Effect.set_busy 0, Effect.incr_waiters,
             Effect.condvar_signal, Effect.condvar_wait,
             Effect.condvar_wake, Effect.read_busy 0, Effect.set_busy 1, Effect.decr_waiters,
             Effect.mutex_unlock])
    ∧ st_thread_yield ⟨0, 1⟩ ⟨1, 1, 1⟩ [⟨1, 1, 2⟩] = none
    ∧ (yield_resume ⟨0, 1⟩ ⟨1, 0, 2⟩).2.2 = Outcome.returned
    ∧ (yield_resume ⟨0, 1⟩ ⟨1, 1, 2⟩).2.2 = Outcome.parked
    ∧ ¬ (∀ (c : Config) (w : st_masterlock), w.busy = 0 →
          (yield_resume c w).2.2 = Outcome.parked) := by
  refine ⟨by decide, by decide, by decide, by decide, ?_⟩
  intro h
  exact absurd (h ⟨0, 1⟩ ⟨1, 0, 2⟩ rfl) (by decide)

/-- C7, amended.  In `st_thread_yield` with a waiter registered, the yielder
waits until a wakeup finds `busy` false (0).  (1) A wakeup that finds `busy`
true leaves the lock as found and waits again.  (2) A wakeup that finds `busy`
false ends the loop: `busy` is set to 1, `waiters` is decremented, the domain
lock is taken in `LOCKMODE_DOMAINS`, the mutex is unlocked and yield returns.
(3) Hence yield returns exactly when the wakeups are some `pre`, all finding
the lock busy, followed by one `w` finding it free; it then has waited
`pre.length + 1` times and leaves the lock as `w` with `busy = 1` and
`waiters` decremented. -/
theorem st_thread_yield_exit (c : Config) (m : st_masterlock) (ws : List st_masterlock)
    (h : st_masterlock_waiters m ≠ 0) :
    (∀ w : st_masterlock, w.busy ≠ 0 →
      yield_resume c w
        = (w, [Effect.condvar_wake, Effect.read_busy w.busy, Effect.condvar_wait],
            Outcome.parked))
    ∧ (∀ w : st_masterlock, w.busy = 0 →
      yield_resume c w
        = ({ w with busy := 1, waiters := atomic_fetch_add_minus_one w.waiters },
            [Effect.condvar_wake, Effect.read_busy 0, Effect.set_busy 1, Effect.decr_waiters]
              ++ (if c.domain_lockmode = c.LOCKMODE_DOMAINS then [Effect.acquire_domain_lock]
                  else [])
              ++ [Effect.mutex_unlock],
            Outcome.returned))
    ∧ (∀ (m' : st_masterlock) (t : List Effect),
        st_thread_yield c m ws = some (m', t) ↔
          ∃ pre w post, ws = pre ++ w :: post ∧ (∀ x ∈ pre, x.busy ≠ 0) ∧ w.busy = 0
            ∧ m' = { w with busy := 1,
                            waiters := atomic_fetch_add_minus_one w.waiters }
            ∧ t = (yield_enter c m).2.1
                  ++ pre.flatMap (fun x =>
                      [Effect.condvar_wake, Effect.read_busy x.busy, Effect.condvar_wait])
                  ++ (yield_resume c w).2.1
            ∧ occurrences Effect.condvar_wait t = pre.length + 1) := by
  refine ⟨fun w hw => yield_resume_busy c w hw, fun w hw => yield_resume_free c w hw, ?_⟩
  intro m' t
  constructor
  · intro hr
    obtain ⟨pre, w, post, h1, h2, h3, h4, h5⟩ := st_thread_yield_returns c m ws h m' t hr
    obtain ⟨-, -, -, r4, -, -⟩ := retries_counts pre
    refine ⟨pre, w, post, h1, h2, h3, h4, ?_, ?_⟩
    · rw [h5, yield_enter_waiters c m h, yield_resume_free c w h3]
      simp only [List.append_assoc]
    · rw [h5]
      simp only [occurrences_append, r4]
      split_ifs <;> simp [occurrences] <;> omega
  · rintro ⟨pre, w, post, rfl, hpre, hw, rfl, rfl, -⟩
    rw [st_thread_yield, yield_enter_waiters c m h, yield_loop_split c pre _ _ w post hpre hw,
      yield_resume_free c w hw]
    simp only [List.append_assoc]

/-- Witness for C7 amended: two wakeups that find the lock busy, then one that
finds it free; three waits. -/
theorem st_thread_yield_exit_witness :
    st_masterlock_waiters ⟨1, 1, 1⟩ ≠ 0
    ∧ ∃ pre w post, [(⟨1, 1, 2⟩ : st_masterlock), ⟨1, 1, 2⟩, ⟨1, 0, 2⟩] = pre ++ w :: post
        ∧ (∀ x ∈ pre, x.busy ≠ 0) ∧ w.busy = 0
        ∧ (⟨1, 1, 1⟩ : st_masterlock)
            = { w with busy := 1, waiters := atomic_fetch_add_minus_one w.waiters }
        ∧ [Effect.mutex_lock, Effect.read_waiters 1, Effect.set_busy 0, Effect.incr_waiters,
           Effect.condvar_signal, Effect.condvar_wait,
           Effect.condvar_wake, Effect.read_busy 1, Effect.condvar_wait,
           Effect.condvar_wake, Effect.read_busy 1, Effect.condvar_wait,
           Effect.condvar_wake, Effect.read_busy 0, Effect.set_busy 1, Effect.decr_waiters,
           Effect.mutex_unlock]
            = (yield_enter ⟨0, 1⟩ ⟨1, 1, 1⟩).2.1
                ++ pre.flatMap (fun x =>
                    [Effect.condvar_wake, Effect.read_busy x.busy, Effect.condvar_wait])
                ++ (yield_resume ⟨0, 1⟩ w).2.1
        ∧ occurrences Effect.condvar_wait
            [Effect.mutex_lock, Effect.read_waiters 1, Effect.set_busy 0, Effect.incr_waiters,
             Effect.condvar_signal, Effect.condvar_wait,
             Effect.condvar_wake, Effect.read_busy 1, Effect.condvar_wait,
             Effect.condvar_wake, Effect.read_busy 1, Effect.condvar_wait,
             Effect.condvar_wake, Effect.read_busy 0, Effect.set_busy 1, Effect.decr_waiters,
             Effect.mutex_unlock] = pre.length + 1 :=
  ⟨by decide,
   ((st_thread_yield_exit ⟨0, 1⟩ ⟨1, 1, 1⟩ [⟨1, 1, 2⟩, ⟨1, 1, 2⟩, ⟨1, 0, 2⟩] (by decide)).2.2
      ⟨1, 1, 1⟩ _).mp (by decide)⟩

/-- C10.  The on-release monitor hook.  `st_masterlock_release` calls
`caml_bt_exit_ocaml` if and only if `domain_lockmode` is `LOCKMODE_DOMAINS`,
`waiters` is 0 and `caml_bt_is_in_blocking_section()` is 0.  In
`LOCKMODE_DOMAINS` it calls `caml_release_domain_lock` exactly once, as the
last action of the hook, after the test and after `caml_bt_exit_ocaml` when
that is called, which is at most once; in any other mode it calls neither. -/
theorem st_masterlock_release_hook (c : Config) (bt : Nat) (m : st_masterlock) :
    (Effect.bt_exit_ocaml ∈ (st_masterlock_release c bt m).2 ↔
      (c.domain_lockmode = c.LOCKMODE_DOMAINS ∧ st_masterlock_waiters m = 0 ∧ bt = 0))
    ∧ (c.domain_lockmode = c.LOCKMODE_DOMAINS →
        occurrences Effect.release_domain_lock (st_masterlock_release c bt m).2 = 1
        ∧ occurrences Effect.bt_exit_ocaml (st_masterlock_release c bt m).2 ≤ 1
        ∧ ∃ pre, (st_masterlock_release c bt m).2
            = pre ++ [Effect.release_domain_lock, Effect.mutex_unlock, Effect.condvar_signal])
    ∧ (c.domain_lockmode ≠ c.LOCKMODE_DOMAINS →
        occurrences Effect.release_domain_lock (st_masterlock_release c bt m).2 = 0
        ∧ occurrences Effect.bt_exit_ocaml (st_masterlock_release c bt m).2 = 0) := by
  refine ⟨?_, ?_, ?_⟩
  · simp only [release_trace, st_bt_lock_release, st_masterlock_waiters]
    by_cases hc : c.domain_lockmode = c.LOCKMODE_DOMAINS <;>
      by_cases hw : m.waiters = 0 <;> by_cases hb : bt = 0 <;> simp [hc, hw, hb]
  · intro hc
    simp only [release_trace, st_bt_lock_release, st_masterlock_waiters, hc, if_true]
    refine ⟨?_, ?_, ?_⟩
    · split_ifs <;> simp [occurrences]
    · split_ifs <;> simp [occurrences]
    · split_ifs
      · exact ⟨[Effect.mutex_lock, Effect.set_busy 0, Effect.read_waiters m.waiters,
          Effect.bt_is_in_blocking_section bt, Effect.bt_exit_ocaml], by simp⟩
      · exact ⟨[Effect.mutex_lock, Effect.set_busy 0, Effect.read_waiters m.waiters,
          Effect.bt_is_in_blocking_section bt], by simp⟩
      · exact ⟨[Effect.mutex_lock, Effect.set_busy 0, Effect.read_waiters m.waiters], by simp⟩
  · intro hc
    simp [release_trace, hc, occurrences]

/-- Witness for C10: in the mode of `LOCKMODE_DOMAINS`, no waiter and the
backup thread idle, release calls `caml_bt_exit_ocaml` and then
`caml_release_domain_lock`; in another mode it calls neither. -/
theorem st_masterlock_release_hook_witness :
    (st_masterlock_release ⟨0, 0⟩ 0 ⟨1, 1, 0⟩).2
        = [Effect.mutex_lock, Effect.set_busy 0, Effect.read_waiters 0,
           Effect.bt_is_in_blocking_section 0, Effect.bt_exit_ocaml,
           Effect.release_domain_lock, Effect.mutex_unlock, Effect.condvar_signal]
    ∧ Effect.bt_exit_ocaml ∈ (st_masterlock_release ⟨0, 0⟩ 0 ⟨1, 1, 0⟩).2
    ∧ occurrences Effect.release_domain_lock (st_masterlock_release ⟨0, 1⟩ 0 ⟨1, 1, 0⟩).2 = 0 :=
  ⟨by decide,
   (st_masterlock_release_hook ⟨0, 0⟩ 0 ⟨1, 1, 0⟩).1.mpr ⟨rfl, rfl, rfl⟩,
   ((st_masterlock_release_hook ⟨0, 1⟩ 0 ⟨1, 1, 0⟩).2.2 (by decide)).1⟩

/-! ## The monitor hooks in acquire and yield -/

theorem acquire_hook_spec (c : Config) (bt : Nat) :
    (Effect.bt_enter_ocaml ∈
        (if c.domain_lockmode = c.LOCKMODE_DOMAINS then st_bt_lock_acquire bt else []) ↔
      (c.domain_lockmode = c.LOCKMODE_DOMAINS ∧ bt ≠ 0))
    ∧ occurrences Effect.acquire_domain_lock
        (if c.domain_lockmode = c.LOCKMODE_DOMAINS then st_bt_lock_acquire bt else [])
        = (if c.domain_lockmode = c.LOCKMODE_DOMAINS then 1 else 0)
    ∧ occurrences Effect.bt_enter_ocaml
        (if c.domain_lockmode = c.LOCKMODE_DOMAINS then st_bt_lock_acquire bt else [])
        = (if c.domain_lockmode = c.LOCKMODE_DOMAINS ∧ bt ≠ 0 then 1 else 0) := by
  unfold st_bt_lock_acquire occurrences
  by_cases hc : c.domain_lockmode = c.LOCKMODE_DOMAINS <;> by_cases hb : bt = 0 <;>
    simp [hc, hb]

theorem acquire_pre_no_hook (pre : List st_masterlock) :
    (∀ e ∈ pre.flatMap (fun x =>
        [Effect.condvar_wake, Effect.decr_waiters, Effect.read_busy x.busy,
         Effect.incr_waiters, Effect.condvar_wait]),
      is_hook_action e = false ∧ is_set_busy e = false)
    ∧ occurrences Effect.acquire_domain_lock (pre.flatMap (fun x =>
        [Effect.condvar_wake, Effect.decr_waiters, Effect.read_busy x.busy,
         Effect.incr_waiters, Effect.condvar_wait])) = 0
    ∧ occurrences Effect.bt_enter_ocaml (pre.flatMap (fun x =>
        [Effect.condvar_wake, Effect.decr_waiters, Effect.read_busy x.busy,
         Effect.incr_waiters, Effect.condvar_wait])) = 0 := by
  induction pre with
  | nil => simp [occurrences]
  | cons x pre ih =>
    obtain ⟨h1, h2, h3⟩ := ih
    simp only [occurrences] at h2 h3
    refine ⟨?_, ?_, ?_⟩
    · intro e he
      simp only [List.flatMap_cons, List.mem_append, List.mem_cons, List.mem_singleton,
        List.not_mem_nil, or_false] at he
      rcases he with (rfl | rfl | rfl | rfl | rfl) | he
      · exact ⟨rfl, rfl⟩
      · exact ⟨rfl, rfl⟩
      · exact ⟨rfl, rfl⟩
      · exact ⟨rfl, rfl⟩
      · exact ⟨rfl, rfl⟩
      · exact h1 e he
    · simp [occurrences, h2]
    · simp [occurrences, h3]

/-- The trace of a call of `st_masterlock_acquire` that returned: the entry,
one trip round the loop for each wakeup of `pre` (those that found the lock
busy), then the taking of the lock, the hook and the unlock. -/
theorem st_masterlock_acquire_returns (c : Config) (bt : Nat) (m : st_masterlock)
    (ws : List st_masterlock) (m' : st_masterlock) (t : List Effect)
    (hr : st_masterlock_acquire c bt m ws = some (m', t)) :
    ∃ pre : List Effect,
      t = pre ++ [Effect.read_busy 0, Effect.set_busy 1]
            ++ (if c.domain_lockmode = c.LOCKMODE_DOMAINS then st_bt_lock_acquire bt else [])
            ++ [Effect.mutex_unlock]
      ∧ (∀ e ∈ pre, is_hook_action e = false ∧ is_set_busy e = false)
      ∧ occurrences Effect.acquire_domain_lock pre = 0
      ∧ occurrences Effect.bt_enter_ocaml pre = 0
      ∧ mutex_held pre false = true := by
  by_cases hb : m.busy = 0
  · rw [st_masterlock_acquire, acquire_enter_free c bt m hb, acquire_loop_returned] at hr
    simp only [Option.some.injEq, Prod.mk.injEq] at hr
    obtain ⟨-, rfl⟩ := hr
    refine ⟨[Effect.mutex_lock], by simp, ?_, by simp [occurrences], by simp [occurrences],
      rfl⟩
    intro e he
    simp only [List.mem_singleton] at he
    subst he
    exact ⟨rfl, rfl⟩
  · rw [st_masterlock_acquire, acquire_enter_busy c bt m hb] at hr
    rcases first_free_split ws with hall | ⟨pre, w, post, rfl, hpre, hw⟩
    · rw [acquire_loop_all_busy c bt ws _ _ hall] at hr
      exact absurd hr (by simp)
    · rw [acquire_loop_split c bt pre _ _ w post hpre hw] at hr
      simp only [Option.some.injEq, Prod.mk.injEq] at hr
      obtain ⟨-, rfl⟩ := hr
      obtain ⟨p1, p2, p3⟩ := acquire_pre_no_hook pre
      refine ⟨[Effect.mutex_lock, Effect.read_busy m.busy, Effect.incr_waiters,
          Effect.condvar_wait]
          ++ pre.flatMap (fun x =>
            [Effect.condvar_wake, Effect.decr_waiters, Effect.read_busy x.busy,
             Effect.incr_waiters, Effect.condvar_wait])
          ++ [Effect.condvar_wake, Effect.decr_waiters], by simp, ?_, ?_, ?_,
        by simp [mutex_held_append, mutex_held]⟩
      · intro e he
        simp only [List.mem_append, List.mem_cons, List.mem_singleton, List.not_mem_nil,
          or_false] at he
        rcases he with ((rfl | rfl | rfl | rfl) | he) | (rfl | rfl)
        · exact ⟨rfl, rfl⟩
        · exact ⟨rfl, rfl⟩
        · exact ⟨rfl, rfl⟩
        · exact ⟨rfl, rfl⟩
        · exact p1 e he
        · exact ⟨rfl, rfl⟩
        · exact ⟨rfl, rfl⟩
      · simp only [occurrences_append, p2]
        simp [occurrences]
      · simp only [occurrences_append, p3]
        simp [occurrences]

theorem occurrences_eq_zero (e : Effect) (t : List Effect) (h : e ∉ t) :
    occurrences e t = 0 := by
  unfold occurrences
  exact List.count_eq_zero.mpr h

theorem not_mem_of_occurrences_eq_zero (e : Effect) (t : List Effect)
    (h : occurrences e t = 0) : e ∉ t := by
  unfold occurrences at h
  exact List.count_eq_zero.mp h

/-- C11.  The on-acquire monitor hook, for a call of `st_masterlock_acquire`
that returns.  It calls `caml_bt_enter_ocaml` if and only if `domain_lockmode`
is `LOCKMODE_DOMAINS` and `caml_bt_is_in_blocking_section()` is non-zero.  In
`LOCKMODE_DOMAINS` it calls `caml_acquire_domain_lock` exactly once: the trace
ends with that call and the unlock, and when the message to the backup thread
is sent (at most once) it is the effect right before.  In any other mode it
calls neither. -/
theorem st_masterlock_acquire_hook (c : Config) (bt : Nat) (m : st_masterlock)
    (ws : List st_masterlock) (m' : st_masterlock) (t : List Effect)
    (hr : st_masterlock_acquire c bt m ws = some (m', t)) :
    (Effect.bt_enter_ocaml ∈ t ↔ (c.domain_lockmode = c.LOCKMODE_DOMAINS ∧ bt ≠ 0))
    ∧ (c.domain_lockmode = c.LOCKMODE_DOMAINS →
        occurrences Effect.acquire_domain_lock t = 1
        ∧ occurrences Effect.bt_enter_ocaml t ≤ 1
        ∧ (∃ a, t = a ++ [Effect.acquire_domain_lock, Effect.mutex_unlock])
        ∧ (bt ≠ 0 → ∃ a, t = a ++ [Effect.bt_enter_ocaml, Effect.acquire_domain_lock,
                                    Effect.mutex_unlock]))
    ∧ (c.domain_lockmode ≠ c.LOCKMODE_DOMAINS →
        occurrences Effect.acquire_domain_lock t = 0
        ∧ occurrences Effect.bt_enter_ocaml t = 0) := by
  obtain ⟨pre, rfl, -, p2, p3, -⟩ := st_masterlock_acquire_returns c bt m ws m' t hr
  obtain ⟨k1, k2, k3⟩ := acquire_hook_spec c bt
  have hpre := not_mem_of_occurrences_eq_zero _ _ p3
  refine ⟨?_, ?_, ?_⟩
  · rw [← k1]
    simp only [List.mem_append, List.mem_cons, List.mem_singleton, List.not_mem_nil, or_false,
      reduceCtorEq, or_self, false_or, hpre]
  · intro hc
    refine ⟨?_, ?_, ?_, ?_⟩
    · simp only [occurrences_append, p2, k2]
      simp [occurrences, hc]
    · simp only [occurrences_append, p3, k3]
      split_ifs <;> simp [occurrences]
    · by_cases hb : bt = 0
      · exact ⟨pre ++ [Effect.read_busy 0, Effect.set_busy 1,
            Effect.bt_is_in_blocking_section bt], by simp [hc, hb, st_bt_lock_acquire]⟩
      · exact ⟨pre ++ [Effect.read_busy 0, Effect.set_busy 1,
            Effect.bt_is_in_blocking_section bt, Effect.bt_enter_ocaml],
          by simp [hc, hb, st_bt_lock_acquire]⟩
    · intro hb
      exact ⟨pre ++ [Effect.read_busy 0, Effect.set_busy 1,
          Effect.bt_is_in_blocking_section bt], by simp [hc, hb, st_bt_lock_acquire]⟩
  · intro hc
    refine ⟨?_, ?_⟩
    · simp only [occurrences_append, p2, k2]
      simp [occurrences, hc]
    · simp only [occurrences_append, p3, k3]
      simp [occurrences, hc]

/-- Witness for C11: a busy lock freed at the first wakeup, in the mode of
`LOCKMODE_DOMAINS`, the backup thread in a blocking section. -/
theorem st_masterlock_acquire_hook_witness :
    st_masterlock_acquire ⟨0, 0⟩ 1 ⟨1, 1, 0⟩ [⟨1, 0, 1⟩]
      = some (⟨1, 1, 0⟩,
          [Effect.mutex_lock, Effect.read_busy 1, Effect.incr_waiters, Effect.condvar_wait,
           Effect.condvar_wake, Effect.decr_waiters, Effect.read_busy 0, Effect.set_busy 1,
           Effect.bt_is_in_blocking_section 1, Effect.bt_enter_ocaml,
           Effect.acquire_domain_lock, Effect.mutex_unlock])
    ∧ Effect.bt_enter_ocaml ∈
        [Effect.mutex_lock, Effect.read_busy 1, Effect.incr_waiters, Effect.condvar_wait,
         Effect.condvar_wake, Effect.decr_waiters, Effect.read_busy 0, Effect.set_busy 1,
         Effect.bt_is_in_blocking_section 1, Effect.bt_enter_ocaml,
         Effect.acquire_domain_lock, Effect.mutex_unlock] :=
  ⟨by decide,
   (st_masterlock_acquire_hook ⟨0, 0⟩ 1 ⟨1, 1, 0⟩ [⟨1, 0, 1⟩] ⟨1, 1, 0⟩
      [Effect.mutex_lock, Effect.read_busy 1, Effect.incr_waiters, Effect.condvar_wait,
       Effect.condvar_wake, Effect.decr_waiters, Effect.read_busy 0, Effect.set_busy 1,
       Effect.bt_is_in_blocking_section 1, Effect.bt_enter_ocaml,
       Effect.acquire_domain_lock, Effect.mutex_unlock] (by decide)).1.mpr
     ⟨rfl, by decide⟩⟩

theorem acquire_hook_actions (bt : Nat) :
    ∀ e ∈ st_bt_lock_acquire bt, is_hook_action e = true ∧ gives_up_mutex e = false := by
  unfold st_bt_lock_acquire
  split_ifs <;> simp [is_hook_action, gives_up_mutex]

theorem release_hook_actions (bt : Nat) (m : st_masterlock) :
    ∀ e ∈ st_bt_lock_release bt m, is_hook_action e = true ∧ gives_up_mutex e = false := by
  unfold st_bt_lock_release
  split_ifs <;> simp [is_hook_action, gives_up_mutex]

/-- C12.  Hook ordering in `LOCKMODE_DOMAINS`.  The trace of
`st_masterlock_release` is: lock, `busy = 0`, the hook, unlock, signal.  The
trace of a call of `st_masterlock_acquire` that returns is: a part `pre` that
holds no hook action and no assignment to `busy` and ends with the mutex
held, then the read of `busy`, `busy = 1`, the hook, unlock.  In both, the
hook is not empty, every effect of it is a hook action and none gives the
mutex up: every hook action comes after the assignment to `busy` and before
the unlock that follows it, in one critical section with it. -/
theorem hook_in_busy_critical_section (c : Config) (bt : Nat) (m : st_masterlock)
    (hc : c.domain_lockmode = c.LOCKMODE_DOMAINS) :
    (∃ hook, (st_masterlock_release c bt m).2
        = [Effect.mutex_lock, Effect.set_busy 0] ++ hook
            ++ [Effect.mutex_unlock, Effect.condvar_signal]
      ∧ hook ≠ []
      ∧ (∀ e ∈ hook, is_hook_action e = true ∧ gives_up_mutex e = false)
      ∧ (∀ e ∈ [Effect.mutex_lock, Effect.set_busy 0, Effect.mutex_unlock,
                Effect.condvar_signal], is_hook_action e = false))
    ∧ (∀ (ws : List st_masterlock) (m' : st_masterlock) (t : List Effect),
        st_masterlock_acquire c bt m ws = some (m', t) →
        ∃ pre hook, t = pre ++ [Effect.read_busy 0, Effect.set_busy 1] ++ hook
              ++ [Effect.mutex_unlock]
          ∧ hook ≠ []
          ∧ (∀ e ∈ pre, is_hook_action e = false ∧ is_set_busy e = false)
          ∧ mutex_held pre false = true
          ∧ (∀ e ∈ hook, is_hook_action e = true ∧ gives_up_mutex e = false)
          ∧ (∀ e ∈ [Effect.read_busy 0, Effect.set_busy 1, Effect.mutex_unlock],
              is_hook_action e = false)) := by
  refine ⟨?_, ?_⟩
  · refine ⟨st_bt_lock_release bt { m with busy := 0 }, ?_, ?_, release_hook_actions bt _, ?_⟩
    · simp [release_trace, hc]
    · simp [st_bt_lock_release]
    · simp [is_hook_action]
  · intro ws m' t hr
    obtain ⟨pre, ht, p1, -, -, p4⟩ := st_masterlock_acquire_returns c bt m ws m' t hr
    refine ⟨pre, st_bt_lock_acquire bt, ?_, ?_, p1, p4, acquire_hook_actions bt, ?_⟩
    · rw [ht]
      simp [hc]
    · simp [st_bt_lock_acquire]
    · simp [is_hook_action]

/-- Witness for C12: release with no waiter, and an acquire that waits once,
in the mode of `LOCKMODE_DOMAINS`. -/
theorem hook_in_busy_critical_section_witness :
    (st_masterlock_release ⟨0, 0⟩ 0 ⟨1, 1, 0⟩).2
        = [Effect.mutex_lock, Effect.set_busy 0, Effect.read_waiters 0,
           Effect.bt_is_in_blocking_section 0, Effect.bt_exit_ocaml,
           Effect.release_domain_lock, Effect.mutex_unlock, Effect.condvar_signal]
    ∧ ∃ hook, (st_masterlock_release ⟨0, 0⟩ 0 ⟨1, 1, 0⟩).2
        = [Effect.mutex_lock, Effect.set_busy 0] ++ hook
            ++ [Effect.mutex_unlock, Effect.condvar_signal]
      ∧ hook ≠ []
      ∧ (∀ e ∈ hook, is_hook_action e = true ∧ gives_up_mutex e = false)
      ∧ (∀ e ∈ [Effect.mutex_lock, Effect.set_busy 0, Effect.mutex_unlock,
                Effect.condvar_signal], is_hook_action e = false) :=
  ⟨by decide, (hook_in_busy_critical_section ⟨0, 0⟩ 0 ⟨1, 1, 0⟩ rfl).1⟩

theorem yield_retries_no_call (pre : List st_masterlock) (e : Effect)
    (h1 : e ≠ Effect.condvar_wake) (h2 : e ≠ Effect.condvar_wait)
    (h3 : ∀ v, e ≠ Effect.read_busy v) :
    occurrences e (pre.flatMap (fun x =>
      [Effect.condvar_wake, Effect.read_busy x.busy, Effect.condvar_wait])) = 0 := by
  apply occurrences_eq_zero
  intro hmem
  simp only [List.mem_flatMap, List.mem_cons, List.mem_singleton, List.not_mem_nil,
    or_false] at hmem
  obtain ⟨x, -, hx | hx | hx⟩ := hmem
  · exact h1 hx
  · exact h3 _ hx
  · exact h2 hx

/-- C19.  Yield does not message the backup thread.  For `st_thread_yield`
on a lock with `waiters > 0`: in `LOCKMODE_DOMAINS` the stretch up to the
first wait ends signal, `caml_release_domain_lock`, wait, with no wait
before; a call that returns has called `caml_release_domain_lock` exactly
once and `caml_acquire_domain_lock` exactly once, and its trace ends
`busy = 1`, decrement, `caml_acquire_domain_lock`, unlock.  In any other mode
neither is called.  In every mode the trace holds no blocking-section query,
no `caml_bt_enter_ocaml` and no `caml_bt_exit_ocaml`. -/
theorem st_thread_yield_domain_lock (c : Config) (m : st_masterlock)
    (ws : List st_masterlock) (h : st_masterlock_waiters m ≠ 0) :
    (c.domain_lockmode = c.LOCKMODE_DOMAINS →
      ∃ a, (yield_enter c m).2.1
          = a ++ [Effect.condvar_signal, Effect.release_domain_lock, Effect.condvar_wait]
        ∧ occurrences Effect.condvar_wait a = 0
        ∧ occurrences Effect.release_domain_lock a = 0)
    ∧ (∀ (m' : st_masterlock) (t : List Effect), st_thread_yield c m ws = some (m', t) →
        (c.domain_lockmode = c.LOCKMODE_DOMAINS →
          occurrences Effect.release_domain_lock t = 1
          ∧ occurrences Effect.acquire_domain_lock t = 1
          ∧ (∃ a, t = (yield_enter c m).2.1 ++ a)
          ∧ ∃ a, t = a ++ [Effect.set_busy 1, Effect.decr_waiters,
                          Effect.acquire_domain_lock, Effect.mutex_unlock])
        ∧ (c.domain_lockmode ≠ c.LOCKMODE_DOMAINS →
          occurrences Effect.release_domain_lock t = 0
          ∧ occurrences Effect.acquire_domain_lock t = 0)
        ∧ occurrences Effect.bt_enter_ocaml t = 0
        ∧ occurrences Effect.bt_exit_ocaml t = 0
        ∧ ∀ r, occurrences (Effect.bt_is_in_blocking_section r) t = 0) := by
  refine ⟨?_, ?_⟩
  · intro hc
    refine ⟨[Effect.mutex_lock, Effect.read_waiters (st_masterlock_waiters m),
      Effect.set_busy 0, Effect.incr_waiters], ?_, by simp [occurrences], by simp [occurrences]⟩
    rw [yield_enter_waiters c m h]
    simp [hc]
  · intro m' t hr
    obtain ⟨pre, w, post, -, -, -, -, rfl⟩ := st_thread_yield_returns c m ws h m' t hr
    have r1 := yield_retries_no_call pre Effect.release_domain_lock (by simp) (by simp)
      (by simp)
    have r2 := yield_retries_no_call pre Effect.acquire_domain_lock (by simp) (by simp)
      (by simp)
    have r3 := yield_retries_no_call pre Effect.bt_enter_ocaml (by simp) (by simp) (by simp)
    have r4 := yield_retries_no_call pre Effect.bt_exit_ocaml (by simp) (by simp) (by simp)
    refine ⟨?_, ?_, ?_, ?_, ?_⟩
    · intro hc
      refine ⟨?_, ?_, ?_, ?_⟩
      · simp only [occurrences_append, r1]
        simp [occurrences, hc]
      · simp only [occurrences_append, r2]
        simp [occurrences, hc]
      · refine ⟨pre.flatMap (fun x =>
            [Effect.condvar_wake, Effect.read_busy x.busy, Effect.condvar_wait])
          ++ [Effect.condvar_wake, Effect.read_busy 0, Effect.set_busy 1, Effect.decr_waiters]
          ++ (if c.domain_lockmode = c.LOCKMODE_DOMAINS then [Effect.acquire_domain_lock]
              else [])
          ++ [Effect.mutex_unlock], ?_⟩
        rw [yield_enter_waiters c m h]
        simp only [List.append_assoc]
      · refine ⟨[Effect.mutex_lock, Effect.read_waiters (st_masterlock_waiters m),
            Effect.set_busy 0, Effect.incr_waiters, Effect.condvar_signal,
            Effect.release_domain_lock, Effect.condvar_wait]
          ++ pre.flatMap (fun x =>
            [Effect.condvar_wake, Effect.read_busy x.busy, Effect.condvar_wait])
          ++ [Effect.condvar_wake, Effect.read_busy 0], ?_⟩
        simp [hc]
    · intro hc
      refine ⟨?_, ?_⟩
      · simp only [occurrences_append, r1]
        simp [occurrences, hc]
      · simp only [occurrences_append, r2]
        simp [occurrences, hc]
    · simp only [occurrences_append, r3]
      split_ifs <;> simp [occurrences]
    · simp only [occurrences_append, r4]
      split_ifs <;> simp [occurrences]
    · intro r
      have r5 := yield_retries_no_call pre (Effect.bt_is_in_blocking_section r) (by simp)
        (by simp) (by simp)
      simp only [occurrences_append, r5]
      split_ifs <;> simp [occurrences]

/-- Witness for C19: one waiter, the lock found free at the first wakeup, in
the mode of `LOCKMODE_DOMAINS`. -/
theorem st_thread_yield_domain_lock_witness :
    st_masterlock_waiters ⟨1, 1, 1⟩ ≠ 0
    ∧ st_thread_yield ⟨0, 0⟩ ⟨1, 1, 1⟩ [⟨1, 0, 2⟩]
        = some (⟨1, 1, 1⟩,
            [Effect.mutex_lock, Effect.read_waiters 1, Effect.set_busy 0, Effect.incr_waiters,
             Effect.condvar_signal, Effect.release_domain_lock, Effect.condvar_wait,
             Effect.condvar_wake, Effect.read_busy 0, Effect.set_busy 1, Effect.decr_waiters,
             Effect.acquire_domain_lock, Effect.mutex_unlock])
    ∧ occurrences Effect.bt_enter_ocaml
        [Effect.mutex_lock, Effect.read_waiters 1, Effect.set_busy 0, Effect.incr_waiters,
         Effect.condvar_signal, Effect.release_domain_lock, Effect.condvar_wait,
         Effect.condvar_wake, Effect.read_busy 0, Effect.set_busy 1, Effect.decr_waiters,
         Effect.acquire_domain_lock, Effect.mutex_unlock] = 0 :=
  ⟨by decide, by decide,
   ((st_thread_yield_domain_lock ⟨0, 0⟩ ⟨1, 1, 1⟩ [⟨1, 0, 2⟩] (by decide)).2 ⟨1, 1, 1⟩
      [Effect.mutex_lock, Effect.read_waiters 1, Effect.set_busy 0, Effect.incr_waiters,
       Effect.condvar_signal, Effect.release_domain_lock, Effect.condvar_wait,
       Effect.condvar_wake, Effect.read_busy 0, Effect.set_busy 1, Effect.decr_waiters,
       Effect.acquire_domain_lock, Effect.mutex_unlock] (by decide)).2.2.1⟩

/-! ## Initialisation of the master lock -/

/-- C16.  State after a successful `st_masterlock_init`.  When the lock is
already initialised (`init = 1`), or is not (`init = 0`) and both primitive
initialisations succeed, init returns 0 and leaves `init = 1`, `busy = 1` and
`waiters = 0`, whatever `busy` and `waiters` were.  When `init` was already 1
the trace is just the two stores: no mutex or condvar initialisation.  A
second call right after, whatever the primitives would return, returns 0,
initialises nothing and leaves the same fields. -/
theorem st_masterlock_init_success (rc_mutex rc_cond : Int) (m : st_masterlock)
    (h : m.init = 1 ∨ (m.init = 0 ∧ rc_mutex = 0 ∧ rc_cond = 0)) :
    (st_masterlock_init rc_mutex rc_cond m).1 = 0
    ∧ (st_masterlock_init rc_mutex rc_cond m).2.1 = { init := 1, busy := 1, waiters := 0 }
    ∧ (m.init = 1 →
        (st_masterlock_init rc_mutex rc_cond m).2.2
          = [Effect.set_busy 1, Effect.store_waiters 0])
    ∧ (∀ rc_mutex2 rc_cond2 : Int,
        st_masterlock_init rc_mutex2 rc_cond2 (st_masterlock_init rc_mutex rc_cond m).2.1
          = (0, (st_masterlock_init rc_mutex rc_cond m).2.1,
              [Effect.set_busy 1, Effect.store_waiters 0])) := by
  rcases h with h | ⟨h, h1, h2⟩
  · obtain ⟨i, b, w⟩ := m
    simp only at h
    subst h
    simp [st_masterlock_init]
  · obtain ⟨i, b, w⟩ := m
    simp only at h
    subst h h1 h2
    simp [st_masterlock_init]

/-- Witness for C16: a fresh lock with both initialisations succeeding, and a
lock already initialised. -/
theorem st_masterlock_init_success_witness :
    (st_masterlock_init 0 0 ⟨0, 7, 9⟩).1 = 0
    ∧ (st_masterlock_init 0 0 ⟨0, 7, 9⟩).2.1 = { init := 1, busy := 1, waiters := 0 }
    ∧ (st_masterlock_init 12 12 ⟨1, 0, 3⟩).2.2 = [Effect.set_busy 1, Effect.store_waiters 0] :=
  ⟨(st_masterlock_init_success 0 0 ⟨0, 7, 9⟩ (Or.inr ⟨rfl, rfl, rfl⟩)).1,
   (st_masterlock_init_success 0 0 ⟨0, 7, 9⟩ (Or.inr ⟨rfl, rfl, rfl⟩)).2.1,
   (st_masterlock_init_success 12 12 ⟨1, 0, 3⟩ (Or.inl rfl)).2.2.1 rfl⟩

/-- C17.  Failure of `st_masterlock_init` on a lock with `init = 0`.  It
returns non-zero if and only if `pthread_mutex_init` or `custom_condvar_init`
returns non-zero.  When the mutex initialisation fails, its code is returned
and the trace is that call alone: the condvar is not initialised.  When the
condvar initialisation fails, its code is returned and the trace is the two
initialisations followed by the destruction of the mutex.  In both cases the
lock is returned as it was: `init` stays 0, `busy` and `waiters` are
unchanged. -/
theorem st_masterlock_init_failure (rc_mutex rc_cond : Int) (m : st_masterlock)
    (h : m.init = 0) :
    ((st_masterlock_init rc_mutex rc_cond m).1 ≠ 0 ↔ (rc_mutex ≠ 0 ∨ rc_cond ≠ 0))
    ∧ (rc_mutex ≠ 0 →
        st_masterlock_init rc_mutex rc_cond m = (rc_mutex, m, [Effect.mutex_init rc_mutex]))
    ∧ (rc_mutex = 0 → rc_cond ≠ 0 →
        st_masterlock_init rc_mutex rc_cond m
          = (rc_cond, m,
              [Effect.mutex_init 0, Effect.condvar_init rc_cond, Effect.mutex_destroy]))
    ∧ ((st_masterlock_init rc_mutex rc_cond m).1 ≠ 0 →
        (st_masterlock_init rc_mutex rc_cond m).2.1 = m
        ∧ (st_masterlock_init rc_mutex rc_cond m).2.1.init = 0) := by
  refine ⟨?_, ?_, ?_, ?_⟩
  · by_cases h1 : rc_mutex = 0 <;> by_cases h2 : rc_cond = 0 <;>
      simp [st_masterlock_init, h, h1, h2]
  · intro h1
    simp [st_masterlock_init, h, h1]
  · intro h1 h2
    simp [st_masterlock_init, h, h1, h2]
  · by_cases h1 : rc_mutex = 0 <;> by_cases h2 : rc_cond = 0 <;>
      simp [st_masterlock_init, h, h1, h2]

/-- Witness for C17: the condvar initialisation fails with code 12 on a fresh
lock. -/
theorem st_masterlock_init_failure_witness :
    (⟨0, 7, 9⟩ : st_masterlock).init = 0
    ∧ st_masterlock_init 0 12 ⟨0, 7, 9⟩
        = (12, ⟨0, 7, 9⟩, [Effect.mutex_init 0, Effect.condvar_init 12, Effect.mutex_destroy])
    ∧ st_masterlock_init 22 0 ⟨0, 7, 9⟩ = (22, ⟨0, 7, 9⟩, [Effect.mutex_init 22]) :=
  ⟨rfl,
   (st_masterlock_init_failure 0 12 ⟨0, 7, 9⟩ rfl).2.2.1 rfl (by decide),
   (st_masterlock_init_failure 22 0 ⟨0, 7, 9⟩ rfl).2.1 (by decide)⟩

/-! ## Triggered events -/

theorem event_wait_loop_fired (rc_unlock status : Int) (t : List EventEffect)
    (ws : List (Int × Int)) (h : status ≠ 0) :
    event_wait_loop rc_unlock status t ws
      = some (rc_unlock, { status := status },
          t ++ [EventEffect.read_status status, EventEffect.mutex_unlock rc_unlock]) := by
  cases ws <;> simp [event_wait_loop, h]

theorem event_wait_loop_unfired_cons (rc_unlock : Int) (t : List EventEffect) (s : Int)
    (ws : List (Int × Int)) :
    event_wait_loop rc_unlock 0 t ((0, s) :: ws)
      = event_wait_loop rc_unlock s
          (t ++ [EventEffect.read_status 0, EventEffect.condvar_wait 0]) ws := by
  simp [event_wait_loop]

theorem event_wait_loop_all_zero (rc_unlock : Int) (sts : List Int) :
    ∀ t : List EventEffect, (∀ x ∈ sts, x = 0) →
      event_wait_loop rc_unlock 0 t (sts.map (fun x => (0, x))) = none := by
  induction sts with
  | nil => intro t _; simp [event_wait_loop]
  | cons x sts ih =>
    intro t h
    have hx : x = 0 := h x (by simp)
    subst hx
    rw [List.map_cons, event_wait_loop_unfired_cons]
    exact ih _ (fun y hy => h y (by simp [hy]))

theorem event_wait_loop_split (rc_unlock : Int) (pre : List Int) :
    ∀ (t : List EventEffect) (s : Int) (post : List Int), (∀ x ∈ pre, x = 0) → s ≠ 0 →
      event_wait_loop rc_unlock 0 t ((pre ++ s :: post).map (fun x => (0, x)))
        = some (rc_unlock, { status := s },
            t ++ pre.flatMap (fun _ =>
                  [EventEffect.read_status 0, EventEffect.condvar_wait 0])
              ++ [EventEffect.read_status 0, EventEffect.condvar_wait 0,
                  EventEffect.read_status s, EventEffect.mutex_unlock rc_unlock]) := by
  induction pre with
  | nil =>
    intro t s post _ hs
    rw [List.nil_append, List.map_cons, event_wait_loop_unfired_cons,
      event_wait_loop_fired rc_unlock s _ _ hs]
    simp
  | cons x pre ih =>
    intro t s post h hs
    have hx : x = 0 := h x (by simp)
    subst hx
    rw [List.cons_append, List.map_cons, event_wait_loop_unfired_cons,
      ih _ s post (fun y hy => h y (by simp [hy])) hs]
    simp

theorem first_nonzero_split (sts : List Int) :
    (∀ x ∈ sts, x = 0)
    ∨ ∃ pre s post, sts = pre ++ s :: post ∧ (∀ x ∈ pre, x = 0) ∧ s ≠ 0 := by
  induction sts with
  | nil => left; simp
  | cons a sts ih =>
    by_cases ha : a = 0
    · rcases ih with h | ⟨pre, s, post, rfl, hpre, hs⟩
      · left
        intro x hx
        rcases List.mem_cons.mp hx with rfl | hx
        · exact ha
        · exact h x hx
      · right
        refine ⟨a :: pre, s, post, rfl, ?_, hs⟩
        intro x hx
        rcases List.mem_cons.mp hx with rfl | hx
        · exact ha
        · exact hpre x hx
    · right; exact ⟨[], a, sts, rfl, by simp, ha⟩

theorem event_wait_no_set_status (rc_unlock : Int) (ws : List (Int × Int)) :
    ∀ (status : Int) (t : List EventEffect) (r : Int × st_event × List EventEffect),
      (∀ x ∈ t, is_set_status x = false) →
      event_wait_loop rc_unlock status t ws = some r →
      ∀ x ∈ r.2.2, is_set_status x = false := by
  induction ws with
  | nil =>
    intro status t r ht h
    simp only [event_wait_loop] at h
    split_ifs at h
    simp only [Option.some.injEq] at h
    subst h
    intro x hx
    simp only [List.mem_append, List.mem_cons, List.mem_singleton, List.not_mem_nil,
      or_false] at hx
    rcases hx with hx | rfl | rfl
    · exact ht x hx
    · rfl
    · rfl
  | cons w ws ih =>
    intro status t r ht h
    simp only [event_wait_loop] at h
    split_ifs at h
    · simp only [Option.some.injEq] at h
      subst h
      intro x hx
      simp only [List.mem_append, List.mem_cons, List.mem_singleton, List.not_mem_nil,
        or_false] at hx
      rcases hx with hx | rfl | rfl
      · exact ht x hx
      · rfl
      · rfl
    · refine ih _ _ r ?_ h
      intro x hx
      simp only [List.mem_append, List.mem_cons, List.mem_singleton, List.not_mem_nil,
        or_false] at hx
      rcases hx with hx | rfl | rfl
      · exact ht x hx
      · rfl
      · rfl
    · simp only [Option.some.injEq] at h
      subst h
      intro x hx
      simp only [List.mem_append, List.mem_cons, List.mem_singleton, List.not_mem_nil,
        or_false] at hx
      rcases hx with hx | rfl | rfl
      · exact ht x hx
      · rfl
      · rfl

theorem st_event_wait_no_set_status (rc_lock rc_unlock : Int) (e : st_event)
    (ws : List (Int × Int)) (r : Int × st_event × List EventEffect)
    (h : st_event_wait rc_lock rc_unlock e ws = some r) :
    ∀ x ∈ r.2.2, is_set_status x = false := by
  unfold st_event_wait at h
  split_ifs at h
  · simp only [Option.some.injEq] at h
    subst h
    intro x hx
    simp only [List.mem_singleton] at hx
    subst hx
    rfl
  · refine event_wait_no_set_status rc_unlock ws e.status _ r ?_ h
    intro x hx
    simp only [List.mem_singleton] at hx
    subst hx
    rfl

theorem event_step_status (s s' : EventSys) (x : EventStep) (h : event_step s x = some s') :
    s'.e.status = s.e.status ∨ s'.e.status = 1 := by
  cases x <;> simp only [event_step] at h <;> split_ifs at h <;>
    simp only [Option.some.injEq] at h <;> subst h
  · left; rfl
  · right; simp [st_event_trigger]
  · left; rfl
  · left; rfl
  · left; rfl

/-- C13.  Event trigger is idempotent and the latch is monotonic.  When the
primitives succeed, `st_event_trigger` returns 0 and leaves `status = 1`
whatever it was, and a second trigger returns 0 and leaves the same event; a
wait called after either returns 0 at once.  Whatever the primitives return,
trigger leaves a status that was 1 at 1; `st_event_wait` never assigns
`status`; and no step of the step view takes `status` from 1 to another
value. -/
theorem st_event_trigger_idempotent (e : st_event) :
    (st_event_trigger 0 0 0 e).1 = 0
    ∧ (st_event_trigger 0 0 0 e).2.1.status = 1
    ∧ (st_event_trigger 0 0 0 (st_event_trigger 0 0 0 e).2.1).1 = 0
    ∧ (st_event_trigger 0 0 0 (st_event_trigger 0 0 0 e).2.1).2.1
        = (st_event_trigger 0 0 0 e).2.1
    ∧ (∀ rc_lock rc_unlock rc_broadcast : Int, e.status = 1 →
        (st_event_trigger rc_lock rc_unlock rc_broadcast e).2.1.status = 1)
    ∧ (∀ (rc_lock rc_unlock : Int) (ws : List (Int × Int))
        (r : Int × st_event × List EventEffect),
        st_event_wait rc_lock rc_unlock e ws = some r → ∀ x ∈ r.2.2, is_set_status x = false)
    ∧ (∀ ws : List (Int × Int),
        st_event_wait 0 0 (st_event_trigger 0 0 0 e).2.1 ws
          = some (0, { status := 1 },
              [EventEffect.mutex_lock 0, EventEffect.read_status 1,
               EventEffect.mutex_unlock 0]))
    ∧ (∀ (s s' : EventSys) (x : EventStep), event_step s x = some s' →
        s.e.status = 1 → s'.e.status = 1) := by
  refine ⟨by simp [st_event_trigger], by simp [st_event_trigger],
    by simp [st_event_trigger], by simp [st_event_trigger], ?_, ?_, ?_, ?_⟩
  · intro rl ru rb h
    unfold st_event_trigger
    split_ifs <;> simp [h]
  · intro rl ru ws r h
    exact st_event_wait_no_set_status rl ru e ws r h
  · intro ws
    simp [st_event_wait, st_event_trigger, event_wait_loop_fired]
  · intro s s' x h h1
    rcases event_step_status s s' x h with h2 | h2
    · rw [h2, h1]
    · exact h2

/-- Witness for C13: an unfired event triggered twice, then waited for; and a
fired event whose trigger fails to lock. -/
theorem st_event_trigger_idempotent_witness :
    (st_event_trigger 0 0 0 (st_event_trigger 0 0 0 ⟨0⟩).2.1).2.1 = ⟨1⟩
    ∧ (st_event_trigger 22 0 0 ⟨1⟩).2.1.status = 1
    ∧ st_event_wait 0 0 (st_event_trigger 0 0 0 ⟨0⟩).2.1 []
        = some (0, ⟨1⟩, [EventEffect.mutex_lock 0, EventEffect.read_status 1,
                        EventEffect.mutex_unlock 0]) :=
  ⟨by decide,
   (st_event_trigger_idempotent ⟨1⟩).2.2.2.2.1 22 0 0 rfl,
   (st_event_trigger_idempotent ⟨0⟩).2.2.2.2.2.2.1 []⟩

/-- C14.  `st_event_wait` blocks exactly while the event is unfired (mutex
operations and waits succeeding).  (1) On an event whose status is not 0 it
returns 0 after lock, one read of `status` and unlock: no wait.  (2) On an
unfired event, with `sts` the statuses found at the successive wakeups, it
returns exactly when `sts` is some `pre`, all 0, followed by a first non-zero
`s`; it has then waited `pre.length + 1` times, once more after every wakeup
that found 0, the last read of `status` yields `s`, and the trace ends with
the unlock, whose code it returns.  When every status found is 0 or 1, that
`s` is 1.  (3) No trace of `st_event_wait` holds an assignment to
`status`. -/
theorem st_event_wait_blocks_while_unfired (e : st_event) (sts : List Int) (rc_unlock : Int) :
    (e.status ≠ 0 →
      st_event_wait 0 0 e (sts.map (fun x => (0, x)))
        = some (0, e, [EventEffect.mutex_lock 0, EventEffect.read_status e.status,
                      EventEffect.mutex_unlock 0]))
    ∧ (e.status = 0 →
        ∀ r : Int × st_event × List EventEffect,
          st_event_wait 0 rc_unlock e (sts.map (fun x => (0, x))) = some r ↔
            ∃ pre s post, sts = pre ++ s :: post ∧ (∀ x ∈ pre, x = 0) ∧ s ≠ 0
              ∧ ((∀ x ∈ sts, x = 0 ∨ x = 1) → s = 1)
              ∧ r = (rc_unlock, { status := s },
                  [EventEffect.mutex_lock 0]
                    ++ pre.flatMap (fun _ =>
                        [EventEffect.read_status 0, EventEffect.condvar_wait 0])
                    ++ [EventEffect.read_status 0, EventEffect.condvar_wait 0,
                        EventEffect.read_status s, EventEffect.mutex_unlock rc_unlock])
              ∧ r.2.2.countP is_event_wait = pre.length + 1)
    ∧ (∀ (rc_lock : Int) (ws : List (Int × Int)) (r : Int × st_event × List EventEffect),
        st_event_wait rc_lock rc_unlock e ws = some r →
          ∀ x ∈ r.2.2, is_set_status x = false) := by
  refine ⟨?_, ?_, ?_⟩
  · intro h
    obtain ⟨st⟩ := e
    simp only at h
    simp [st_event_wait, event_wait_loop_fired, h]
  · intro h r
    have hcount : ∀ pre : List Int,
        (pre.flatMap (fun _ =>
          [EventEffect.read_status 0, EventEffect.condvar_wait 0])).countP is_event_wait
          = pre.length := by
      intro pre
      induction pre with
      | nil => rfl
      | cons x pre ih =>
        simp only [List.flatMap_cons, List.countP_append, ih, List.length_cons]
        simp [List.countP_cons, is_event_wait]
        omega
    constructor
    · intro hr
      rw [st_event_wait, if_neg (by simp), h] at hr
      rcases first_nonzero_split sts with hall | ⟨pre, s, post, rfl, hpre, hs⟩
      · rw [event_wait_loop_all_zero rc_unlock sts _ hall] at hr
        exact absurd hr (by simp)
      · rw [event_wait_loop_split rc_unlock pre _ s post hpre hs] at hr
        simp only [Option.some.injEq] at hr
        subst hr
        refine ⟨pre, s, post, rfl, hpre, hs, ?_, rfl, ?_⟩
        · intro h01
          rcases h01 s (by simp) with h0 | h1
          · exact absurd h0 hs
          · exact h1
        · simp only [List.countP_append, hcount]
          simp [List.countP_cons, is_event_wait]
    · rintro ⟨pre, s, post, rfl, hpre, hs, -, rfl, -⟩
      rw [st_event_wait, if_neg (by simp), h, event_wait_loop_split rc_unlock pre _ s post hpre hs]
  · intro rl ws r hr
    exact st_event_wait_no_set_status rl rc_unlock e ws r hr

/-- Witness for C14: an unfired event, two wakeups that find it unfired, a
third that finds it fired. -/
theorem st_event_wait_blocks_while_unfired_witness :
    st_event_wait 0 0 ⟨0⟩ ([0, 0, 1].map (fun x => (0, x)))
      = some (0, ⟨1⟩,
          [EventEffect.mutex_lock 0,
           EventEffect.read_status 0, EventEffect.condvar_wait 0,
           EventEffect.read_status 0, EventEffect.condvar_wait 0,
           EventEffect.read_status 0, EventEffect.condvar_wait 0,
           EventEffect.read_status 1, EventEffect.mutex_unlock 0])
    ∧ st_event_wait 0 0 ⟨1⟩ ([0].map (fun x => (0, x)))
      = some (0, ⟨1⟩, [EventEffect.mutex_lock 0, EventEffect.read_status 1,
                      EventEffect.mutex_unlock 0]) :=
  ⟨((st_event_wait_blocks_while_unfired ⟨0⟩ [0, 0, 1] 0).2.1 rfl _).mpr
     ⟨[0, 0], 1, [], rfl, by decide, by decide, fun _ => rfl, rfl, by decide⟩,
   (st_event_wait_blocks_while_unfired ⟨1⟩ [0] 0).1 (by decide)⟩

/-! ## The tick thread -/

theorem tick_loop_all_zero (T : Nat) (reads : List Nat) (h : ∀ x ∈ reads, x = 0) :
    tick_loop T reads = none := by
  induction reads with
  | nil => rfl
  | cons x reads ih =>
    have hx : x = 0 := h x (by simp)
    subst hx
    simp [tick_loop, ih (fun y hy => h y (by simp [hy]))]

theorem tick_loop_split (T : Nat) (pre : List Nat) (v : Nat) (post : List Nat)
    (hpre : ∀ x ∈ pre, x = 0) (hv : v ≠ 0) :
    tick_loop T (pre ++ v :: post)
      = some (pre.flatMap (fun _ =>
            [TickEffect.load_stop 0, TickEffect.msleep T,
             TickEffect.store_requested_external_interrupt 1, TickEffect.interrupt_self])
          ++ [TickEffect.load_stop v]) := by
  induction pre with
  | nil => simp [tick_loop, hv]
  | cons x pre ih =>
    have hx : x = 0 := hpre x (by simp)
    subst hx
    simp [tick_loop, ih (fun y hy => hpre y (by simp [hy]))]

theorem first_stop_split (reads : List Nat) :
    (∀ x ∈ reads, x = 0)
    ∨ ∃ pre v post, reads = pre ++ v :: post ∧ (∀ x ∈ pre, x = 0) ∧ v ≠ 0 := by
  induction reads with
  | nil => left; simp
  | cons a reads ih =>
    by_cases ha : a = 0
    · rcases ih with h | ⟨pre, s, post, rfl, hpre, hs⟩
      · left
        intro x hx
        rcases List.mem_cons.mp hx with rfl | hx
        · exact ha
        · exact h x hx
      · right
        refine ⟨a :: pre, s, post, rfl, ?_, hs⟩
        intro x hx
        rcases List.mem_cons.mp hx with rfl | hx
        · exact ha
        · exact hpre x hx
    · right; exact ⟨[], a, reads, rfl, by simp, ha⟩

theorem tick_body_counts (T : Nat) (pre : List Nat) :
    (pre.flatMap (fun _ =>
        [TickEffect.load_stop 0, TickEffect.msleep T,
         TickEffect.store_requested_external_interrupt 1, TickEffect.interrupt_self])).countP
        is_load_stop = pre.length
    ∧ (pre.flatMap (fun _ =>
        [TickEffect.load_stop 0, TickEffect.msleep T,
         TickEffect.store_requested_external_interrupt 1, TickEffect.interrupt_self])).countP
        is_msleep = pre.length
    ∧ (pre.flatMap (fun _ =>
        [TickEffect.load_stop 0, TickEffect.msleep T,
         TickEffect.store_requested_external_interrupt 1, TickEffect.interrupt_self])).countP
        is_interrupt = pre.length := by
  induction pre with
  | nil => simp
  | cons x pre ih =>
    obtain ⟨h1, h2, h3⟩ := ih
    refine ⟨?_, ?_, ?_⟩
    · simp only [List.flatMap_cons, List.countP_append, h1, List.length_cons]
      simp [List.countP_cons, is_load_stop]
      omega
    · simp only [List.flatMap_cons, List.countP_append, h2, List.length_cons]
      simp [List.countP_cons, is_msleep]
      omega
    · simp only [List.flatMap_cons, List.countP_append, h3, List.length_cons]
      simp [List.countP_cons, is_interrupt]
      omega

theorem append_eq_cons_cases (a b : List TickEffect) (x : TickEffect) (c : List TickEffect)
    (h : a ++ b = x :: c) : (a = [] ∧ b = x :: c) ∨ ∃ a1, a = x :: a1 ∧ a1 ++ b = c := by
  cases a with
  | nil => left; exact ⟨rfl, h⟩
  | cons y a1 =>
    right
    simp only [List.cons_append, List.cons.injEq] at h
    exact ⟨a1, by rw [h.1], h.2⟩

/-- In the body of the loop, a stretch in which every read of the stop flag
yields true holds at most one sleep and one interrupt request. -/
theorem tick_body_suffix (T : Nat) (v : Nat) (pre : List Nat) :
    ∀ a b : List TickEffect,
      a ++ b = pre.flatMap (fun _ =>
            [TickEffect.load_stop 0, TickEffect.msleep T,
             TickEffect.store_requested_external_interrupt 1, TickEffect.interrupt_self])
          ++ [TickEffect.load_stop v] →
      (∀ x ∈ b, is_load_stop x = true → is_stop_seen x = true) →
      b.countP is_msleep ≤ 1 ∧ b.countP is_interrupt ≤ 1 := by
  induction pre with
  | nil =>
    intro a b hab _
    simp only [List.flatMap_nil, List.nil_append] at hab
    rcases append_eq_cons_cases _ _ _ _ hab with ⟨-, rfl⟩ | ⟨a', -, h'⟩
    · simp [List.countP_cons, is_msleep, is_interrupt]
    · simp at h'
      obtain ⟨-, rfl⟩ := h'
      simp
  | cons x pre ih =>
    intro a b hab hb
    simp only [List.flatMap_cons, List.cons_append, List.nil_append] at hab
    have hnil : ∀ l : List TickEffect,
        (∀ y ∈ l ++ (pre.flatMap (fun _ =>
            [TickEffect.load_stop 0, TickEffect.msleep T,
             TickEffect.store_requested_external_interrupt 1, TickEffect.interrupt_self])
          ++ [TickEffect.load_stop v]), is_load_stop y = true → is_stop_seen y = true) →
        pre = [] := by
      intro l hl
      cases pre with
      | nil => rfl
      | cons z pre' =>
        have := hl (TickEffect.load_stop 0) (by simp) rfl
        simp [is_stop_seen] at this
    rcases append_eq_cons_cases _ _ _ _ hab with ⟨-, rfl⟩ | ⟨a1, -, h1⟩
    · have := hb (TickEffect.load_stop 0) (by simp) rfl
      simp [is_stop_seen] at this
    rcases append_eq_cons_cases _ _ _ _ h1 with ⟨-, rfl⟩ | ⟨a2, -, h2⟩
    · have hp := hnil [TickEffect.msleep T, TickEffect.store_requested_external_interrupt 1,
        TickEffect.interrupt_self] (by simpa using hb)
      subst hp
      simp [List.countP_cons, is_msleep, is_interrupt]
    rcases append_eq_cons_cases _ _ _ _ h2 with ⟨-, rfl⟩ | ⟨a3, -, h3⟩
    · have hp := hnil [TickEffect.store_requested_external_interrupt 1,
        TickEffect.interrupt_self] (by simpa using hb)
      subst hp
      simp [List.countP_cons, is_msleep, is_interrupt]
    rcases append_eq_cons_cases _ _ _ _ h3 with ⟨-, rfl⟩ | ⟨a4, -, h4⟩
    · have hp := hnil [TickEffect.interrupt_self] (by simpa using hb)
      subst hp
      simp [List.countP_cons, is_msleep, is_interrupt]
    exact ih a4 b h4 hb

theorem tick_no_zero_read (T : Nat) (v : Nat) (pre : List Nat) (l : List TickEffect)
    (h : ∀ y ∈ l ++ (pre.flatMap (fun _ =>
            [TickEffect.load_stop 0, TickEffect.msleep T,
             TickEffect.store_requested_external_interrupt 1, TickEffect.interrupt_self])
          ++ [TickEffect.load_stop v]), is_load_stop y = true → is_stop_seen y = true) :
    pre = [] := by
  cases pre with
  | nil => rfl
  | cons z pre' =>
    have := h (TickEffect.load_stop 0) (by simp) rfl
    simp [is_stop_seen] at this

theorem caml_thread_tick_returns (T : Nat) (domain_id : Int) (reads : List Nat)
    (t : List TickEffect) :
    caml_thread_tick T domain_id reads = some t ↔
      ∃ pre v post, reads = pre ++ v :: post ∧ (∀ x ∈ pre, x = 0) ∧ v ≠ 0
        ∧ t = TickEffect.stat_free :: TickEffect.init_domain_self domain_id ::
            (pre.flatMap (fun _ =>
              [TickEffect.load_stop 0, TickEffect.msleep T,
               TickEffect.store_requested_external_interrupt 1, TickEffect.interrupt_self])
            ++ [TickEffect.load_stop v]) := by
  constructor
  · intro h
    rcases first_stop_split reads with hall | ⟨pre, v, post, rfl, hpre, hv⟩
    · simp [caml_thread_tick, tick_loop_all_zero T reads hall] at h
    · simp only [caml_thread_tick, tick_loop_split T pre v post hpre hv,
        Option.some.injEq] at h
      exact ⟨pre, v, post, rfl, hpre, hv, h.symm⟩
  · rintro ⟨pre, v, post, rfl, hpre, hv, rfl⟩
    simp only [caml_thread_tick, tick_loop_split T pre v post hpre hv]

/-- C18.  Tick thread stop protocol; `reads` are the values of the stop flag
at the successive loads.  (1) `caml_thread_tick` returns exactly when some
read yields true.  (2) Its trace is then: the two initial calls, one
iteration (load yielding false, sleep of `Thread_timeout`, store of the
interrupt flag, `caml_interrupt_self`) for each read that came before, and
the load that yields true, after which nothing follows; so there is one load
per iteration and as many sleeps and interrupt requests as reads that
yielded false.  (3) If the first read yields true there is no sleep and no
interrupt request.  (4) In any final stretch `b` of the trace in which every
load yields true (the flag is set and stays set from there on), there is at
most one sleep and at most one interrupt request. -/
theorem caml_thread_tick_stop (Thread_timeout : Nat) (domain_id : Int) (reads : List Nat) :
    ((caml_thread_tick Thread_timeout domain_id reads).isSome ↔ ∃ v ∈ reads, v ≠ 0)
    ∧ (∀ t : List TickEffect, caml_thread_tick Thread_timeout domain_id reads = some t →
        ∃ pre v post, reads = pre ++ v :: post ∧ (∀ x ∈ pre, x = 0) ∧ v ≠ 0
          ∧ t = TickEffect.stat_free :: TickEffect.init_domain_self domain_id ::
              (pre.flatMap (fun _ =>
                [TickEffect.load_stop 0, TickEffect.msleep Thread_timeout,
                 TickEffect.store_requested_external_interrupt 1, TickEffect.interrupt_self])
              ++ [TickEffect.load_stop v])
          ∧ t.countP is_load_stop = pre.length + 1
          ∧ t.countP is_msleep = pre.length
          ∧ t.countP is_interrupt = pre.length)
    ∧ (∀ (v : Nat) (rest : List Nat), v ≠ 0 →
        caml_thread_tick Thread_timeout domain_id (v :: rest)
          = some [TickEffect.stat_free, TickEffect.init_domain_self domain_id,
                  TickEffect.load_stop v])
    ∧ (∀ t a b : List TickEffect,
        caml_thread_tick Thread_timeout domain_id reads = some t → t = a ++ b →
        (∀ x ∈ b, is_load_stop x = true → is_stop_seen x = true) →
        b.countP is_msleep ≤ 1 ∧ b.countP is_interrupt ≤ 1) := by
  refine ⟨?_, ?_, ?_, ?_⟩
  · rcases first_stop_split reads with hall | ⟨pre, v, post, rfl, hpre, hv⟩
    · simp only [caml_thread_tick, tick_loop_all_zero Thread_timeout reads hall,
        Option.isSome_none, Bool.false_eq_true, false_iff, not_exists, not_and, not_not]
      exact fun x hx => hall x hx
    · simp only [caml_thread_tick, tick_loop_split Thread_timeout pre v post hpre hv,
        Option.isSome_some, true_iff]
      exact ⟨v, by simp, hv⟩
  · intro t ht
    obtain ⟨pre, v, post, h1, h2, h3, h4⟩ :=
      (caml_thread_tick_returns Thread_timeout domain_id reads t).mp ht
    obtain ⟨k1, k2, k3⟩ := tick_body_counts Thread_timeout pre
    refine ⟨pre, v, post, h1, h2, h3, h4, ?_, ?_, ?_⟩
    · rw [h4]
      simp only [List.countP_cons, List.countP_append, k1]
      simp [is_load_stop]
    · rw [h4]
      simp only [List.countP_cons, List.countP_append, k2]
      simp [is_msleep]
    · rw [h4]
      simp only [List.countP_cons, List.countP_append, k3]
      simp [is_interrupt]
  · intro v rest hv
    exact (caml_thread_tick_returns Thread_timeout domain_id (v :: rest) _).mpr
      ⟨[], v, rest, rfl, by simp, hv, rfl⟩
  · intro t a b ht hab hb
    obtain ⟨pre, v, post, -, -, -, h4⟩ :=
      (caml_thread_tick_returns Thread_timeout domain_id reads t).mp ht
    rw [h4] at hab
    rcases append_eq_cons_cases _ _ _ _ hab.symm with ⟨-, rfl⟩ | ⟨a1, -, h1⟩
    · have hp := tick_no_zero_read Thread_timeout v pre
        [TickEffect.stat_free, TickEffect.init_domain_self domain_id] (by simpa using hb)
      subst hp
      simp [List.countP_cons, is_msleep, is_interrupt]
    rcases append_eq_cons_cases _ _ _ _ h1 with ⟨-, rfl⟩ | ⟨a2, -, h2⟩
    · have hp := tick_no_zero_read Thread_timeout v pre
        [TickEffect.init_domain_self domain_id] (by simpa using hb)
      subst hp
      simp [List.countP_cons, is_msleep, is_interrupt]
    exact tick_body_suffix Thread_timeout v pre a2 b h2 hb

/-- Witness for C18: the flag is found clear twice and then set; in the
stretch that starts with the second sleep every read yields true, and it
holds that one sleep. -/
theorem caml_thread_tick_stop_witness :
    caml_thread_tick 50 3 [0, 0, 1, 1]
      = some [TickEffect.stat_free, TickEffect.init_domain_self 3,
              TickEffect.load_stop 0, TickEffect.msleep 50,
              TickEffect.store_requested_external_interrupt 1, TickEffect.interrupt_self,
              TickEffect.load_stop 0, TickEffect.msleep 50,
              TickEffect.store_requested_external_interrupt 1, TickEffect.interrupt_self,
              TickEffect.load_stop 1]
    ∧ ([TickEffect.msleep 50, TickEffect.store_requested_external_interrupt 1,
        TickEffect.interrupt_self, TickEffect.load_stop 1].countP is_msleep ≤ 1
      ∧ [TickEffect.msleep 50, TickEffect.store_requested_external_interrupt 1,
        TickEffect.interrupt_self, TickEffect.load_stop 1].countP is_interrupt ≤ 1)
    ∧ caml_thread_tick 50 3 [1, 0]
      = some [TickEffect.stat_free, TickEffect.init_domain_self 3, TickEffect.load_stop 1] :=
  ⟨by decide,
   (caml_thread_tick_stop 50 3 [0, 0, 1, 1]).2.2.2
     [TickEffect.stat_free, TickEffect.init_domain_self 3,
      TickEffect.load_stop 0, TickEffect.msleep 50,
      TickEffect.store_requested_external_interrupt 1, TickEffect.interrupt_self,
      TickEffect.load_stop 0, TickEffect.msleep 50,
      TickEffect.store_requested_external_interrupt 1, TickEffect.interrupt_self,
      TickEffect.load_stop 1]
     [TickEffect.stat_free, TickEffect.init_domain_self 3,
      TickEffect.load_stop 0, TickEffect.msleep 50,
      TickEffect.store_requested_external_interrupt 1, TickEffect.interrupt_self,
      TickEffect.load_stop 0]
     [TickEffect.msleep 50, TickEffect.store_requested_external_interrupt 1,
      TickEffect.interrupt_self, TickEffect.load_stop 1]
     (by decide) (by decide) (by decide),
   (caml_thread_tick_stop 50 3 [1, 0]).2.2.1 1 [0] (by decide)⟩

/-! ## Broadcast of an event -/

theorem event_step_fired_inv (s s' : EventSys) (x : EventStep)
    (h : event_step s x = some s')
    (hinv : s.e.status = 1 ∧ ∀ p ∈ s.pcs, p ≠ EventPC.wait_parked) :
    s'.e.status = 1 ∧ ∀ p ∈ s'.pcs, p ≠ EventPC.wait_parked := by
  obtain ⟨h1, h2⟩ := hinv
  have hpc : event_wait_pc s.e.status = EventPC.wait_returned := by
    simp [event_wait_pc, h1]
  cases x with
  | wait i =>
    simp only [event_step] at h
    split_ifs at h
    simp only [Option.some.injEq] at h
    subst h
    refine ⟨h1, ?_⟩
    intro p hp
    rcases List.mem_or_eq_of_mem_set hp with hp | rfl
    · exact h2 p hp
    · rw [hpc]; simp
  | trigger i =>
    simp only [event_step] at h
    split_ifs at h
    simp only [Option.some.injEq] at h
    subst h
    refine ⟨by simp [st_event_trigger], ?_⟩
    intro p hp
    rcases List.mem_or_eq_of_mem_set hp with hp | rfl
    · exact h2 p hp
    · simp
  | broadcast i =>
    simp only [event_step] at h
    split_ifs at h
    simp only [Option.some.injEq] at h
    subst h
    refine ⟨h1, ?_⟩
    intro p hp
    rcases List.mem_or_eq_of_mem_set hp with hp | rfl
    · simp only [condvar_broadcast, List.mem_map] at hp
      obtain ⟨q, hq, rfl⟩ := hp
      split_ifs
      · simp
      · assumption
    · simp
  | resume i =>
    simp only [event_step] at h
    split_ifs at h
    simp only [Option.some.injEq] at h
    subst h
    refine ⟨h1, ?_⟩
    intro p hp
    rcases List.mem_or_eq_of_mem_set hp with hp | rfl
    · exact h2 p hp
    · rw [hpc]; simp
  | spurious i =>
    simp only [event_step] at h
    split_ifs at h
    simp only [Option.some.injEq] at h
    subst h
    refine ⟨h1, ?_⟩
    intro p hp
    rcases List.mem_or_eq_of_mem_set hp with hp | rfl
    · exact h2 p hp
    · simp

theorem event_run_fired_inv (xs : List EventStep) :
    ∀ (s s' : EventSys), event_run s xs = some s' →
      (s.e.status = 1 ∧ ∀ p ∈ s.pcs, p ≠ EventPC.wait_parked) →
      s'.e.status = 1 ∧ ∀ p ∈ s'.pcs, p ≠ EventPC.wait_parked := by
  induction xs with
  | nil =>
    intro s s' h hinv
    simp only [event_run, Option.some.injEq] at h
    subst h
    exact hinv
  | cons x xs ih =>
    intro s s' h hinv
    simp only [event_run] at h
    split at h
    · rename_i s1 hs1
      exact ih s1 s' h (event_step_fired_inv s s1 x hs1 hinv)
    · simp at h

theorem getElem?_append_cons_length (pre : List EventPC) (x : EventPC) (rest : List EventPC) :
    (pre ++ x :: rest)[pre.length]? = some x := by
  induction pre with
  | nil => simp
  | cons a pre ih => simpa using ih

theorem set_append_cons_length (pre : List EventPC) (x y : EventPC) (rest : List EventPC) :
    (pre ++ x :: rest).set pre.length y = pre ++ y :: rest := by
  induction pre with
  | nil => rfl
  | cons a pre ih => simp [ih]

theorem event_resume_all (n : Nat) :
    ∀ (pre post : List EventPC),
      event_run { e := { status := 1 },
                  pcs := pre ++ List.replicate n EventPC.wait_woken ++ post }
          ((List.range n).map (fun i => EventStep.resume (pre.length + i)))
        = some { e := { status := 1 },
                 pcs := pre ++ List.replicate n EventPC.wait_returned ++ post } := by
  induction n with
  | zero => intro pre post; rfl
  | succ n ih =>
    intro pre post
    have hstep : event_step
          ⟨⟨1⟩, pre ++ List.replicate (n + 1) EventPC.wait_woken ++ post⟩
          (EventStep.resume (pre.length + 0))
        = some ⟨⟨1⟩, (pre ++ [EventPC.wait_returned])
                      ++ List.replicate n EventPC.wait_woken ++ post⟩ := by
      have e1 : pre ++ List.replicate (n + 1) EventPC.wait_woken ++ post
          = pre ++ EventPC.wait_woken :: (List.replicate n EventPC.wait_woken ++ post) := by
        simp [List.replicate_succ]
      rw [e1]
      simp only [event_step, Nat.add_zero, getElem?_append_cons_length,
        set_append_cons_length, if_true, event_wait_pc]
      simp
    have hmap : (List.range (n + 1)).map (fun i => EventStep.resume (pre.length + i))
        = EventStep.resume (pre.length + 0)
          :: (List.range n).map
              (fun i => EventStep.resume ((pre ++ [EventPC.wait_returned]).length + i)) := by
      rw [List.range_succ_eq_map, List.map_cons, List.map_map]
      congr 1
      apply List.map_congr_left
      intro i _
      simp only [Function.comp, List.length_append, List.length_singleton]
      congr 1
      omega
    rw [hmap, event_run, hstep]
    simp only []
    rw [ih (pre ++ [EventPC.wait_returned]) post]
    simp [List.replicate_succ]

/-- C15.  Event broadcast.  With the primitives succeeding, the trace of
`st_event_trigger` is lock, `status = 1`, unlock, broadcast: the status is
set with the mutex held, the broadcast is issued once, with the mutex given
back, and there is no signal.  In the step view, for every `N`: with `N`
threads asleep in `st_event_wait` on an unfired event, one trigger by thread
0 leads to the state where the status is 1 and all `N` are woken; from there
on, whatever happens, the status stays 1 and no thread is asleep in the wait;
every woken thread that runs finds the status set and returns; and when
the `N` threads have run, all have returned. -/
theorem st_event_broadcast (e : st_event) (N : Nat) :
    (st_event_trigger 0 0 0 e).2.2
      = [EventEffect.mutex_lock 0, EventEffect.set_status 1, EventEffect.mutex_unlock 0,
         EventEffect.condvar_broadcast 0]
    ∧ event_mutex_held [EventEffect.mutex_lock 0] false = true
    ∧ event_mutex_held
        [EventEffect.mutex_lock 0, EventEffect.set_status 1, EventEffect.mutex_unlock 0]
        false = false
    ∧ (st_event_trigger 0 0 0 e).2.2.countP is_event_broadcast = 1
    ∧ (st_event_trigger 0 0 0 e).2.2.countP is_event_signal = 0
    ∧ event_run ⟨⟨0⟩, EventPC.outside :: List.replicate N EventPC.wait_parked⟩
        [EventStep.trigger 0, EventStep.broadcast 0]
      = some ⟨⟨1⟩, EventPC.trig_returned :: List.replicate N EventPC.wait_woken⟩
    ∧ (∀ (xs : List EventStep) (s : EventSys),
        event_run ⟨⟨1⟩, EventPC.trig_returned :: List.replicate N EventPC.wait_woken⟩ xs
          = some s →
        s.e.status = 1
        ∧ (∀ i : Nat, s.pcs[i]? ≠ some EventPC.wait_parked)
        ∧ (∀ i : Nat, s.pcs[i]? = some EventPC.wait_woken →
            event_step s (EventStep.resume i)
              = some { s with pcs := s.pcs.set i EventPC.wait_returned }))
    ∧ event_run ⟨⟨1⟩, EventPC.trig_returned :: List.replicate N EventPC.wait_woken⟩
        ((List.range N).map (fun i => EventStep.resume (i + 1)))
      = some ⟨⟨1⟩, EventPC.trig_returned :: List.replicate N EventPC.wait_returned⟩ := by
  refine ⟨by simp [st_event_trigger], rfl, rfl, by simp [st_event_trigger, is_event_broadcast],
    by simp [st_event_trigger, is_event_signal], ?_, ?_, ?_⟩
  · simp [event_run, event_step, st_event_trigger, condvar_broadcast]
  · intro xs s h
    obtain ⟨h1, h2⟩ := event_run_fired_inv xs _ s h
      ⟨rfl, by
        intro p hp
        simp only [List.mem_cons, List.mem_replicate] at hp
        rcases hp with rfl | ⟨-, rfl⟩ <;> simp⟩
    refine ⟨h1, ?_, ?_⟩
    · intro i hi
      exact h2 _ (List.getElem?_mem hi) rfl
    · intro i hi
      simp [event_step, hi, event_wait_pc, h1]
  · have h := event_resume_all N [EventPC.trig_returned] []
    simp only [List.length_singleton, List.append_nil, List.singleton_append] at h
    have hmap : (List.range N).map (fun i => EventStep.resume (i + 1))
        = (List.range N).map (fun i => EventStep.resume (1 + i)) := by
      apply List.map_congr_left
      intro i _
      rw [Nat.add_comm]
    rw [hmap]
    exact h

/-- Witness for C15: three threads asleep in the wait; after the trigger the
second and the third run, then the first; none is left in the wait. -/
theorem st_event_broadcast_witness :
    event_run ⟨⟨0⟩, [EventPC.outside, EventPC.wait_parked, EventPC.wait_parked,
                    EventPC.wait_parked]⟩
        [EventStep.trigger 0, EventStep.broadcast 0, EventStep.resume 2, EventStep.resume 3,
         EventStep.resume 1]
      = some ⟨⟨1⟩, [EventPC.trig_returned, EventPC.wait_returned, EventPC.wait_returned,
                   EventPC.wait_returned]⟩
    ∧ (⟨⟨1⟩, [EventPC.trig_returned, EventPC.wait_woken, EventPC.wait_returned,
              EventPC.wait_returned]⟩ : EventSys).e.status = 1 :=
  ⟨by decide,
   ((st_event_broadcast ⟨0⟩ 3).2.2.2.2.2.2.1 [EventStep.resume 2, EventStep.resume 3]
      ⟨⟨1⟩, [EventPC.trig_returned, EventPC.wait_woken, EventPC.wait_returned,
             EventPC.wait_returned]⟩ (by decide)).1⟩

/-! ## Lemmas on the step view -/

theorem countP_set_of_getElem? (p : PC → Bool) (l : List PC) (i : Nat) (x a : PC)
    (h : l[i]? = some x) :
    (l.set i a).countP p + (if p x then 1 else 0) = l.countP p + (if p a then 1 else 0) := by
  induction l generalizing i with
  | nil => simp at h
  | cons b l ih =>
    cases i with
    | zero =>
      simp only [List.getElem?_cons_zero, Option.some.injEq] at h
      subst h
      simp only [List.set_cons_zero, List.countP_cons]
      omega
    | succ i =>
      simp only [List.getElem?_cons_succ] at h
      have := ih i h
      simp only [List.set_cons_succ, List.countP_cons]
      omega

theorem countP_le_one_unique (p : PC → Bool) (l : List PC) (h : l.countP p ≤ 1) (i j : Nat)
    (a b : PC) (hi : l[i]? = some a) (hj : l[j]? = some b) (ha : p a = true) (hb : p b = true) :
    i = j := by
  induction l generalizing i j with
  | nil => simp at hi
  | cons x l ih =>
    simp only [List.countP_cons] at h
    cases i with
    | zero =>
      cases j with
      | zero => rfl
      | succ j =>
        simp only [List.getElem?_cons_zero, Option.some.injEq] at hi
        simp only [List.getElem?_cons_succ] at hj
        have hx : p x = true := by rw [hi]; exact ha
        have hpos : 0 < l.countP p :=
          List.countP_pos_iff.mpr ⟨b, List.getElem?_mem hj, hb⟩
        rw [if_pos hx] at h
        omega
    | succ i =>
      cases j with
      | zero =>
        simp only [List.getElem?_cons_zero, Option.some.injEq] at hj
        simp only [List.getElem?_cons_succ] at hi
        have hx : p x = true := by rw [hj]; exact hb
        have hpos : 0 < l.countP p :=
          List.countP_pos_iff.mpr ⟨a, List.getElem?_mem hi, ha⟩
        rw [if_pos hx] at h
        omega
      | succ j =>
        simp only [List.getElem?_cons_succ] at hi hj
        have : l.countP p ≤ 1 := by omega
        rw [ih this i j hi hj]

theorem condvar_signal_spec (pcs pcs1 : List PC) (j : Option Nat)
    (h : condvar_signal pcs j = some pcs1) :
    pcs1.length = pcs.length
    ∧ pcs1.countP is_holder = pcs.countP is_holder
    ∧ pcs1.countP in_condvar_wait = pcs.countP in_condvar_wait
    ∧ ∀ (i : Nat) (x : PC), pcs[i]? = some x → is_parked x = false → pcs1[i]? = some x := by
  cases j with
  | none =>
    simp only [condvar_signal] at h
    split_ifs at h
    simp only [Option.some.injEq] at h
    subst h
    exact ⟨rfl, rfl, rfl, fun i x hx _ => hx⟩
  | some k =>
    simp only [condvar_signal] at h
    split at h
    · rename_i hk
      simp only [Option.some.injEq] at h
      subst h
      have h1 := countP_set_of_getElem? is_holder pcs k _ PC.acq_woken hk
      have h2 := countP_set_of_getElem? in_condvar_wait pcs k _ PC.acq_woken hk
      simp only [is_holder, in_condvar_wait] at h1 h2
      refine ⟨by simp, by simpa using h1, by simpa using h2, ?_⟩
      intro i x hx hp
      by_cases hik : k = i
      · subst hik
        rw [hk] at hx
        simp only [Option.some.injEq] at hx
        subst hx
        simp [is_parked] at hp
      · rw [List.getElem?_set_ne hik]
        exact hx
    · rename_i hk
      simp only [Option.some.injEq] at h
      subst h
      have h1 := countP_set_of_getElem? is_holder pcs k _ PC.yield_woken hk
      have h2 := countP_set_of_getElem? in_condvar_wait pcs k _ PC.yield_woken hk
      simp only [is_holder, in_condvar_wait] at h1 h2
      refine ⟨by simp, by simpa using h1, by simpa using h2, ?_⟩
      intro i x hx hp
      by_cases hik : k = i
      · subst hik
        rw [hk] at hx
        simp only [Option.some.injEq] at hx
        subst hx
        simp [is_parked] at hp
      · rw [List.getElem?_set_ne hik]
        exact hx
    · simp at h

theorem step_acquire (c : Config) (s s' : Sys) (i bt : Nat)
    (h : step c s (Event.acquire i bt) = some s') :
    s.pcs[i]? = some PC.idle
    ∧ s' = ⟨(acquire_enter c bt s.m).1,
            s.pcs.set i (acquire_pc (acquire_enter c bt s.m).2.2),
            s.log ++ tag i (acquire_enter c bt s.m).2.1⟩ := by
  simp only [step] at h
  split_ifs at h with hi
  simp only [Option.some.injEq] at h
  exact ⟨hi, h.symm⟩

theorem step_release (c : Config) (s s' : Sys) (i bt : Nat)
    (h : step c s (Event.release i bt) = some s') :
    s.pcs[i]? = some PC.holder
    ∧ s' = ⟨(release_section c bt s.m).1, s.pcs.set i PC.rel_signal,
            s.log ++ tag i (release_section c bt s.m).2⟩ := by
  simp only [step] at h
  split_ifs at h with hi
  simp only [Option.some.injEq] at h
  exact ⟨hi, h.symm⟩

theorem step_signal (c : Config) (s s' : Sys) (i : Nat) (j : Option Nat)
    (h : step c s (Event.signal i j) = some s') :
    s.pcs[i]? = some PC.rel_signal
    ∧ ∃ pcs1, condvar_signal s.pcs j = some pcs1
        ∧ s' = ⟨s.m, pcs1.set i PC.idle, s.log ++ [(i, Effect.condvar_signal)]⟩ := by
  simp only [step] at h
  split_ifs at h with hi
  split at h
  · rename_i pcs1 hsig
    simp only [Option.some.injEq] at h
    exact ⟨hi, pcs1, hsig, h.symm⟩
  · exact absurd h (by simp)

theorem step_yield (c : Config) (s s' : Sys) (i : Nat) (j : Option Nat)
    (h : step c s (Event.yield i j) = some s') :
    s.pcs[i]? = some PC.holder
    ∧ ((st_masterlock_waiters s.m = 0 ∧ j = none
          ∧ s' = ⟨s.m, s.pcs, s.log ++ tag i (yield_enter c s.m).2.1⟩)
      ∨ (st_masterlock_waiters s.m ≠ 0
          ∧ ∃ pcs1, condvar_signal s.pcs j = some pcs1
            ∧ s' = ⟨{ s.m with busy := 0, waiters := atomic_fetch_add s.m.waiters 1 },
                    pcs1.set i PC.yield_wait, s.log ++ tag i (yield_enter c s.m).2.1⟩)) := by
  simp only [step] at h
  by_cases hi : s.pcs[i]? = some PC.holder
  · rw [if_pos hi] at h
    refine ⟨hi, ?_⟩
    by_cases hw : st_masterlock_waiters s.m = 0
    · left
      have e1 : (yield_enter c s.m).2.2 = Outcome.returned := by simp [yield_enter, hw]
      have e2 : (yield_enter c s.m).1 = s.m := by simp [yield_enter, hw]
      simp only [e1, e2] at h
      by_cases hj : j = none
      · rw [if_pos hj] at h
        simp only [Option.some.injEq] at h
        exact ⟨hw, hj, h.symm⟩
      · rw [if_neg hj] at h
        exact absurd h (by simp)
    · right
      have e1 : (yield_enter c s.m).2.2 = Outcome.parked := by
        rw [yield_enter_waiters c s.m hw]
      have e2 : (yield_enter c s.m).1
          = { s.m with busy := 0, waiters := atomic_fetch_add s.m.waiters 1 } := by
        rw [yield_enter_waiters c s.m hw]
      simp only [e1, e2] at h
      split at h
      · rename_i pcs1 hsig
        simp only [Option.some.injEq] at h
        exact ⟨hw, pcs1, hsig, h.symm⟩
      · exact absurd h (by simp)
  · rw [if_neg hi] at h
    exact absurd h (by simp)

theorem step_resume (c : Config) (s s' : Sys) (i bt : Nat)
    (h : step c s (Event.resume i bt) = some s') :
    (s.pcs[i]? = some PC.acq_woken
      ∧ s' = ⟨(acquire_resume c bt s.m).1,
              s.pcs.set i (acquire_pc (acquire_resume c bt s.m).2.2),
              s.log ++ tag i (acquire_resume c bt s.m).2.1⟩)
    ∨ (s.pcs[i]? = some PC.yield_woken
      ∧ s' = ⟨(yield_resume c s.m).1,
              s.pcs.set i (yield_pc (yield_resume c s.m).2.2),
              s.log ++ tag i (yield_resume c s.m).2.1⟩) := by
  simp only [step] at h
  split at h
  · rename_i hi
    simp only [Option.some.injEq] at h
    exact Or.inl ⟨hi, h.symm⟩
  · rename_i hi
    simp only [Option.some.injEq] at h
    exact Or.inr ⟨hi, h.symm⟩
  · exact absurd h (by simp)

theorem step_spurious (c : Config) (s s' : Sys) (i : Nat)
    (h : step c s (Event.spurious i) = some s') :
    (s.pcs[i]? = some PC.acq_wait ∧ s' = ⟨s.m, s.pcs.set i PC.acq_woken, s.log⟩)
    ∨ (s.pcs[i]? = some PC.yield_wait ∧ s' = ⟨s.m, s.pcs.set i PC.yield_woken, s.log⟩) := by
  simp only [step] at h
  split at h
  · rename_i hi
    simp only [Option.some.injEq] at h
    exact Or.inl ⟨hi, h.symm⟩
  · rename_i hi
    simp only [Option.some.injEq] at h
    exact Or.inr ⟨hi, h.symm⟩
  · exact absurd h (by simp)

theorem step_holder_inv (c : Config) (s s' : Sys) (e : Event) (h : step c s e = some s')
    (hinv : s.pcs.countP is_holder = s.m.busy ∧ s.m.busy ≤ 1) :
    s'.pcs.countP is_holder = s'.m.busy ∧ s'.m.busy ≤ 1 := by
  obtain ⟨hc, hb⟩ := hinv
  cases e with
  | acquire i bt =>
    obtain ⟨hi, rfl⟩ := step_acquire c s s' i bt h
    by_cases hbusy : s.m.busy = 0
    · have h1 := countP_set_of_getElem? is_holder s.pcs i PC.idle PC.holder hi
      simp only [is_holder, Bool.false_eq_true, if_false, if_true] at h1
      rw [acquire_enter_free c bt s.m hbusy]
      show List.countP is_holder (s.pcs.set i PC.holder) = 1 ∧ 1 ≤ 1
      omega
    · have h1 := countP_set_of_getElem? is_holder s.pcs i PC.idle PC.acq_wait hi
      simp only [is_holder, Bool.false_eq_true, if_false] at h1
      rw [acquire_enter_busy c bt s.m hbusy]
      show List.countP is_holder (s.pcs.set i PC.acq_wait) = s.m.busy ∧ s.m.busy ≤ 1
      omega
  | release i bt =>
    obtain ⟨hi, rfl⟩ := step_release c s s' i bt h
    have h1 := countP_set_of_getElem? is_holder s.pcs i PC.holder PC.rel_signal hi
    simp only [is_holder, Bool.false_eq_true, if_false, if_true] at h1
    show List.countP is_holder (s.pcs.set i PC.rel_signal) = 0 ∧ 0 ≤ 1
    omega
  | signal i j =>
    obtain ⟨hi, pcs1, hsig, rfl⟩ := step_signal c s s' i j h
    obtain ⟨-, h2, -, h4⟩ := condvar_signal_spec s.pcs pcs1 j hsig
    have h1 := countP_set_of_getElem? is_holder pcs1 i PC.rel_signal PC.idle
      (h4 i _ hi rfl)
    simp only [is_holder, Bool.false_eq_true, if_false] at h1
    show List.countP is_holder (pcs1.set i PC.idle) = s.m.busy ∧ s.m.busy ≤ 1
    omega
  | yield i j =>
    obtain ⟨hi, ⟨-, -, rfl⟩ | ⟨-, pcs1, hsig, rfl⟩⟩ := step_yield c s s' i j h
    · exact ⟨hc, hb⟩
    · obtain ⟨-, h2, -, h4⟩ := condvar_signal_spec s.pcs pcs1 j hsig
      have h1 := countP_set_of_getElem? is_holder pcs1 i PC.holder PC.yield_wait
        (h4 i _ hi rfl)
      simp only [is_holder, Bool.false_eq_true, if_false, if_true] at h1
      show List.countP is_holder (pcs1.set i PC.yield_wait) = 0 ∧ 0 ≤ 1
      omega
  | resume i bt =>
    rcases step_resume c s s' i bt h with ⟨hi, rfl⟩ | ⟨hi, rfl⟩
    · by_cases hbusy : s.m.busy = 0
      · have h1 := countP_set_of_getElem? is_holder s.pcs i PC.acq_woken PC.holder hi
        simp only [is_holder, Bool.false_eq_true, if_false, if_true] at h1
        rw [acquire_resume_free c bt s.m hbusy]
        show List.countP is_holder (s.pcs.set i PC.holder) = 1 ∧ 1 ≤ 1
        omega
      · have h1 := countP_set_of_getElem? is_holder s.pcs i PC.acq_woken PC.acq_wait hi
        simp only [is_holder, Bool.false_eq_true, if_false] at h1
        rw [acquire_resume_busy c bt s.m hbusy]
        show List.countP is_holder (s.pcs.set i PC.acq_wait) = s.m.busy ∧ s.m.busy ≤ 1
        omega
    · by_cases hbusy : s.m.busy = 0
      · have h1 := countP_set_of_getElem? is_holder s.pcs i PC.yield_woken PC.holder hi
        simp only [is_holder, Bool.false_eq_true, if_false, if_true] at h1
        rw [yield_resume_free c s.m hbusy]
        show List.countP is_holder (s.pcs.set i PC.holder) = 1 ∧ 1 ≤ 1
        omega
      · have h1 := countP_set_of_getElem? is_holder s.pcs i PC.yield_woken PC.yield_wait hi
        simp only [is_holder, Bool.false_eq_true, if_false] at h1
        rw [yield_resume_busy c s.m hbusy]
        show List.countP is_holder (s.pcs.set i PC.yield_wait) = s.m.busy ∧ s.m.busy ≤ 1
        omega
  | spurious i =>
    rcases step_spurious c s s' i h with ⟨hi, rfl⟩ | ⟨hi, rfl⟩
    · have h1 := countP_set_of_getElem? is_holder s.pcs i PC.acq_wait PC.acq_woken hi
      simp only [is_holder, Bool.false_eq_true, if_false] at h1
      show List.countP is_holder (s.pcs.set i PC.acq_woken) = s.m.busy ∧ s.m.busy ≤ 1
      omega
    · have h1 := countP_set_of_getElem? is_holder s.pcs i PC.yield_wait PC.yield_woken hi
      simp only [is_holder, Bool.false_eq_true, if_false] at h1
      show List.countP is_holder (s.pcs.set i PC.yield_woken) = s.m.busy ∧ s.m.busy ≤ 1
      omega

theorem fetch_add_one_of_lt (w : Nat) (h : w + 1 < uintnat_modulus) :
    atomic_fetch_add w 1 = w + 1 := by
  unfold atomic_fetch_add uintnat_modulus at *
  omega

theorem fetch_add_minus_one_of_pos (w : Nat) (h0 : 0 < w) (h : w < uintnat_modulus) :
    atomic_fetch_add_minus_one w = w - 1 := by
  unfold atomic_fetch_add_minus_one uintnat_modulus at *
  split_ifs <;> omega

theorem step_waiters_inv (c : Config) (s s' : Sys) (e : Event) (h : step c s e = some s')
    (hinv : s.m.waiters = s.pcs.countP in_condvar_wait ∧ s.pcs.length < uintnat_modulus) :
    s'.m.waiters = s'.pcs.countP in_condvar_wait ∧ s'.pcs.length < uintnat_modulus := by
  obtain ⟨hc, hl⟩ := hinv
  have hle := List.countP_le_length in_condvar_wait (l := s.pcs)
  cases e with
  | acquire i bt =>
    obtain ⟨hi, rfl⟩ := step_acquire c s s' i bt h
    by_cases hbusy : s.m.busy = 0
    · have h1 := countP_set_of_getElem? in_condvar_wait s.pcs i PC.idle PC.holder hi
      simp only [in_condvar_wait, Bool.false_eq_true, if_false] at h1
      rw [acquire_enter_free c bt s.m hbusy]
      show s.m.waiters = List.countP in_condvar_wait (s.pcs.set i PC.holder)
        ∧ (s.pcs.set i PC.holder).length < uintnat_modulus
      rw [List.length_set]
      exact ⟨by omega, hl⟩
    · have h1 := countP_set_of_getElem? in_condvar_wait s.pcs i PC.idle PC.acq_wait hi
      have h2 := List.countP_le_length in_condvar_wait (l := s.pcs.set i PC.acq_wait)
      simp only [in_condvar_wait, Bool.false_eq_true, if_false, if_true] at h1
      rw [List.length_set] at h2
      rw [acquire_enter_busy c bt s.m hbusy]
      show atomic_fetch_add s.m.waiters 1
          = List.countP in_condvar_wait (s.pcs.set i PC.acq_wait)
        ∧ (s.pcs.set i PC.acq_wait).length < uintnat_modulus
      rw [List.length_set, fetch_add_one_of_lt _ (by omega)]
      exact ⟨by omega, hl⟩
  | release i bt =>
    obtain ⟨hi, rfl⟩ := step_release c s s' i bt h
    have h1 := countP_set_of_getElem? in_condvar_wait s.pcs i PC.holder PC.rel_signal hi
    simp only [in_condvar_wait, Bool.false_eq_true, if_false] at h1
    show s.m.waiters = List.countP in_condvar_wait (s.pcs.set i PC.rel_signal)
      ∧ (s.pcs.set i PC.rel_signal).length < uintnat_modulus
    rw [List.length_set]
    exact ⟨by omega, hl⟩
  | signal i j =>
    obtain ⟨hi, pcs1, hsig, rfl⟩ := step_signal c s s' i j h
    obtain ⟨h0, -, h3, h4⟩ := condvar_signal_spec s.pcs pcs1 j hsig
    have h1 := countP_set_of_getElem? in_condvar_wait pcs1 i PC.rel_signal PC.idle
      (h4 i _ hi rfl)
    simp only [in_condvar_wait, Bool.false_eq_true, if_false] at h1
    show s.m.waiters = List.countP in_condvar_wait (pcs1.set i PC.idle)
      ∧ (pcs1.set i PC.idle).length < uintnat_modulus
    rw [List.length_set, h0]
    exact ⟨by omega, hl⟩
  | yield i j =>
    obtain ⟨hi, ⟨-, -, rfl⟩ | ⟨-, pcs1, hsig, rfl⟩⟩ := step_yield c s s' i j h
    · exact ⟨hc, hl⟩
    · obtain ⟨h0, -, h3, h4⟩ := condvar_signal_spec s.pcs pcs1 j hsig
      have h1 := countP_set_of_getElem? in_condvar_wait pcs1 i PC.holder PC.yield_wait
        (h4 i _ hi rfl)
      have h2 := List.countP_le_length in_condvar_wait (l := pcs1.set i PC.yield_wait)
      simp only [in_condvar_wait, Bool.false_eq_true, if_false, if_true] at h1
      rw [List.length_set, h0] at h2
      show atomic_fetch_add s.m.waiters 1
          = List.countP in_condvar_wait (pcs1.set i PC.yield_wait)
        ∧ (pcs1.set i PC.yield_wait).length < uintnat_modulus
      rw [List.length_set, h0, fetch_add_one_of_lt _ (by omega)]
      exact ⟨by omega, hl⟩
  | resume i bt =>
    rcases step_resume c s s' i bt h with ⟨hi, rfl⟩ | ⟨hi, rfl⟩
    · have hpos : 0 < s.pcs.countP in_condvar_wait :=
        List.countP_pos_iff.mpr ⟨_, List.getElem?_mem hi, rfl⟩
      by_cases hbusy : s.m.busy = 0
      · have h1 := countP_set_of_getElem? in_condvar_wait s.pcs i PC.acq_woken PC.holder hi
        simp only [in_condvar_wait, Bool.false_eq_true, if_false, if_true] at h1
        rw [acquire_resume_free c bt s.m hbusy]
        show atomic_fetch_add_minus_one s.m.waiters
            = List.countP in_condvar_wait (s.pcs.set i PC.holder)
          ∧ (s.pcs.set i PC.holder).length < uintnat_modulus
        rw [List.length_set, fetch_add_minus_one_of_pos _ (by omega) (by omega)]
        exact ⟨by omega, hl⟩
      · have h1 := countP_set_of_getElem? in_condvar_wait s.pcs i PC.acq_woken PC.acq_wait hi
        simp only [in_condvar_wait, Bool.false_eq_true, if_false, if_true] at h1
        rw [acquire_resume_busy c bt s.m hbusy]
        show atomic_fetch_add (atomic_fetch_add_minus_one s.m.waiters) 1
            = List.countP in_condvar_wait (s.pcs.set i PC.acq_wait)
          ∧ (s.pcs.set i PC.acq_wait).length < uintnat_modulus
        rw [List.length_set, fetch_add_minus_one_of_pos _ (by omega) (by omega),
          fetch_add_one_of_lt _ (by omega)]
        exact ⟨by omega, hl⟩
    · by_cases hbusy : s.m.busy = 0
      · have h1 := countP_set_of_getElem? in_condvar_wait s.pcs i PC.yield_woken PC.holder hi
        simp only [in_condvar_wait, Bool.false_eq_true, if_false, if_true] at h1
        rw [yield_resume_free c s.m hbusy]
        show atomic_fetch_add_minus_one s.m.waiters
            = List.countP in_condvar_wait (s.pcs.set i PC.holder)
          ∧ (s.pcs.set i PC.holder).length < uintnat_modulus
        rw [List.length_set, fetch_add_minus_one_of_pos _ (by omega) (by omega)]
        exact ⟨by omega, hl⟩
      · have h1 := countP_set_of_getElem? in_condvar_wait s.pcs i PC.yield_woken
          PC.yield_wait hi
        simp only [in_condvar_wait, Bool.false_eq_true, if_false, if_true] at h1
        rw [yield_resume_busy c s.m hbusy]
        show s.m.waiters = List.countP in_condvar_wait (s.pcs.set i PC.yield_wait)
          ∧ (s.pcs.set i PC.yield_wait).length < uintnat_modulus
        rw [List.length_set]
        exact ⟨by omega, hl⟩
  | spurious i =>
    rcases step_spurious c s s' i h with ⟨hi, rfl⟩ | ⟨hi, rfl⟩
    · have h1 := countP_set_of_getElem? in_condvar_wait s.pcs i PC.acq_wait PC.acq_woken hi
      simp only [in_condvar_wait, Bool.false_eq_true, if_false, if_true] at h1
      show s.m.waiters = List.countP in_condvar_wait (s.pcs.set i PC.acq_woken)
        ∧ (s.pcs.set i PC.acq_woken).length < uintnat_modulus
      rw [List.length_set]
      exact ⟨by omega, hl⟩
    · have h1 := countP_set_of_getElem? in_condvar_wait s.pcs i PC.yield_wait
        PC.yield_woken hi
      simp only [in_condvar_wait, Bool.false_eq_true, if_false, if_true] at h1
      show s.m.waiters = List.countP in_condvar_wait (s.pcs.set i PC.yield_woken)
        ∧ (s.pcs.set i PC.yield_woken).length < uintnat_modulus
      rw [List.length_set]
      exact ⟨by omega, hl⟩

theorem run_holder_inv (c : Config) (evs : List Event) :
    ∀ (s s' : Sys), run c s evs = some s' →
      (s.pcs.countP is_holder = s.m.busy ∧ s.m.busy ≤ 1) →
      s'.pcs.countP is_holder = s'.m.busy ∧ s'.m.busy ≤ 1 := by
  induction evs with
  | nil =>
    intro s s' h hinv
    simp only [run, Option.some.injEq] at h
    subst h
    exact hinv
  | cons e es ih =>
    intro s s' h hinv
    simp only [run] at h
    split at h
    · rename_i s1 hs1
      exact ih s1 s' h (step_holder_inv c s s1 e hs1 hinv)
    · simp at h

theorem run_waiters_inv (c : Config) (evs : List Event) :
    ∀ (s s' : Sys), run c s evs = some s' →
      (s.m.waiters = s.pcs.countP in_condvar_wait ∧ s.pcs.length < uintnat_modulus) →
      s'.m.waiters = s'.pcs.countP in_condvar_wait ∧ s'.pcs.length < uintnat_modulus := by
  induction evs with
  | nil =>
    intro s s' h hinv
    simp only [run, Option.some.injEq] at h
    subst h
    exact hinv
  | cons e es ih =>
    intro s s' h hinv
    simp only [run] at h
    split at h
    · rename_i s1 hs1
      exact ih s1 s' h (step_waiters_inv c s s1 e hs1 hinv)
    · simp at h

theorem init_success (rc_mutex rc_cond : Int) (m0 : st_masterlock)
    (h : (st_masterlock_init rc_mutex rc_cond m0).1 = 0) :
    (st_masterlock_init rc_mutex rc_cond m0).2.1.busy = 1
    ∧ (st_masterlock_init rc_mutex rc_cond m0).2.1.waiters = 0
    ∧ (st_masterlock_init rc_mutex rc_cond m0).2.1.init ≠ 0 := by
  unfold st_masterlock_init at h ⊢
  split_ifs at h ⊢ <;> simp_all

theorem countP_replicate_idle (p : PC → Bool) (hp : p PC.idle = false) (n : Nat) :
    (List.replicate n PC.idle).countP p = 0 := by
  induction n with
  | zero => rfl
  | succ n ih => simp [List.replicate_succ, List.countP_cons, ih, hp]


/-! ## The claims on the step view -/

/-- C1.  Mutual exclusion of the master lock.  In every state reached by a
run from the state left by a successful `st_masterlock_init` (thread 0 the
holder, `n` other threads outside), at most one thread is a holder: the
holders number at most one, two threads that are both holders are the same
thread; and `busy = 1` whenever some thread is a holder. -/
theorem master_lock_mutual_exclusion (c : Config) (rc_mutex rc_cond : Int)
    (m0 : st_masterlock) (n : Nat) (evs : List Event) (s : Sys)
    (hinit : (st_masterlock_init rc_mutex rc_cond m0).1 = 0)
    (hrun : run c (init_sys rc_mutex rc_cond m0 n) evs = some s) :
    s.pcs.countP is_holder ≤ 1
    ∧ (∀ i j : Nat, s.pcs[i]? = some PC.holder → s.pcs[j]? = some PC.holder → i = j)
    ∧ ((∃ i : Nat, s.pcs[i]? = some PC.holder) → s.m.busy = 1) := by
  obtain ⟨hb, -, -⟩ := init_success rc_mutex rc_cond m0 hinit
  have h0 : (init_sys rc_mutex rc_cond m0 n).pcs.countP is_holder
        = (init_sys rc_mutex rc_cond m0 n).m.busy
      ∧ (init_sys rc_mutex rc_cond m0 n).m.busy ≤ 1 := by
    have hz := countP_replicate_idle is_holder rfl n
    simp only [init_sys, List.countP_cons, hz, hb, is_holder]
    simp
  obtain ⟨h1, h2⟩ := run_holder_inv c evs _ s hrun h0
  refine ⟨by omega, ?_, ?_⟩
  · intro i j hi hj
    exact countP_le_one_unique is_holder s.pcs (by omega) i j _ _ hi hj rfl rfl
  · rintro ⟨i, hi⟩
    have hpos : 0 < s.pcs.countP is_holder :=
      List.countP_pos_iff.mpr ⟨_, List.getElem?_mem hi, rfl⟩
    omega

/-- Witness for C1: two threads park in acquire, thread 0 releases and its
signal wakes thread 2, which takes the lock. -/
theorem master_lock_mutual_exclusion_witness :
    (st_masterlock_init 0 0 ⟨0, 0, 0⟩).1 = 0
    ∧ run ⟨0, 1⟩ (init_sys 0 0 ⟨0, 0, 0⟩ 2)
        [Event.acquire 1 0, Event.acquire 2 0, Event.release 0 0, Event.signal 0 (some 2),
         Event.resume 2 0]
      = some ⟨⟨1, 1, 1⟩, [PC.idle, PC.acq_wait, PC.holder],
          [(0, Effect.mutex_init 0), (0, Effect.condvar_init 0), (0, Effect.set_busy 1),
           (0, Effect.store_waiters 0),
           (1, Effect.mutex_lock), (1, Effect.read_busy 1), (1, Effect.incr_waiters),
           (1, Effect.condvar_wait),
           (2, Effect.mutex_lock), (2, Effect.read_busy 1), (2, Effect.incr_waiters),
           (2, Effect.condvar_wait),
           (0, Effect.mutex_lock), (0, Effect.set_busy 0), (0, Effect.mutex_unlock),
           (0, Effect.condvar_signal),
           (2, Effect.condvar_wake), (2, Effect.decr_waiters), (2, Effect.read_busy 0),
           (2, Effect.set_busy 1), (2, Effect.mutex_unlock)]⟩
    ∧ [PC.idle, PC.acq_wait, PC.holder].countP is_holder ≤ 1 :=
  ⟨by decide, by decide,
   (master_lock_mutual_exclusion ⟨0, 1⟩ 0 0 ⟨0, 0, 0⟩ 2
      [Event.acquire 1 0, Event.acquire 2 0, Event.release 0 0, Event.signal 0 (some 2),
       Event.resume 2 0]
      ⟨⟨1, 1, 1⟩, [PC.idle, PC.acq_wait, PC.holder],
        [(0, Effect.mutex_init 0), (0, Effect.condvar_init 0), (0, Effect.set_busy 1),
         (0, Effect.store_waiters 0),
         (1, Effect.mutex_lock), (1, Effect.read_busy 1), (1, Effect.incr_waiters),
         (1, Effect.condvar_wait),
         (2, Effect.mutex_lock), (2, Effect.read_busy 1), (2, Effect.incr_waiters),
         (2, Effect.condvar_wait),
         (0, Effect.mutex_lock), (0, Effect.set_busy 0), (0, Effect.mutex_unlock),
         (0, Effect.condvar_signal),
         (2, Effect.condvar_wake), (2, Effect.decr_waiters), (2, Effect.read_busy 0),
         (2, Effect.set_busy 1), (2, Effect.mutex_unlock)]⟩
      (by decide) (by decide)).1⟩

theorem getElem?_append_cons_len {α : Type} (pre : List α) (x : α) (rest : List α) :
    (pre ++ x :: rest)[pre.length]? = some x := by
  induction pre with
  | nil => simp
  | cons a pre ih => simpa using ih

theorem set_append_cons_len {α : Type} (pre : List α) (x y : α) (rest : List α) :
    (pre ++ x :: rest).set pre.length y = pre ++ y :: rest := by
  induction pre with
  | nil => rfl
  | cons a pre ih => simp [ih]

/-- Threads `pre.length`, ..., `pre.length + k - 1`, all outside, call acquire
one after the other on a busy lock: each parks. -/
theorem acquire_all_park (c : Config) (bt : Nat) (k : Nat) :
    ∀ (s : Sys) (pre post : List PC), s.m.busy ≠ 0 →
      s.pcs = pre ++ List.replicate k PC.idle ++ post →
      ∃ s', run c s ((List.range k).map (fun i => Event.acquire (pre.length + i) bt)) = some s'
        ∧ s'.pcs = pre ++ List.replicate k PC.acq_wait ++ post
        ∧ s'.m.busy ≠ 0 := by
  induction k with
  | zero =>
    intro s pre post hb hp
    exact ⟨s, rfl, hp, hb⟩
  | succ k ih =>
    intro s pre post hb hp
    have e1 : s.pcs = pre ++ PC.idle :: (List.replicate k PC.idle ++ post) := by
      rw [hp]; simp [List.replicate_succ]
    have hstep : step c s (Event.acquire (pre.length + 0) bt)
        = some ⟨{ s.m with waiters := atomic_fetch_add s.m.waiters 1 },
                (pre ++ [PC.acq_wait]) ++ List.replicate k PC.idle ++ post,
                s.log ++ tag (pre.length + 0) (acquire_enter c bt s.m).2.1⟩ := by
      simp only [step, Nat.add_zero, e1, getElem?_append_cons_len, set_append_cons_len,
        if_true, acquire_enter_busy c bt s.m hb, acquire_pc]
      simp
    have hmap : (List.range (k + 1)).map (fun i => Event.acquire (pre.length + i) bt)
        = Event.acquire (pre.length + 0) bt
          :: (List.range k).map
              (fun i => Event.acquire ((pre ++ [PC.acq_wait]).length + i) bt) := by
      rw [List.range_succ_eq_map, List.map_cons, List.map_map]
      congr 1
      apply List.map_congr_left
      intro i _
      simp only [Function.comp, List.length_append, List.length_singleton]
      congr 1
      omega
    obtain ⟨s', hr, hp', hb'⟩ := ih
      ⟨{ s.m with waiters := atomic_fetch_add s.m.waiters 1 },
        (pre ++ [PC.acq_wait]) ++ List.replicate k PC.idle ++ post,
        s.log ++ tag (pre.length + 0) (acquire_enter c bt s.m).2.1⟩
      (pre ++ [PC.acq_wait]) post hb rfl
    refine ⟨s', ?_, ?_, hb'⟩
    · rw [hmap, run, hstep]
      exact hr
    · rw [hp']
      simp [List.replicate_succ]

theorem init_sys_waiters_inv (rc_mutex rc_cond : Int) (m0 : st_masterlock) (n : Nat)
    (hinit : (st_masterlock_init rc_mutex rc_cond m0).1 = 0)
    (hn : n + 1 < uintnat_modulus) :
    (init_sys rc_mutex rc_cond m0 n).m.waiters
        = (init_sys rc_mutex rc_cond m0 n).pcs.countP in_condvar_wait
    ∧ (init_sys rc_mutex rc_cond m0 n).pcs.length < uintnat_modulus := by
  obtain ⟨-, hw, -⟩ := init_success rc_mutex rc_cond m0 hinit
  have hz := countP_replicate_idle in_condvar_wait rfl n
  refine ⟨?_, ?_⟩
  · simp only [init_sys, List.countP_cons, hz, hw, in_condvar_wait]
    simp
  · simp only [init_sys, List.length_cons, List.length_replicate]
    exact hn

/-- A thread parks in acquire, the holder releases and signals it, and it
completes its acquire. -/
theorem park_release_handoff (c : Config) (bt1 bt2 bt3 : Nat) (m : st_masterlock)
    (rest : List PC) (log : List (Nat × Effect)) (hb : m.busy ≠ 0) :
    (run c ⟨m, PC.holder :: PC.idle :: rest, log⟩
        [Event.acquire 1 bt1, Event.release 0 bt2, Event.signal 0 (some 1),
         Event.resume 1 bt3]).map (fun s => s.pcs)
      = some (PC.idle :: PC.holder :: rest) := by
  simp [run, step, acquire_enter_busy c bt1 m hb, release_section, acquire_resume,
    acquire_test, acquire_pc, condvar_signal]

/-- C2.  Waiter counter accuracy.  In every state reached by a run from the
state left by a successful `st_masterlock_init`, the number of threads being
representable in a `uintnat`, `st_masterlock_waiters` equals the number of
threads inside `custom_condvar_wait` on `is_free` (asleep or woken, from
acquire or from yield).  In particular: when `K` of the threads have called
acquire on the held lock, all `K` are parked and `st_masterlock_waiters`
returns `K`; and after one thread parks, the holder releases, its signal
wakes the waiter and the waiter completes its acquire, it returns 0. -/
theorem waiters_counter_exact (c : Config) (rc_mutex rc_cond : Int)
    (m0 : st_masterlock) (n : Nat)
    (hinit : (st_masterlock_init rc_mutex rc_cond m0).1 = 0)
    (hn : n + 1 < uintnat_modulus) :
    (∀ (evs : List Event) (s : Sys),
        run c (init_sys rc_mutex rc_cond m0 n) evs = some s →
        st_masterlock_waiters s.m = s.pcs.countP in_condvar_wait)
    ∧ (∀ (K bt : Nat), K ≤ n →
        ∃ s, run c (init_sys rc_mutex rc_cond m0 n)
              ((List.range K).map (fun i => Event.acquire (i + 1) bt)) = some s
          ∧ s.pcs = PC.holder :: (List.replicate K PC.acq_wait
                                    ++ List.replicate (n - K) PC.idle)
          ∧ st_masterlock_waiters s.m = K)
    ∧ (∀ (bt1 bt2 bt3 : Nat), 1 ≤ n →
        ∃ s, run c (init_sys rc_mutex rc_cond m0 n)
              [Event.acquire 1 bt1, Event.release 0 bt2, Event.signal 0 (some 1),
               Event.resume 1 bt3] = some s
          ∧ s.pcs = PC.idle :: PC.holder :: List.replicate (n - 1) PC.idle
          ∧ st_masterlock_waiters s.m = 0) := by
  have h0 := init_sys_waiters_inv rc_mutex rc_cond m0 n hinit hn
  obtain ⟨hb, -, -⟩ := init_success rc_mutex rc_cond m0 hinit
  have hinv : ∀ (evs : List Event) (s : Sys),
      run c (init_sys rc_mutex rc_cond m0 n) evs = some s →
      st_masterlock_waiters s.m = s.pcs.countP in_condvar_wait := by
    intro evs s hrun
    exact (run_waiters_inv c evs _ s hrun h0).1
  refine ⟨hinv, ?_, ?_⟩
  · intro K bt hK
    have hp : (init_sys rc_mutex rc_cond m0 n).pcs
        = [PC.holder] ++ List.replicate K PC.idle ++ List.replicate (n - K) PC.idle := by
      have : n = K + (n - K) := by omega
      simp only [init_sys, List.singleton_append, List.cons_append, List.nil_append]
      rw [← List.replicate_add, ← this]
    obtain ⟨s, hr, hs, -⟩ := acquire_all_park c bt K (init_sys rc_mutex rc_cond m0 n)
      [PC.holder] (List.replicate (n - K) PC.idle) (by simp [init_sys, hb]) hp
    have hmap : (List.range K).map (fun i => Event.acquire (i + 1) bt)
        = (List.range K).map (fun i => Event.acquire ([PC.holder].length + i) bt) := by
      apply List.map_congr_left
      intro i _
      simp only [List.length_singleton]
      rw [Nat.add_comm]
    rw [hmap]
    refine ⟨s, hr, by simpa using hs, ?_⟩
    rw [hinv _ s hr, hs]
    simp [List.countP_cons, List.countP_append, List.countP_replicate, in_condvar_wait]
  · intro bt1 bt2 bt3 h1
    obtain ⟨k, rfl⟩ : ∃ k, n = k + 1 := ⟨n - 1, by omega⟩
    have hmap := park_release_handoff c bt1 bt2 bt3 (init_sys rc_mutex rc_cond m0 (k + 1)).m
      (List.replicate k PC.idle) (init_sys rc_mutex rc_cond m0 (k + 1)).log
      (by simp [init_sys, hb])
    obtain ⟨s, hrun, hs⟩ := Option.map_eq_some'.mp hmap
    have hrun' : run c (init_sys rc_mutex rc_cond m0 (k + 1))
        [Event.acquire 1 bt1, Event.release 0 bt2, Event.signal 0 (some 1),
         Event.resume 1 bt3] = some s := hrun
    refine ⟨s, hrun', by simpa using hs, ?_⟩
    rw [hinv _ _ hrun', hs]
    simp [List.countP_cons, List.countP_replicate, in_condvar_wait]

/-- Witness for C2: two threads beside the holder; both call acquire and
park, and the count read is 2. -/
theorem waiters_counter_exact_witness :
    (st_masterlock_init 0 0 ⟨0, 0, 0⟩).1 = 0
    ∧ 2 + 1 < uintnat_modulus
    ∧ (∃ s, run ⟨0, 1⟩ (init_sys 0 0 ⟨0, 0, 0⟩ 2)
            ((List.range 2).map (fun i => Event.acquire (i + 1) 0)) = some s
        ∧ s.pcs = PC.holder :: (List.replicate 2 PC.acq_wait ++ List.replicate (2 - 2) PC.idle)
        ∧ st_masterlock_waiters s.m = 2)
    ∧ (run ⟨0, 1⟩ (init_sys 0 0 ⟨0, 0, 0⟩ 2)
          [Event.acquire 1 0, Event.acquire 2 0, Event.spurious 2]).map
        (fun s => (st_masterlock_waiters s.m, s.pcs))
      = some (2, [PC.holder, PC.acq_wait, PC.acq_woken]) :=
  ⟨by decide, by decide,
   (waiters_counter_exact ⟨0, 1⟩ 0 0 ⟨0, 0, 0⟩ 2 (by decide) (by decide)).2.1 2 0 (by decide),
   by decide⟩

/-- The lock is held, `N` threads are parked in acquire, `k` others are
outside, thread `j + 1` is the one the signal wakes: the holder releases,
signals, and the woken thread completes its acquire. -/
theorem release_wakes_one (c : Config) (bt bt2 : Nat) (m : st_masterlock) (N k j : Nat)
    (log : List (Nat × Effect)) (hj : j < N) (hN : N < uintnat_modulus)
    (hw : m.waiters = N) :
    (run c ⟨m, PC.holder :: (List.replicate N PC.acq_wait ++ List.replicate k PC.idle), log⟩
        [Event.release 0 bt, Event.signal 0 (some (j + 1)), Event.resume (j + 1) bt2]).map
        (fun s => (s.m, s.pcs))
      = some ({ m with busy := 1, waiters := N - 1 },
              PC.idle :: ((List.replicate N PC.acq_wait).set j PC.holder
                          ++ List.replicate k PC.idle)) := by
  have h1 : (List.replicate N PC.acq_wait ++ List.replicate k PC.idle)[j]?
      = some PC.acq_wait := by
    rw [List.getElem?_append_left (by simpa using hj)]
    exact List.getElem?_replicate_of_lt hj
  have h2 : atomic_fetch_add_minus_one N = N - 1 :=
    fetch_add_minus_one_of_pos N (by omega) hN
  have h3 : ∀ x : PC, (List.replicate N PC.acq_wait ++ List.replicate k PC.idle).set j x
      = (List.replicate N PC.acq_wait).set j x ++ List.replicate k PC.idle :=
    fun x => List.set_append_left j x (by simpa using hj)
  have h4 : ∀ x : PC, ((List.replicate N PC.acq_wait).set j x
        ++ List.replicate k PC.idle)[j]? = some x := by
    intro x
    rw [List.getElem?_append_left (by simpa using hj), List.getElem?_set_self']
    simp [hj]
  have h5 : ∀ x y : PC, ((List.replicate N PC.acq_wait).set j x
        ++ List.replicate k PC.idle).set j y
      = (List.replicate N PC.acq_wait).set j y ++ List.replicate k PC.idle := by
    intro x y
    rw [List.set_append_left j y (by simpa using hj), List.set_set]
  simp [run, step, release_section, acquire_resume, acquire_test, acquire_pc, condvar_signal,
    h1, h2, h3, h4, h5, hw]

theorem getElem?_cons_replicate (a x : PC) (N k i : Nat)
    (h : (a :: (List.replicate N PC.acq_wait ++ List.replicate k PC.idle))[i]? = some x) :
    (i = 0 ∧ x = a) ∨ (∃ j, j < N ∧ i = j + 1 ∧ x = PC.acq_wait) ∨ x = PC.idle := by
  cases i with
  | zero =>
    simp only [List.getElem?_cons_zero, Option.some.injEq] at h
    exact Or.inl ⟨rfl, h.symm⟩
  | succ n =>
    simp only [List.getElem?_cons_succ, List.getElem?_append, List.getElem?_replicate,
      List.length_replicate] at h
    split_ifs at h with h1 h2
    · simp only [Option.some.injEq] at h
      exact Or.inr (Or.inl ⟨n, h1, rfl, h.symm⟩)
    · simp only [Option.some.injEq] at h
      exact Or.inr (Or.inr h.symm)

theorem getElem?_cons_replicate_set (a b x : PC) (N k j i : Nat)
    (h : (a :: ((List.replicate N PC.acq_wait).set j b
            ++ List.replicate k PC.idle))[i]? = some x) :
    (i = 0 ∧ x = a) ∨ (i = j + 1 ∧ x = b) ∨ x = PC.acq_wait ∨ x = PC.idle := by
  cases i with
  | zero =>
    simp only [List.getElem?_cons_zero, Option.some.injEq] at h
    exact Or.inl ⟨rfl, h.symm⟩
  | succ n =>
    simp only [List.getElem?_cons_succ, List.getElem?_append, List.getElem?_set,
      List.getElem?_replicate, List.length_replicate, List.length_set] at h
    split_ifs at h with h1 h2 h3 h4
    · simp only [Option.some.injEq] at h
      exact Or.inr (Or.inl ⟨by omega, h.symm⟩)
    · simp only [Option.some.injEq] at h
      exact Or.inr (Or.inr (Or.inl h.symm))
    · simp only [Option.some.injEq] at h
      exact Or.inr (Or.inr (Or.inr h.symm))

theorem any_parked_cons_replicate (a : PC) (N k : Nat) (hN : 1 ≤ N) :
    (a :: (List.replicate N PC.acq_wait ++ List.replicate k PC.idle)).any is_parked
      = true := by
  obtain ⟨n, rfl⟩ : ∃ n, N = n + 1 := ⟨N - 1, by omega⟩
  simp [List.replicate_succ, is_parked]

/-- After the release of the holder, with `N ≥ 1` threads parked in acquire,
`k` threads outside and no new call or spurious wakeup, nothing can happen
but: the signal, which wakes one parked thread, then the return of that
thread from its wait. -/
theorem release_continuations (c : Config) (bt : Nat) (m : st_masterlock) (N k : Nat)
    (log : List (Nat × Effect)) (evs : List Event) (s' : Sys) (hN : 1 ≤ N)
    (hall : ∀ e ∈ evs, is_continuation e = true)
    (hrun : run c ⟨m, PC.holder :: (List.replicate N PC.acq_wait ++ List.replicate k PC.idle),
        log⟩ (Event.release 0 bt :: evs) = some s') :
    evs = []
    ∨ (∃ j, j < N ∧ evs = [Event.signal 0 (some (j + 1))])
    ∨ (∃ j bt2, j < N ∧ evs = [Event.signal 0 (some (j + 1)), Event.resume (j + 1) bt2]) := by
  have hs1 : step c ⟨m, PC.holder :: (List.replicate N PC.acq_wait
        ++ List.replicate k PC.idle), log⟩ (Event.release 0 bt)
      = some ⟨{ m with busy := 0 },
              PC.rel_signal :: (List.replicate N PC.acq_wait ++ List.replicate k PC.idle),
              log ++ tag 0 (release_section c bt m).2⟩ := by
    simp [step, release_section]
  rw [run, hs1] at hrun
  simp only at hrun
  cases evs with
  | nil => exact Or.inl rfl
  | cons e1 rest =>
    right
    have hc1 := hall e1 (List.mem_cons_self _ _)
    rw [run] at hrun
    cases hs2 : step c ⟨{ m with busy := 0 },
        PC.rel_signal :: (List.replicate N PC.acq_wait ++ List.replicate k PC.idle),
        log ++ tag 0 (release_section c bt m).2⟩ e1 with
    | none => rw [hs2] at hrun; simp at hrun
    | some s2 =>
      rw [hs2] at hrun
      simp only at hrun
      cases e1 with
      | acquire i b => simp [is_continuation] at hc1
      | release i b => simp [is_continuation] at hc1
      | yield i jo => simp [is_continuation] at hc1
      | spurious i => simp [is_continuation] at hc1
      | resume i b =>
        exfalso
        rcases step_resume _ _ _ _ _ hs2 with ⟨hi, -⟩ | ⟨hi, -⟩
        · rcases getElem?_cons_replicate _ _ _ _ _ hi with ⟨-, hx⟩ | ⟨j, -, -, hx⟩ | hx <;>
            simp at hx
        · rcases getElem?_cons_replicate _ _ _ _ _ hi with ⟨-, hx⟩ | ⟨j, -, -, hx⟩ | hx <;>
            simp at hx
      | signal i jo =>
        obtain ⟨hi, pcs1, hsig, rfl⟩ := step_signal _ _ _ _ _ hs2
        have hi0 : i = 0 := by
          rcases getElem?_cons_replicate _ _ _ _ _ hi with ⟨h0, -⟩ | ⟨j, -, -, hx⟩ | hx
          · exact h0
          · simp at hx
          · simp at hx
        subst hi0
        cases jo with
        | none =>
          exfalso
          simp [condvar_signal, any_parked_cons_replicate PC.rel_signal N k hN] at hsig
        | some q =>
          simp only [condvar_signal] at hsig
          split at hsig
          · rename_i hk
            rcases getElem?_cons_replicate _ _ _ _ _ hk with ⟨-, hx⟩ | ⟨j, hj, rfl, -⟩ | hx
            · simp at hx
            swap
            · simp at hx
            simp only [Option.some.injEq] at hsig
            subst hsig
            have hp2 : ((PC.rel_signal :: (List.replicate N PC.acq_wait
                  ++ List.replicate k PC.idle)).set (j + 1) PC.acq_woken).set 0 PC.idle
                = PC.idle :: ((List.replicate N PC.acq_wait).set j PC.acq_woken
                    ++ List.replicate k PC.idle) := by
              simp only [List.set_cons_succ, List.set_cons_zero]
              rw [List.set_append_left j _ (by simpa using hj)]
            simp only [hp2] at hrun
            cases rest with
            | nil => exact Or.inl ⟨j, hj, rfl⟩
            | cons e2 rest2 =>
              right
              have hc2 := hall e2 (by simp)
              rw [run] at hrun
              cases hs3 : step c ⟨{ m with busy := 0 },
                  PC.idle :: ((List.replicate N PC.acq_wait).set j PC.acq_woken
                    ++ List.replicate k PC.idle),
                  (log ++ tag 0 (release_section c bt m).2) ++ [(0, Effect.condvar_signal)]⟩
                  e2 with
              | none => rw [hs3] at hrun; simp at hrun
              | some s3 =>
                rw [hs3] at hrun
                simp only at hrun
                cases e2 with
                | acquire i b => simp [is_continuation] at hc2
                | release i b => simp [is_continuation] at hc2
                | yield i jo => simp [is_continuation] at hc2
                | spurious i => simp [is_continuation] at hc2
                | signal i2 jo2 =>
                  exfalso
                  obtain ⟨hi2, -⟩ := step_signal _ _ _ _ _ hs3
                  rcases getElem?_cons_replicate_set _ _ _ _ _ _ _ hi2 with
                    ⟨-, hx⟩ | ⟨-, hx⟩ | hx | hx <;> simp at hx
                | resume i2 b2 =>
                  rcases step_resume _ _ _ _ _ hs3 with ⟨hi2, rfl⟩ | ⟨hi2, -⟩
                  · rcases getElem?_cons_replicate_set _ _ _ _ _ _ _ hi2 with
                      ⟨-, hx⟩ | ⟨hij, -⟩ | hx | hx
                    · simp at hx
                    · subst hij
                      cases rest2 with
                      | nil => exact ⟨j, b2, hj, rfl⟩
                      | cons e3 rest3 =>
                        exfalso
                        have hc3 := hall e3 (by simp)
                        have hout : (acquire_resume c b2
                            ({ m with busy := 0 } : st_masterlock)).2.2 = Outcome.returned := by
                          rw [acquire_resume_free c b2 _ rfl]
                        have hp3 : ((List.replicate N PC.acq_wait).set j PC.acq_woken
                              ++ List.replicate k PC.idle).set j PC.holder
                            = (List.replicate N PC.acq_wait).set j PC.holder
                              ++ List.replicate k PC.idle := by
                          rw [List.set_append_left j _ (by simpa using hj), List.set_set]
                        simp only [hout, acquire_pc, List.set_cons_succ, hp3] at hrun
                        rw [run] at hrun
                        cases hs4 : step c ⟨(acquire_resume c b2
                              ({ m with busy := 0 } : st_masterlock)).1,
                            PC.idle :: ((List.replicate N PC.acq_wait).set j PC.holder
                              ++ List.replicate k PC.idle),
                            ((log ++ tag 0 (release_section c bt m).2)
                              ++ [(0, Effect.condvar_signal)])
                              ++ tag (j + 1) (acquire_resume c b2
                                  ({ m with busy := 0 } : st_masterlock)).2.1⟩ e3 with
                        | none => rw [hs4] at hrun; simp at hrun
                        | some s4 =>
                          cases e3 with
                          | acquire i b => simp [is_continuation] at hc3
                          | release i b => simp [is_continuation] at hc3
                          | yield i jo => simp [is_continuation] at hc3
                          | spurious i => simp [is_continuation] at hc3
                          | signal i3 jo3 =>
                            obtain ⟨hi3, -⟩ := step_signal _ _ _ _ _ hs4
                            rcases getElem?_cons_replicate_set _ _ _ _ _ _ _ hi3 with
                              ⟨-, hx⟩ | ⟨-, hx⟩ | hx | hx <;> simp at hx
                          | resume i3 b3 =>
                            rcases step_resume _ _ _ _ _ hs4 with ⟨hi3, -⟩ | ⟨hi3, -⟩
                            · rcases getElem?_cons_replicate_set _ _ _ _ _ _ _ hi3 with
                                ⟨-, hx⟩ | ⟨-, hx⟩ | hx | hx <;> simp at hx
                            · rcases getElem?_cons_replicate_set _ _ _ _ _ _ _ hi3 with
                                ⟨-, hx⟩ | ⟨-, hx⟩ | hx | hx <;> simp at hx
                    · simp at hx
                    · simp at hx
                  · exfalso
                    rcases getElem?_cons_replicate_set _ _ _ _ _ _ _ hi2 with
                      ⟨-, hx⟩ | ⟨-, hx⟩ | hx | hx <;> simp at hx
          · rename_i hk
            exfalso
            rcases getElem?_cons_replicate _ _ _ _ _ hk with ⟨-, hx⟩ | ⟨j, -, -, hx⟩ | hx <;>
              simp at hx
          · simp at hsig

theorem run_append (c : Config) (a b : List Event) :
    ∀ s : Sys, run c s (a ++ b) = (run c s a).bind (fun s1 => run c s1 b) := by
  induction a with
  | nil => intro s; rfl
  | cons e a ih =>
    intro s
    simp only [List.cons_append, run]
    cases step c s e with
    | none => rfl
    | some s1 => exact ih s1

/-- The claim C9 as stated fails.  Two threads are parked in acquire on the
lock thread 0 holds.  Thread 0 releases once and its signal wakes thread 1;
thread 0 then calls acquire again (lines 164-169 of the source describe this
race) and finds the lock free; thread 1 returns from its wait, finds
`busy = 1` and waits again.  The run has no spurious wakeup and, after the
release, no release or yield.  At its end none of the two threads has
completed its acquire, both are parked and `waiters = 2`, and no step is
possible but a spurious wakeup, a release or a yield. -/
theorem no_missed_wakeup_counterexample :
    run ⟨0, 1⟩ ⟨⟨1, 1, 2⟩, [PC.holder, PC.acq_wait, PC.acq_wait], []⟩
        [Event.release 0 0, Event.signal 0 (some 1), Event.acquire 0 0, Event.resume 1 0]
      = some ⟨⟨1, 1, 2⟩, [PC.holder, PC.acq_wait, PC.acq_wait],
          [(0, Effect.mutex_lock), (0, Effect.set_busy 0), (0, Effect.mutex_unlock),
           (0, Effect.condvar_signal),
           (0, Effect.mutex_lock), (0, Effect.read_busy 0), (0, Effect.set_busy 1),
           (0, Effect.mutex_unlock),
           (1, Effect.condvar_wake), (1, Effect.decr_waiters), (1, Effect.read_busy 1),
           (1, Effect.incr_waiters), (1, Effect.condvar_wait)]⟩
    ∧ (∀ e ∈ [Event.signal 0 (some 1), Event.acquire 0 0, Event.resume 1 0],
        is_spurious e = false ∧ is_release_or_yield e = false)
    ∧ [PC.acq_wait, PC.acq_wait].countP is_holder = 0
    ∧ [PC.acq_wait, PC.acq_wait].countP is_parked = 2
    ∧ st_masterlock_waiters ⟨1, 1, 2⟩ = 2
    ∧ (∀ (log : List (Nat × Effect)) (e : Event),
        is_spurious e = false → is_release_or_yield e = false →
        step ⟨0, 1⟩ ⟨⟨1, 1, 2⟩, [PC.holder, PC.acq_wait, PC.acq_wait], log⟩ e = none) := by
  refine ⟨by decide, by decide, by decide, by decide, rfl, ?_⟩
  intro log e hs hr
  cases e with
  | acquire i bt =>
    rcases i with _ | _ | _ | i <;> simp [step]
  | release i bt => simp [is_release_or_yield] at hr
  | signal i j =>
    rcases i with _ | _ | _ | i <;> simp [step]
  | yield i j => simp [is_release_or_yield] at hr
  | resume i bt =>
    rcases i with _ | _ | _ | i <;> simp [step]
  | spurious i => simp [is_spurious] at hs

/-- C9, amended.  No missed wakeup when nobody else takes the lock.  The lock
is held by thread 0, `N ≥ 1` threads (a number a `uintnat` can hold) are
parked in `st_masterlock_acquire`, with `waiters = N`, and `k` other threads
are outside the lock.  (1) For each parked thread `j + 1`: the holder
releases, its signal wakes that thread, the thread returns from its wait,
and the state is then `busy = 1`, `waiters = N - 1`, thread `j + 1` the
holder and every other thread of the `N` still parked.  (2) In that state
exactly one thread is a holder and `N - 1` are asleep in the wait.  (3) After
the release, as long as there is no new call (acquire, release or yield) and
no spurious wakeup, nothing else can happen: the only runs are the signal to
some parked thread (never a lost signal) and then the return of that thread;
after these no further step is possible.  (4) Every such run that has come to
its end (no signal or return from a wait is left to happen) ends with exactly
one of the `N` threads the holder, the other `N - 1` parked and
`st_masterlock_waiters` equal to `N - 1`. -/
theorem no_missed_wakeup (c : Config) (m : st_masterlock) (N k : Nat)
    (log : List (Nat × Effect)) (hN : 1 ≤ N) (hM : N < uintnat_modulus)
    (hw : m.waiters = N) :
    (∀ j bt bt2 : Nat, j < N →
      (run c ⟨m, PC.holder :: (List.replicate N PC.acq_wait ++ List.replicate k PC.idle),
            log⟩
          [Event.release 0 bt, Event.signal 0 (some (j + 1)), Event.resume (j + 1) bt2]).map
          (fun s => (s.m, s.pcs))
        = some ({ m with busy := 1, waiters := N - 1 },
                PC.idle :: ((List.replicate N PC.acq_wait).set j PC.holder
                            ++ List.replicate k PC.idle)))
    ∧ (∀ j : Nat, j < N →
        (PC.idle :: ((List.replicate N PC.acq_wait).set j PC.holder
            ++ List.replicate k PC.idle)).countP is_holder = 1
        ∧ (PC.idle :: ((List.replicate N PC.acq_wait).set j PC.holder
            ++ List.replicate k PC.idle)).countP is_parked = N - 1
        ∧ (PC.idle :: ((List.replicate N PC.acq_wait).set j PC.holder
            ++ List.replicate k PC.idle))[j + 1]? = some PC.holder)
    ∧ (∀ (bt : Nat) (evs : List Event) (s' : Sys),
        (∀ e ∈ evs, is_continuation e = true) →
        run c ⟨m, PC.holder :: (List.replicate N PC.acq_wait ++ List.replicate k PC.idle),
            log⟩ (Event.release 0 bt :: evs) = some s' →
        evs = []
        ∨ (∃ j, j < N ∧ evs = [Event.signal 0 (some (j + 1))])
        ∨ (∃ j bt2, j < N
            ∧ evs = [Event.signal 0 (some (j + 1)), Event.resume (j + 1) bt2]))
    ∧ (∀ (bt : Nat) (evs : List Event) (s' : Sys),
        (∀ e ∈ evs, is_continuation e = true) →
        run c ⟨m, PC.holder :: (List.replicate N PC.acq_wait ++ List.replicate k PC.idle),
            log⟩ (Event.release 0 bt :: evs) = some s' →
        (∀ e : Event, is_continuation e = true → step c s' e = none) →
        ∃ j bt2, j < N
          ∧ evs = [Event.signal 0 (some (j + 1)), Event.resume (j + 1) bt2]
          ∧ s'.m = { m with busy := 1, waiters := N - 1 }
          ∧ s'.pcs = PC.idle :: ((List.replicate N PC.acq_wait).set j PC.holder
                                  ++ List.replicate k PC.idle)
          ∧ s'.pcs[j + 1]? = some PC.holder
          ∧ s'.pcs.countP is_holder = 1
          ∧ s'.pcs.countP is_parked = N - 1
          ∧ st_masterlock_waiters s'.m = N - 1) := by
  have hcount : ∀ j : Nat, j < N →
      (PC.idle :: ((List.replicate N PC.acq_wait).set j PC.holder
          ++ List.replicate k PC.idle)).countP is_holder = 1
      ∧ (PC.idle :: ((List.replicate N PC.acq_wait).set j PC.holder
          ++ List.replicate k PC.idle)).countP is_parked = N - 1
      ∧ (PC.idle :: ((List.replicate N PC.acq_wait).set j PC.holder
          ++ List.replicate k PC.idle))[j + 1]? = some PC.holder := by
    intro j hj
    have hget : (List.replicate N PC.acq_wait)[j]? = some PC.acq_wait :=
      List.getElem?_replicate_of_lt hj
    have h1 := countP_set_of_getElem? is_holder (List.replicate N PC.acq_wait) j
      PC.acq_wait PC.holder hget
    have h2 := countP_set_of_getElem? is_parked (List.replicate N PC.acq_wait) j
      PC.acq_wait PC.holder hget
    simp only [is_holder, is_parked, Bool.false_eq_true, if_false, if_true,
      List.countP_replicate] at h1 h2
    have z1 := countP_replicate_idle is_holder rfl k
    have z2 := countP_replicate_idle is_parked rfl k
    refine ⟨?_, ?_, ?_⟩
    · simp only [List.countP_cons, List.countP_append, z1, is_holder, Bool.false_eq_true,
        if_false]
      omega
    · simp only [List.countP_cons, List.countP_append, z2, is_parked, Bool.false_eq_true,
        if_false]
      omega
    · rw [List.getElem?_cons_succ, List.getElem?_append_left (by simpa using hj),
        List.getElem?_set_self']
      simp [hj]
  refine ⟨?_, hcount, ?_, ?_⟩
  · intro j bt bt2 hj
    exact release_wakes_one c bt bt2 m N k j log hj hM hw
  · intro bt evs s' hall hrun
    exact release_continuations c bt m N k log evs s' hN hall hrun
  · intro bt evs s' hall hrun hq
    rcases release_continuations c bt m N k log evs s' hN hall hrun with
      rfl | ⟨j, hj, rfl⟩ | ⟨j, bt2, hj, rfl⟩
    · exfalso
      obtain ⟨s3, hr3, -⟩ :=
        Option.map_eq_some'.mp (release_wakes_one c bt 0 m N k 0 log (by omega) hM hw)
      have hr4 : run c ⟨m, PC.holder :: (List.replicate N PC.acq_wait
            ++ List.replicate k PC.idle), log⟩
          ([Event.release 0 bt] ++ [Event.signal 0 (some (0 + 1)), Event.resume (0 + 1) 0])
            = some s3 := hr3
      rw [run_append, hrun] at hr4
      simp only [Option.some_bind, run] at hr4
      rw [hq (Event.signal 0 (some (0 + 1))) rfl] at hr4
      simp at hr4
    · exfalso
      obtain ⟨s3, hr3, -⟩ :=
        Option.map_eq_some'.mp (release_wakes_one c bt 0 m N k j log hj hM hw)
      have hr4 : run c ⟨m, PC.holder :: (List.replicate N PC.acq_wait
            ++ List.replicate k PC.idle), log⟩
          ([Event.release 0 bt, Event.signal 0 (some (j + 1))] ++ [Event.resume (j + 1) 0])
            = some s3 := hr3
      rw [run_append, hrun] at hr4
      simp only [Option.some_bind, run] at hr4
      rw [hq (Event.resume (j + 1) 0) rfl] at hr4
      simp at hr4
    · have h3 := release_wakes_one c bt bt2 m N k j log hj hM hw
      rw [hrun] at h3
      simp only [Option.map_some', Option.some.injEq, Prod.mk.injEq] at h3
      obtain ⟨hm, hp⟩ := h3
      obtain ⟨c1, c2, c3⟩ := hcount j hj
      refine ⟨j, bt2, hj, rfl, hm, hp, ?_, ?_, ?_, ?_⟩
      · rw [hp]; exact c3
      · rw [hp]; exact c1
      · rw [hp]; exact c2
      · rw [hm]; rfl

/-- Witness for C9: three threads parked and one outside; the signal wakes
thread 2, which becomes the holder while threads 1 and 3 stay parked, and
`waiters` is 2. -/
theorem no_missed_wakeup_witness :
    (1 ≤ 3 ∧ 3 < uintnat_modulus ∧ (⟨1, 1, 3⟩ : st_masterlock).waiters = 3)
    ∧ (run ⟨0, 1⟩ ⟨⟨1, 1, 3⟩,
            PC.holder :: (List.replicate 3 PC.acq_wait ++ List.replicate 1 PC.idle), []⟩
          [Event.release 0 0, Event.signal 0 (some (1 + 1)), Event.resume (1 + 1) 0]).map
          (fun s => (s.m, s.pcs))
        = some ({ (⟨1, 1, 3⟩ : st_masterlock) with busy := 1, waiters := 3 - 1 },
                PC.idle :: ((List.replicate 3 PC.acq_wait).set 1 PC.holder
                            ++ List.replicate 1 PC.idle))
    ∧ (run ⟨0, 1⟩ ⟨⟨1, 1, 3⟩, [PC.holder, PC.acq_wait, PC.acq_wait, PC.acq_wait, PC.idle],
            []⟩
          [Event.release 0 0, Event.signal 0 (some 2), Event.resume 2 0]).map
          (fun s => (s.m, s.pcs))
        = some (⟨1, 1, 2⟩, [PC.idle, PC.acq_wait, PC.holder, PC.acq_wait, PC.idle])
    ∧ run ⟨0, 1⟩ ⟨⟨1, 1, 3⟩, [PC.holder, PC.acq_wait, PC.acq_wait, PC.acq_wait, PC.idle],
            []⟩
          [Event.release 0 0, Event.signal 0 none] = none :=
  ⟨⟨by decide, by decide, rfl⟩,
   (no_missed_wakeup ⟨0, 1⟩ ⟨1, 1, 3⟩ 3 1 [] (by decide) (by decide) rfl).1 1 0 0 (by decide),
   by decide, by decide⟩

theorem event_wait_loop_wait_fails (rc_unlock rc s : Int) (post : List (Int × Int))
    (pre : List Int) :
    ∀ (t : List EventEffect), (∀ x ∈ pre, x = 0) → rc ≠ 0 →
      event_wait_loop rc_unlock 0 t (pre.map (fun x => (0, x)) ++ (rc, s) :: post)
        = some (rc, { status := s },
            t ++ pre.flatMap (fun _ =>
                  [EventEffect.read_status 0, EventEffect.condvar_wait 0])
              ++ [EventEffect.read_status 0, EventEffect.condvar_wait rc]) := by
  induction pre with
  | nil =>
    intro t _ hrc
    simp [event_wait_loop, hrc]
  | cons x pre ih =>
    intro t h hrc
    have hx : x = 0 := h x (by simp)
    subst hx
    rw [List.map_cons, List.cons_append, event_wait_loop_unfired_cons,
      ih _ (fun y hy => h y (by simp [hy])) hrc]
    simp

theorem event_retries_counts (pre : List Int) :
    (pre.flatMap (fun _ =>
        [EventEffect.read_status 0, EventEffect.condvar_wait 0])).countP is_read_status
      = pre.length
    ∧ (pre.flatMap (fun _ =>
        [EventEffect.read_status 0, EventEffect.condvar_wait 0])).countP is_event_wait
      = pre.length := by
  induction pre with
  | nil => simp
  | cons x pre ih =>
    obtain ⟨h1, h2⟩ := ih
    simp only [List.flatMap_cons, List.countP_append, h1, h2, List.length_cons]
    simp [List.countP_cons, is_read_status, is_event_wait]
    omega

/-- C21.  The error paths of `st_event_wait` keep the mutex.  The event is
unfired, the lock succeeds, the wakeups before the failing one return 0 and
find `status = 0` (statuses `pre`), and then `custom_condvar_wait` returns
`rc ≠ 0`.  (1) `st_event_wait` returns, its result is `rc`, whatever status
`s` is there at that moment, whatever would come after and whatever the
unlock would have returned.  (2) Its trace is the lock, one read of `status`
and one wait per wakeup, and ends with the failing wait: as many reads of
`status` as waits, each read yielding 0, so `status` is not read again after
the failure; and it holds no unlock of the event mutex.  (3) When the initial
`pthread_mutex_lock` returns `rc_lock ≠ 0`, on any event and with any
wakeups, `st_event_wait` returns `rc_lock` and its whole trace is that lock
call: no wait, no read of `status`. -/
theorem st_event_wait_error_path (e : st_event) (rc_unlock rc s : Int) (pre : List Int)
    (post : List (Int × Int)) (he : e.status = 0) (hrc : rc ≠ 0)
    (hpre : ∀ x ∈ pre, x = 0) :
    st_event_wait 0 rc_unlock e (pre.map (fun x => (0, x)) ++ (rc, s) :: post)
      = some (rc, { status := s },
          [EventEffect.mutex_lock 0]
            ++ pre.flatMap (fun _ =>
                [EventEffect.read_status 0, EventEffect.condvar_wait 0])
            ++ [EventEffect.read_status 0, EventEffect.condvar_wait rc])
    ∧ (∀ r : Int × st_event × List EventEffect,
        st_event_wait 0 rc_unlock e (pre.map (fun x => (0, x)) ++ (rc, s) :: post) = some r →
          r.1 = rc
          ∧ r.2.2.head? = some (EventEffect.mutex_lock 0)
          ∧ r.2.2.getLast? = some (EventEffect.condvar_wait rc)
          ∧ r.2.2.countP is_event_wait = pre.length + 1
          ∧ r.2.2.countP is_read_status = pre.length + 1
          ∧ (∀ v : Int, EventEffect.read_status v ∈ r.2.2 → v = 0)
          ∧ r.2.2.countP is_event_unlock = 0)
    ∧ (∀ (e' : st_event) (rc_lock : Int) (ws : List (Int × Int)), rc_lock ≠ 0 →
        st_event_wait rc_lock rc_unlock e' ws
          = some (rc_lock, e', [EventEffect.mutex_lock rc_lock])) := by
  have hmain : st_event_wait 0 rc_unlock e (pre.map (fun x => (0, x)) ++ (rc, s) :: post)
      = some (rc, { status := s },
          [EventEffect.mutex_lock 0]
            ++ pre.flatMap (fun _ =>
                [EventEffect.read_status 0, EventEffect.condvar_wait 0])
            ++ [EventEffect.read_status 0, EventEffect.condvar_wait rc]) := by
    unfold st_event_wait
    rw [if_neg (by simp), he]
    exact event_wait_loop_wait_fails rc_unlock rc s post pre _ hpre hrc
  refine ⟨hmain, ?_, ?_⟩
  · intro r hr
    rw [hmain] at hr
    obtain rfl := Option.some.inj hr
    obtain ⟨h1, h2⟩ := event_retries_counts pre
    refine ⟨rfl, by simp, ?_, ?_, ?_, ?_, ?_⟩
    · have hl : [EventEffect.mutex_lock 0]
            ++ pre.flatMap (fun _ =>
                [EventEffect.read_status 0, EventEffect.condvar_wait 0])
            ++ [EventEffect.read_status 0, EventEffect.condvar_wait rc]
          = ([EventEffect.mutex_lock 0]
            ++ pre.flatMap (fun _ =>
                [EventEffect.read_status 0, EventEffect.condvar_wait 0])
            ++ [EventEffect.read_status 0]) ++ [EventEffect.condvar_wait rc] := by simp
      show List.getLast? _ = _
      rw [hl, List.getLast?_concat]
    · simp only [List.countP_append, h2]
      simp [List.countP_cons, is_event_wait]
    · simp only [List.countP_append, h1]
      simp [List.countP_cons, is_read_status]
    · intro v hv
      simp only [List.mem_append, List.mem_flatMap, List.mem_cons, List.mem_singleton,
        List.not_mem_nil, or_false] at hv
      rcases hv with (h | ⟨_, _, h | h⟩) | h | h <;> cases h <;> rfl
    · rw [List.countP_eq_zero]
      intro x hx
      simp only [List.mem_append, List.mem_flatMap, List.mem_cons, List.mem_singleton,
        List.not_mem_nil, or_false] at hx
      rcases hx with (rfl | ⟨_, _, rfl | rfl⟩) | rfl | rfl <;> simp [is_event_unlock]
  · intro e' rc_lock ws hl
    unfold st_event_wait
    rw [if_pos hl]

/-- Witness for C21: an unfired event, two wakeups that find it unfired, then
a wait that fails with code 22 at a moment the event is fired. -/
theorem st_event_wait_error_path_witness :
    ((⟨0⟩ : st_event).status = 0 ∧ (22 : Int) ≠ 0 ∧ ∀ x ∈ [(0 : Int), 0], x = 0)
    ∧ st_event_wait 0 0 ⟨0⟩ ([(0 : Int), 0].map (fun x => (0, x)) ++ (22, 1) :: [(0, 1)])
      = some (22, ⟨1⟩,
          [EventEffect.mutex_lock 0]
            ++ [(0 : Int), 0].flatMap (fun _ =>
                [EventEffect.read_status 0, EventEffect.condvar_wait 0])
            ++ [EventEffect.read_status 0, EventEffect.condvar_wait 22])
    ∧ st_event_wait 0 0 ⟨0⟩ [(0, 0), (0, 0), (22, 1), (0, 1)]
      = some (22, ⟨1⟩,
          [EventEffect.mutex_lock 0, EventEffect.read_status 0, EventEffect.condvar_wait 0,
           EventEffect.read_status 0, EventEffect.condvar_wait 0,
           EventEffect.read_status 0, EventEffect.condvar_wait 22])
    ∧ st_event_wait 11 0 ⟨0⟩ [(0, 1)] = some (11, ⟨0⟩, [EventEffect.mutex_lock 11]) :=
  ⟨⟨rfl, by decide, by decide⟩,
   (st_event_wait_error_path ⟨0⟩ 0 22 1 [0, 0] [(0, 1)] rfl (by decide) (by decide)).1,
   by decide,
   by decide⟩

end StPthreads
